import Mathlib

/-! wails-encoder: options validation and FFmpeg command compilation.

A shallow embedding of `pkg/encoder/options.go`, `pkg/encoder/progress.go`,
`pkg/encoder/encoder.go`, `pkg/codec/codec.go` and the legacy `Validate` of `app.go`.

* Go `string` is modelled by `String` (the embedded code only compares strings, joins them
  and cuts them at ASCII characters), Go `int` by `Int` (the embedded code only
  compares and prints integers, it never does arithmetic on them).
* The diagnostic stream of a subprocess and its lines are lists of bytes.
* Go `error` is modelled by `Option String`: `none` is `nil`, `some msg` carries the
  text produced by `fmt.Errorf`.
* A method with a pointer receiver that mutates its receiver returns the receiver's
  final value next to its result.
-/

namespace Encoder

/-! ## Data model -/

/-- The Go type `QualityMode` is a named string type. -/
abbrev QualityMode := String

/-- Constant `QualityModeCRF`. -/
def QualityModeCRF : QualityMode := "crf"

/-- Constant `QualityModeBitrate`. -/
def QualityModeBitrate : QualityMode := "bitrate"

/-- Struct `EncodingOptions` of `pkg/encoder/options.go`. -/
structure EncodingOptions where
  VideoFormat : String
  VideoCodec : String
  QualityMode : QualityMode
  QualityValue : Int
  Use2Pass : Bool
  IsResize : Bool
  Width : Int
  Height : Int
  OutputPath : String
  Prefix : String
  Postfix : String
  AudioCodec : String
  AudioBitrate : Int
  AudioSamplerate : Int
  deriving DecidableEq

/-- The anonymous struct `qualityRange` of a `codecSettings` entry. -/
structure QualityRange where
  min : Int
  max : Int
  default_ : Int
  deriving DecidableEq

/-- The anonymous struct that is the value type of `codecSettings`. -/
structure CodecSetting where
  defaultMode : QualityMode
  qualityRange : QualityRange
  deriving DecidableEq

/-- The entries of the map `codec.SupportedFormats` (`pkg/codec/codec.go`). -/
def SupportedFormatsTable : List (String × List String) :=
  [ ("mp4", ["h264", "h264_nvenc", "h264_qsv", "hevc", "hevc_nvenc", "hevc_qsv",
             "hevc_videotoolbox"]),
    ("webm", ["vp8", "vp9"]) ]

/-- Map lookup `codec.SupportedFormats[k]` in its two-result form. -/
def SupportedFormats (k : String) : Option (List String) :=
  SupportedFormatsTable.lookup k

/-- The entries of the map `codecSettings` (`pkg/encoder/options.go`). -/
def codecSettingsTable : List (String × CodecSetting) :=
  [ ("h264", { defaultMode := QualityModeCRF, qualityRange := { min := 0, max := 51, default_ := 23 } }),
    ("hevc", { defaultMode := QualityModeCRF, qualityRange := { min := 0, max := 51, default_ := 28 } }),
    ("vp9",  { defaultMode := QualityModeCRF, qualityRange := { min := 0, max := 63, default_ := 31 } }) ]

/-- Map lookup `codecSettings[k]` in its two-result form. -/
def codecSettings (k : String) : Option CodecSetting :=
  codecSettingsTable.lookup k

/-! ## Formatting helpers -/

/-- The verb `%d` of `fmt.Sprintf` applied to an `int`: decimal digits, with a
leading minus sign for a negative number. -/
def fmtD (n : Int) : String :=
  match n with
  | Int.ofNat m => Nat.repr m
  | Int.negSucc m => "-" ++ Nat.repr (m + 1)

/-- The expression `strings.Split(s, "_")[0]`: the part of `s` before its first
underscore, all of `s` when it has none. -/
def baseCodecOf (s : String) : String :=
  String.mk (s.data.takeWhile (fun c => c != '_'))

/-! ## Validate -/

/-- Method `(*EncodingOptions).Validate` of `pkg/encoder/options.go`: the returned
pair is the error and the receiver after the call. -/
def Validate (opts : EncodingOptions) : Option String × EncodingOptions :=
  match SupportedFormats opts.VideoFormat with
  | none => (some ("unsupported video format: " ++ opts.VideoFormat), opts)
  | some supportedCodecs =>
    let codecSupported := supportedCodecs.any (fun codec => opts.VideoCodec == codec)
    if !codecSupported then
      (some ("unsupported codec " ++ opts.VideoCodec ++ " for format " ++ opts.VideoFormat), opts)
    else
      let baseCodec := baseCodecOf opts.VideoCodec
      match codecSettings baseCodec with
      | some codecSet =>
        let opts1 :=
          if opts.QualityValue = 0 then
            { opts with QualityMode := codecSet.defaultMode,
                        QualityValue := codecSet.qualityRange.default_ }
          else opts
        if opts1.QualityValue < codecSet.qualityRange.min ∨
            opts1.QualityValue > codecSet.qualityRange.max then
          (some ("quality value " ++ fmtD opts1.QualityValue ++ " out of range ["
                  ++ fmtD codecSet.qualityRange.min ++ "-" ++ fmtD codecSet.qualityRange.max
                  ++ "] for codec " ++ opts1.VideoCodec), opts1)
        else if opts1.Use2Pass && opts1.QualityMode != QualityModeBitrate then
          (some "2-pass encoding is only available with bitrate mode", opts1)
        else (none, opts1)
      | none =>
        if opts.Use2Pass && opts.QualityMode != QualityModeBitrate then
          (some "2-pass encoding is only available with bitrate mode", opts)
        else (none, opts)


/-! ## Command compiler -/

/-- The host families that decide the value of the Go constant `os.DevNull`. -/
inductive HostOS where
  | unixLike
  | windows
  deriving DecidableEq

/-- The Go standard-library constant `os.DevNull`. -/
def DevNull : HostOS → String
  | HostOS.unixLike => "/dev/null"
  | HostOS.windows => "NUL"

/-- Method `(*EncodingOptions).BuildFFmpegArgs`: the argument slice and the error
(always `nil`). Every `append` of the source is one step here. -/
def BuildFFmpegArgs (opts : EncodingOptions) (inputPath : String) :
    List String × Option String :=
  let args := ["-i", inputPath]
  let args := args ++ ["-c:v", opts.VideoCodec]
  let args :=
    if opts.QualityMode = QualityModeCRF then
      args ++ ["-crf", fmtD opts.QualityValue]
    else if opts.QualityMode = QualityModeBitrate then
      args ++ ["-b:v", fmtD opts.QualityValue ++ "k"]
    else args
  let args :=
    if opts.IsResize && decide (opts.Width > 0) && decide (opts.Height > 0) then
      args ++ ["-vf", "scale=" ++ fmtD opts.Width ++ ":" ++ fmtD opts.Height]
    else args
  let args :=
    if opts.AudioCodec != "" then args ++ ["-c:a", opts.AudioCodec]
    else args ++ ["-c:a", "copy"]
  let args :=
    if opts.AudioBitrate > 0 then args ++ ["-b:a", fmtD opts.AudioBitrate ++ "k"] else args
  let args :=
    if opts.AudioSamplerate > 0 then args ++ ["-ar", fmtD opts.AudioSamplerate] else args
  (args, none)

/-- Method `(*EncodingOptions).Build2PassArgs`: the first-pass and the second-pass
argument slices. The extra argument `host` fixes the value of `os.DevNull`. -/
def Build2PassArgs (host : HostOS) (opts : EncodingOptions) (inputPath : String)
    (passLogFile : String) : List String × List String :=
  let pass1Args :=
    ["-i", inputPath,
     "-c:v", opts.VideoCodec,
     "-b:v", fmtD opts.QualityValue ++ "k",
     "-pass", "1",
     "-passlogfile", passLogFile,
     "-an",
     "-f", "null"]
  let pass1Args :=
    if opts.IsResize && decide (opts.Width > 0) && decide (opts.Height > 0) then
      pass1Args ++ ["-vf", "scale=" ++ fmtD opts.Width ++ ":" ++ fmtD opts.Height]
    else pass1Args
  let pass1Args := pass1Args ++ [DevNull host]
  let pass2Args :=
    ["-i", inputPath,
     "-c:v", opts.VideoCodec,
     "-b:v", fmtD opts.QualityValue ++ "k",
     "-pass", "2",
     "-passlogfile", passLogFile]
  let pass2Args :=
    if opts.IsResize && decide (opts.Width > 0) && decide (opts.Height > 0) then
      pass2Args ++ ["-vf", "scale=" ++ fmtD opts.Width ++ ":" ++ fmtD opts.Height]
    else pass2Args
  let pass2Args :=
    if opts.AudioCodec != "" then pass2Args ++ ["-c:a", opts.AudioCodec]
    else pass2Args ++ ["-c:a", "copy"]
  let pass2Args :=
    if opts.AudioBitrate > 0 then pass2Args ++ ["-b:a", fmtD opts.AudioBitrate ++ "k"]
    else pass2Args
  let pass2Args :=
    if opts.AudioSamplerate > 0 then pass2Args ++ ["-ar", fmtD opts.AudioSamplerate]
    else pass2Args
  (pass1Args, pass2Args)

/-! ## Sample inputs -/

/-- A request for VP8 in WebM with every optional field left at its zero value. -/
def optsVp8Unset : EncodingOptions :=
  { VideoFormat := "webm", VideoCodec := "vp8", QualityMode := "", QualityValue := 0,
    Use2Pass := false, IsResize := false, Width := 0, Height := 0, OutputPath := "",
    Prefix := "", Postfix := "", AudioCodec := "", AudioBitrate := 0, AudioSamplerate := 0 }

/-- A request for NVENC H.264 in MP4 with the quality left unset. -/
def optsNvencUnset : EncodingOptions :=
  { VideoFormat := "mp4", VideoCodec := "h264_nvenc", QualityMode := "", QualityValue := 0,
    Use2Pass := false, IsResize := false, Width := 0, Height := 0, OutputPath := "",
    Prefix := "", Postfix := "", AudioCodec := "", AudioBitrate := 0, AudioSamplerate := 0 }

/-- A two-pass H.264 request at 2000 kbit/s with resize and explicit audio settings. -/
def optsH264TwoPass : EncodingOptions :=
  { VideoFormat := "mp4", VideoCodec := "h264", QualityMode := "bitrate", QualityValue := 2000,
    Use2Pass := true, IsResize := true, Width := 1280, Height := 720, OutputPath := "",
    Prefix := "", Postfix := "", AudioCodec := "aac", AudioBitrate := 128,
    AudioSamplerate := 44100 }

/-- An H.264 request with CRF 23 whose quality mode is the empty string. -/
def optsH264NoMode : EncodingOptions :=
  { VideoFormat := "mp4", VideoCodec := "h264", QualityMode := "", QualityValue := 23,
    Use2Pass := false, IsResize := false, Width := 0, Height := 0, OutputPath := "",
    Prefix := "", Postfix := "", AudioCodec := "", AudioBitrate := 0, AudioSamplerate := 0 }

/-- An H.264 request with CRF 23 and resize to 1280x720. -/
def optsH264Crf : EncodingOptions :=
  { VideoFormat := "mp4", VideoCodec := "h264", QualityMode := "crf", QualityValue := 23,
    Use2Pass := false, IsResize := true, Width := 1280, Height := 720, OutputPath := "",
    Prefix := "", Postfix := "", AudioCodec := "", AudioBitrate := 0, AudioSamplerate := 0 }

/-- A request for the container `avi`, which is not a key of `SupportedFormats`. -/
def optsAvi : EncodingOptions :=
  { VideoFormat := "avi", VideoCodec := "h264", QualityMode := "crf", QualityValue := 23,
    Use2Pass := false, IsResize := false, Width := 0, Height := 0, OutputPath := "",
    Prefix := "", Postfix := "", AudioCodec := "", AudioBitrate := 0, AudioSamplerate := 0 }

/-- A request for VP9 in MP4: a known codec that is not in the list of its format. -/
def optsVp9InMp4 : EncodingOptions :=
  { VideoFormat := "mp4", VideoCodec := "vp9", QualityMode := "crf", QualityValue := 31,
    Use2Pass := false, IsResize := false, Width := 0, Height := 0, OutputPath := "",
    Prefix := "", Postfix := "", AudioCodec := "", AudioBitrate := 0, AudioSamplerate := 0 }

/-- A two-pass request in CRF mode whose quality is unset. -/
def optsCrfTwoPass : EncodingOptions :=
  { VideoFormat := "mp4", VideoCodec := "hevc", QualityMode := "crf", QualityValue := 0,
    Use2Pass := true, IsResize := false, Width := 0, Height := 0, OutputPath := "",
    Prefix := "", Postfix := "", AudioCodec := "", AudioBitrate := 0, AudioSamplerate := 0 }

end Encoder

/-! ## The legacy `main` package (`app.go`) -/

namespace Main

open Encoder (EncodingOptions CodecSetting QualityModeCRF QualityModeBitrate fmtD baseCodecOf)

/-- The entries of the package-level map `supportedFormats` of `app.go`. -/
def supportedFormatsTable : List (String × List String) :=
  [ ("mp4", ["h264", "h264_nvenc", "h264_qsv", "hevc", "hevc_nvenc", "hevc_qsv",
             "hevc_videotoolbox"]),
    ("webm", ["vp8", "vp9"]) ]

/-- Map lookup `supportedFormats[k]` in its two-result form. -/
def supportedFormats (k : String) : Option (List String) :=
  supportedFormatsTable.lookup k

/-- The entries of the package-level map `codecSettings` of `app.go`. -/
def codecSettingsTable : List (String × CodecSetting) :=
  [ ("h264", { defaultMode := QualityModeCRF, qualityRange := { min := 0, max := 51, default_ := 23 } }),
    ("hevc", { defaultMode := QualityModeCRF, qualityRange := { min := 0, max := 51, default_ := 28 } }),
    ("vp9",  { defaultMode := QualityModeCRF, qualityRange := { min := 0, max := 63, default_ := 31 } }) ]

/-- Map lookup `codecSettings[k]` in its two-result form. -/
def codecSettings (k : String) : Option CodecSetting :=
  codecSettingsTable.lookup k

/-- Method `(*EncodingOptions).Validate` of `app.go`. Its options struct has the same
fields as the one of `pkg/encoder`, which is used here. -/
def Validate (opts : EncodingOptions) : Option String × EncodingOptions :=
  match supportedFormats opts.VideoFormat with
  | none => (some ("unsupported video format: " ++ opts.VideoFormat), opts)
  | some supportedCodecs =>
    let codecSupported := supportedCodecs.any (fun codec => opts.VideoCodec == codec)
    if !codecSupported then
      (some ("unsupported codec " ++ opts.VideoCodec ++ " for format " ++ opts.VideoFormat), opts)
    else
      let found :=
        match codecSettings opts.VideoCodec with
        | some codecSet => some codecSet
        | none => codecSettings (baseCodecOf opts.VideoCodec)
      match found with
      | none => (some ("no settings found for codec: " ++ opts.VideoCodec), opts)
      | some codecSet =>
        let opts1 :=
          if opts.QualityValue = 0 then
            { opts with QualityMode := codecSet.defaultMode,
                        QualityValue := codecSet.qualityRange.default_ }
          else opts
        if opts1.QualityValue < codecSet.qualityRange.min ∨
            opts1.QualityValue > codecSet.qualityRange.max then
          (some ("quality value " ++ fmtD opts1.QualityValue ++ " out of range ["
                  ++ fmtD codecSet.qualityRange.min ++ "-" ++ fmtD codecSet.qualityRange.max
                  ++ "] for codec " ++ opts1.VideoCodec), opts1)
        else if opts1.Use2Pass && opts1.QualityMode != QualityModeBitrate then
          (some "2-pass encoding is only available with bitrate mode", opts1)
        else (none, opts1)

end Main

namespace Encoder

/-! ## More sample inputs -/

/-- An H.264 request in bitrate mode with no audio codec but an audio bitrate of 128 kbit/s
and a sample rate of 44100 Hz. -/
def optsCopyWithBitrate : EncodingOptions :=
  { VideoFormat := "mp4", VideoCodec := "h264", QualityMode := "bitrate", QualityValue := 40,
    Use2Pass := true, IsResize := false, Width := 0, Height := 0, OutputPath := "",
    Prefix := "", Postfix := "", AudioCodec := "", AudioBitrate := 128,
    AudioSamplerate := 44100 }

end Encoder

/-! ## Go standard-library path and string helpers -/

namespace strings

/-- Go `strings.TrimSuffix(s, suffix)`: `s` without the trailing `suffix` when `s` ends
with it, `s` itself otherwise. -/
def TrimSuffix (s suffix : String) : String :=
  if suffix.data.isSuffixOf s.data then
    String.mk (s.data.take (s.data.length - suffix.data.length))
  else s

end strings

namespace filepath

/-- The pieces of a path between its slashes; `n` slashes give `n + 1` pieces. -/
def splitOnSlash : List Char → List (List Char)
  | [] => [[]]
  | c :: cs =>
    if c = '/' then [] :: splitOnSlash cs
    else
      match splitOnSlash cs with
      | [] => [[c]]
      | h :: t => (c :: h) :: t

/-- One step of the element loop of Go `filepath.Clean`; `out` holds the elements
kept so far, last one first. Empty and `.` elements are dropped, `..` removes the last kept
element, or is kept when the path is not rooted and nothing can be removed. -/
def cleanStep (rooted : Bool) (out : List (List Char)) (elem : List Char) :
    List (List Char) :=
  if elem = [] ∨ elem = ['.'] then out
  else if elem = ['.', '.'] then
    match out with
    | [] => if rooted then [] else [elem]
    | top :: rest => if top = ['.', '.'] then elem :: out else rest
  else elem :: out

/-- Go `filepath.Clean` on a host whose separator is the slash and that has no volume
names. -/
def Clean (path : String) : String :=
  if path = "" then "."
  else
    let rooted := path.data.head? == some '/'
    let out := ((splitOnSlash path.data).foldl (cleanStep rooted) []).reverse
    let joined := String.mk (List.intercalate ['/'] out)
    if rooted then "/" ++ joined
    else if joined = "" then "."
    else joined

/-- Go `filepath.Dir`: the cleaned part of the path up to and including its last
slash. -/
def Dir (path : String) : String :=
  Clean (String.mk (path.data.reverse.dropWhile (fun c => c != '/')).reverse)

/-- Go `filepath.Base`: the last element of the path, trailing slashes removed first;
`.` for the empty path and `/` for a path of slashes only. -/
def Base (path : String) : String :=
  if path = "" then "."
  else
    let stripped := path.data.reverse.dropWhile (fun c => c == '/')
    let name := (stripped.takeWhile (fun c => c != '/')).reverse
    if name = [] then "/" else String.mk name

/-- The backward scan of Go `filepath.Ext` over the reversed path: `acc` holds the
characters already passed. -/
def extScan : List Char → List Char → List Char
  | [], _ => []
  | c :: rest, acc =>
    if c = '/' then []
    else if c = '.' then c :: acc
    else extScan rest (c :: acc)

/-- Go `filepath.Ext`: the suffix beginning at the last dot of the last element, empty
when that element has no dot. -/
def Ext (path : String) : String :=
  String.mk (extScan path.data.reverse [])

/-- Go `filepath.Join` of two elements: empty elements are ignored, the rest is joined
with a slash and cleaned. -/
def Join (a b : String) : String :=
  if a ≠ "" then Clean (a ++ "/" ++ b)
  else if b ≠ "" then Clean b
  else ""

end filepath

namespace Encoder

/-- Method `(*EncodingOptions).getOutputPath`. -/
def getOutputPath (opts : EncodingOptions) (inputPath : String) : String :=
  if opts.OutputPath != "" then opts.OutputPath
  else
    let dir := filepath.Dir inputPath
    let filename := filepath.Base inputPath
    let ext := filepath.Ext filename
    let nameWithoutExt := strings.TrimSuffix filename ext
    let newName := nameWithoutExt
    let newName := if opts.Prefix != "" then opts.Prefix ++ newName else newName
    let newName := if opts.Postfix != "" then newName ++ opts.Postfix else newName
    filepath.Join dir (newName ++ "." ++ opts.VideoFormat)

/-- The options of the output-path example: prefix `x_`, postfix `_y`, format `mp4`. -/
def optsNaming : EncodingOptions :=
  { VideoFormat := "mp4", VideoCodec := "h264", QualityMode := "crf", QualityValue := 23,
    Use2Pass := false, IsResize := false, Width := 0, Height := 0, OutputPath := "",
    Prefix := "x_", Postfix := "_y", AudioCodec := "", AudioBitrate := 0, AudioSamplerate := 0 }

/-- A request with an explicit output path. -/
def optsExplicitOut : EncodingOptions :=
  { VideoFormat := "mp4", VideoCodec := "h264", QualityMode := "crf", QualityValue := 23,
    Use2Pass := false, IsResize := false, Width := 0, Height := 0,
    OutputPath := "/out/final.mp4", Prefix := "x_", Postfix := "_y", AudioCodec := "",
    AudioBitrate := 0, AudioSamplerate := 0 }

end Encoder

namespace Encoder

/-! ## Progress reader: tokenizer

The diagnostic stream is a sequence of bytes; a byte is modelled by a natural number
(below 256 for a real byte; nothing in the embedded code depends on the bound). -/

/-- The bytes of an ASCII text. -/
def bytesOf (s : String) : List Nat :=
  s.data.map Char.toNat

/-- The loop of Go `bytes.IndexAny` over the bytes from index `i` on, which are `data`. -/
def IndexAnyFrom (chars : List Nat) : List Nat → Nat → Option Nat
  | [], _ => none
  | b :: rest, i => if b ∈ chars then some i else IndexAnyFrom chars rest (i + 1)

/-- Go `bytes.IndexAny(data, chars)` for ASCII `chars`: the index of the first byte of
`data` that occurs in `chars`; `none` stands for the result -1. -/
def IndexAny (data chars : List Nat) : Option Nat :=
  IndexAnyFrom chars data 0

/-- The three results `advance`, `token`, `err` of a `bufio.SplitFunc`; `none` is `nil`. -/
structure SplitResult where
  advance : Nat
  token : Option (List Nat)
  err : Option String
  deriving DecidableEq

/-- The anonymous split function that `ReadProgress` installs on its scanner. -/
def scanSplit (data : List Nat) (atEOF : Bool) : SplitResult :=
  if atEOF && data.length == 0 then
    { advance := 0, token := none, err := none }
  else
    match IndexAny data (bytesOf "\r\n") with
    | some i => { advance := i + 1, token := some (data.take i), err := none }
    | none =>
      if atEOF then { advance := data.length, token := some data, err := none }
      else { advance := 0, token := none, err := none }

/-- The tokens that successive calls of Go `bufio.Scanner.Scan` return from the buffered bytes
`buf` before the scanner reads again, and the bytes left in the buffer. The scanner calls the
split function when the buffer is not empty or the reader is at its end, returns a token that
is not `nil` after advancing, and otherwise goes on to read (or stops, at the end). A buffer
of `n` bytes holds at most `n` tokens, so `n + 1` is enough fuel. -/
def scanBuffered (atEOF : Bool) : Nat → List Nat → List (List Nat) × List Nat
  | 0, buf => ([], buf)
  | fuel + 1, buf =>
    if buf ≠ [] ∨ atEOF = true then
      match (scanSplit buf atEOF).token with
      | some tok =>
        let r := scanBuffered atEOF fuel (buf.drop (scanSplit buf atEOF).advance)
        (tok :: r.1, r.2)
      | none => ([], buf)
    else ([], buf)

/-- Go `bufio.MaxScanTokenSize`: the largest buffer that a scanner made by
`bufio.NewScanner` allocates, 64 KiB. -/
def MaxScanTokenSize : Nat := 64 * 1024

/-- Go `startBufSize` of package `bufio`: the size of the first buffer. -/
def startBufSize : Nat := 4096

/-- The fields of a Go `bufio.Scanner` that decide what it reads: `buf` holds the bytes
`s.buf[s.start:s.end]`, which are read and not yet consumed, `start` is `s.start`, and `cap`
is `len(s.buf)`. -/
structure Scanner where
  buf : List Nat
  start : Nat
  cap : Nat
  deriving DecidableEq

/-- Go `bufio.NewScanner`: a scanner that has no buffer yet. -/
def NewScanner : Scanner :=
  { buf := [], start := 0, cap := 0 }

/-- The part of `Scan` that runs before a `Read`, when the buffered bytes hold no token: the
bytes are moved to the front of the buffer when space is needed or more than half of the
buffer is consumed, and a full buffer is replaced by one of twice the size, `startBufSize`
at first and `MaxScanTokenSize` at most. The result `none` stands for the error
`ErrTooLong`, set when the buffer is full and has `MaxScanTokenSize` bytes: `Scan` then
returns false, which ends the loop of `ReadProgress`. The second test of the source,
`len(s.buf) > maxInt/2`, cannot hold for a buffer of at most `MaxScanTokenSize` bytes. -/
def makeRoom (s : Scanner) : Option Scanner :=
  let start :=
    if s.start > 0 ∧ (s.start + s.buf.length = s.cap ∨ s.start > s.cap / 2) then 0 else s.start
  if start + s.buf.length = s.cap then
    if s.cap ≥ MaxScanTokenSize then none
    else
      some { buf := s.buf, start := 0,
             cap := min (if s.cap * 2 = 0 then startBufSize else s.cap * 2) MaxScanTokenSize }
  else some { buf := s.buf, start := start, cap := s.cap }

/-- The calls of `Scan` while the reader has the bytes `chunk` ready: each `Read` takes as
many of them as the free part of the buffer holds, and the tokens in the buffer are returned
before the next `Read`. The result is the tokens and the scanner after the last byte is
read, with `none` in place of the scanner when `Scan` stopped with `ErrTooLong`. Every
`Read` takes at least one byte, so `chunk.length + 1` is enough fuel. -/
def scanChunk : Nat → List Nat → Scanner → List (List Nat) × Option Scanner
  | 0, _, s => ([], some s)
  | fuel + 1, chunk, s =>
    if chunk = [] then ([], some s)
    else
      match makeRoom s with
      | none => ([], none)
      | some s1 =>
        let n := min chunk.length (s1.cap - (s1.start + s1.buf.length))
        let data := s1.buf ++ chunk.take n
        let r := scanBuffered false (data.length + 1) data
        let s2 : Scanner :=
          { buf := r.2, start := s1.start + (data.length - r.2.length), cap := s1.cap }
        let rest := scanChunk fuel (chunk.drop n) s2
        (r.1 ++ rest.1, rest.2)

/-- All tokens a Go `bufio.Scanner` with the split function `scanSplit` returns, from the
state `s` on, when the byte lists `reads` become ready on its reader one after the other
and the reader then reports its end by a `Read` of its own, as a pipe does. The scanner
makes room before that last `Read` too, so a full buffer of `MaxScanTokenSize` bytes
without a line end stops it with `ErrTooLong` there as well, and the bytes are lost. -/
def scanTokens : List (List Nat) → Scanner → List (List Nat)
  | [], s =>
    match makeRoom s with
    | none => []
    | some s1 => (scanBuffered true (s1.buf.length + 1) s1.buf).1
  | chunk :: rest, s =>
    match scanChunk (chunk.length + 1) chunk s with
    | (tokens, none) => tokens
    | (tokens, some s1) => tokens ++ scanTokens rest s1

/-- Modelled from the spec's wording of the tokenization of a whole stream (the code
has no such function): the stream cut at every carriage return and every line feed, each
token being the bytes before the delimiter, with a non-empty unterminated remainder as the
final token. -/
def specTokens : List Nat → List (List Nat)
  | [] => []
  | b :: bs =>
    if b = 13 ∨ b = 10 then [] :: specTokens bs
    else
      match specTokens bs with
      | [] => [[b]]
      | t :: ts => (b :: t) :: ts

/-- Modelled from the spec's wording together with the buffer limit it names (the code has
no such function): the tokens of the whole stream, in order, up to the first token that has
`MaxScanTokenSize` bytes or more, where the scanner stops. -/
def specTokensBelowLimit (stream : List Nat) : List (List Nat) :=
  (specTokens stream).takeWhile (fun t => decide (t.length < MaxScanTokenSize))

/-- The bounds that hold for every scanner state reached from `NewScanner`: the buffered
bytes lie inside the buffer, and the buffer has at most `MaxScanTokenSize` bytes. -/
def Scanner.ok (s : Scanner) : Prop :=
  s.start + s.buf.length ≤ s.cap ∧ s.cap ≤ MaxScanTokenSize

end Encoder

namespace Encoder

/-! ## Progress reader: line parsing -/

/-- A value of Go type `float64` that comes from `strconv.ParseFloat` on a numeral
`digits.digits`: the exact decimal `mantissa / 10 ^ scale`. The rounding to the nearest
`float64` is not modelled; the Go zero value is `⟨0, 0⟩`. -/
structure Decimal where
  mantissa : Nat
  scale : Nat
  deriving DecidableEq

/-- Struct `EncodingProgress` of `pkg/encoder/progress.go`. -/
structure EncodingProgress where
  Filename : String
  Frame : Int
  FPS : Int
  Time : String
  Size : Int
  Bitrate : Decimal
  Speed : Decimal
  Progress : Decimal
  Status : String
  deriving DecidableEq

/-- The regular-expression class `\d`: an ASCII digit. -/
def isDigit (b : Nat) : Bool :=
  decide (48 ≤ b) && decide (b ≤ 57)

/-- The regular-expression class `\s` of Go `regexp`: tab, line feed, form feed, carriage
return, space. -/
def isRegexSpace (b : Nat) : Bool :=
  b == 9 || b == 10 || b == 12 || b == 13 || b == 32

/-- The rest of `s` after the literal `lit`, when `s` starts with it. -/
def stripLiteral (lit s : List Nat) : Option (List Nat) :=
  if lit.isPrefixOf s then some (s.drop lit.length) else none

/-- A match of `key\s*(\d+)suffix` at the start of `s`: the digits of the group. The
classes `\s`, `\d` and the first byte of the literal after them exclude one another, so
the greedy choice is the only candidate. -/
def matchIntField (key suffix s : List Nat) : Option (List Nat) :=
  match stripLiteral key s with
  | none => none
  | some r1 =>
    let r2 := r1.dropWhile isRegexSpace
    let digits := r2.takeWhile isDigit
    let r3 := r2.dropWhile isDigit
    if digits ≠ [] ∧ suffix.isPrefixOf r3 = true then some digits else none

/-- A match of `key\s*(\d+\.\d+)suffix` at the start of `s`: the digits before and after the
dot of the group. -/
def matchDecField (key suffix s : List Nat) : Option (List Nat × List Nat) :=
  match stripLiteral key s with
  | none => none
  | some r1 =>
    let r2 := r1.dropWhile isRegexSpace
    let whole := r2.takeWhile isDigit
    match r2.dropWhile isDigit with
    | [] => none
    | dot :: r3 =>
      let frac := r3.takeWhile isDigit
      let r4 := r3.dropWhile isDigit
      if dot = 46 ∧ whole ≠ [] ∧ frac ≠ [] ∧ suffix.isPrefixOf r4 = true then some (whole, frac)
      else none

/-- Whether the bytes of `s` start with bytes of the given classes, one after the other. -/
def matchesClasses : List (Nat → Bool) → List Nat → Bool
  | [], _ => true
  | _ :: _, [] => false
  | c :: cs, b :: bs => c b && matchesClasses cs bs

/-- The classes of `\d{2}:\d{2}:\d{2}\.\d{2}`. -/
def timeClasses : List (Nat → Bool) :=
  [isDigit, isDigit, fun b => b == 58, isDigit, isDigit, fun b => b == 58,
   isDigit, isDigit, fun b => b == 46, isDigit, isDigit]

/-- A match of `time=(\d{2}):(\d{2}):(\d{2}\.\d{2})` at the start of `s`: the whole match,
which is `matches[0]`. -/
def matchTime (s : List Nat) : Option (List Nat) :=
  match stripLiteral (bytesOf "time=") s with
  | none => none
  | some r => if matchesClasses timeClasses r then some (bytesOf "time=" ++ r.take 11) else none

/-- The leftmost match in `s` of a pattern given by its matcher at a position, as
`FindStringSubmatch` finds it; `none` when the pattern matches nowhere. -/
def findFirst {α : Type} (m : List Nat → Option α) : List Nat → Option α
  | [] => m []
  | b :: rest =>
    match m (b :: rest) with
    | some r => some r
    | none => findFirst m rest

/-- Group 1 of `frameRegex`, the pattern `frame=\s*(\d+)`. -/
def frameRegex (line : List Nat) : Option (List Nat) :=
  findFirst (matchIntField (bytesOf "frame=") []) line

/-- Group 1 of `fpsRegex`, the pattern `fps=\s*(\d+)`. -/
def fpsRegex (line : List Nat) : Option (List Nat) :=
  findFirst (matchIntField (bytesOf "fps=") []) line

/-- The whole match of `timeRegex`, the pattern `time=(\d{2}):(\d{2}):(\d{2}\.\d{2})`. -/
def timeRegex (line : List Nat) : Option (List Nat) :=
  findFirst matchTime line

/-- Group 1 of `sizeRegex`, the pattern `size=\s*(\d+)kB`. -/
def sizeRegex (line : List Nat) : Option (List Nat) :=
  findFirst (matchIntField (bytesOf "size=") (bytesOf "kB")) line

/-- Group 1 of `bitrateRegex`, the pattern `bitrate=\s*(\d+\.\d+)kbits/s`. -/
def bitrateRegex (line : List Nat) : Option (List Nat × List Nat) :=
  findFirst (matchDecField (bytesOf "bitrate=") (bytesOf "kbits/s")) line

/-- Group 1 of `speedRegex`, the pattern `speed=\s*(\d+\.\d+)x`. -/
def speedRegex (line : List Nat) : Option (List Nat × List Nat) :=
  findFirst (matchDecField (bytesOf "speed=") (bytesOf "x")) line

/-- The number written by a list of ASCII digits. -/
def decimalValue (digits : List Nat) : Nat :=
  digits.foldl (fun acc d => acc * 10 + (d - 48)) 0

/-- Go `strconv.Atoi` on a non-empty list of ASCII digits, for a 64-bit `int`, with the
error dropped as the callers do: the number, or the largest `int` when the number does
not fit. -/
def Atoi (digits : List Nat) : Int :=
  if decimalValue digits > 2 ^ 63 - 1 then 2 ^ 63 - 1 else (decimalValue digits : Int)

/-- Go `strconv.ParseFloat` on a numeral `whole.frac` of ASCII digits, as an exact decimal. -/
def ParseFloat (whole frac : List Nat) : Decimal :=
  { mantissa := decimalValue (whole ++ frac), scale := frac.length }

/-- The test `len(strings.TrimSpace(line)) == 0`: every character of the UTF-8 text is white
space for Go `unicode.IsSpace`, that is one of U+0009..U+000D, U+0020, U+0085, U+00A0,
U+1680, U+2000..U+200A, U+2028, U+2029, U+202F, U+205F, U+3000. -/
def isBlank : List Nat → Bool
  | [] => true
  | b :: rest =>
    if b = 9 ∨ b = 10 ∨ b = 11 ∨ b = 12 ∨ b = 13 ∨ b = 32 then isBlank rest
    else
      match rest with
      | [] => false
      | x :: r =>
        if b = 0xC2 ∧ (x = 0x85 ∨ x = 0xA0) then isBlank r
        else
          match r with
          | [] => false
          | y :: r' =>
            if (b = 0xE1 ∧ x = 0x9A ∧ y = 0x80) ∨
               (b = 0xE2 ∧ x = 0x80 ∧
                  ((0x80 ≤ y ∧ y ≤ 0x8A) ∨ y = 0xA8 ∨ y = 0xA9 ∨ y = 0xAF)) ∨
               (b = 0xE2 ∧ x = 0x81 ∧ y = 0x9F) ∨
               (b = 0xE3 ∧ x = 0x80 ∧ y = 0x80) then isBlank r'
            else false

/-- The text of a list of ASCII bytes. -/
def textOf (bs : List Nat) : String :=
  String.mk (bs.map Char.ofNat)

/-- The body of the scan loop of `ReadProgress` for one line: the snapshot handed to the
callback, `none` when the callback is not invoked. -/
def processLine (filename : String) (line : List Nat) : Option EncodingProgress :=
  if isBlank line then none
  else
    let progress : EncodingProgress :=
      { Filename := filename, Frame := 0, FPS := 0, Time := "", Size := 0,
        Bitrate := ⟨0, 0⟩, Speed := ⟨0, 0⟩, Progress := ⟨0, 0⟩, Status := "processing" }
    let progress : EncodingProgress :=
      match frameRegex line with
      | some digits => { progress with Frame := Atoi digits }
      | none => progress
    let progress : EncodingProgress :=
      match fpsRegex line with
      | some digits => { progress with FPS := Atoi digits }
      | none => progress
    let progress : EncodingProgress :=
      match timeRegex line with
      | some whole => { progress with Time := textOf (whole.drop 5) }
      | none => progress
    let progress : EncodingProgress :=
      match sizeRegex line with
      | some digits => { progress with Size := Atoi digits }
      | none => progress
    let progress : EncodingProgress :=
      match bitrateRegex line with
      | some (whole, frac) => { progress with Bitrate := ParseFloat whole frac }
      | none => progress
    let progress : EncodingProgress :=
      match speedRegex line with
      | some (whole, frac) => { progress with Speed := ParseFloat whole frac }
      | none => progress
    if progress.Time ≠ "" ∨ progress.Frame > 0 then some progress else none

/-- Method `(*ProgressReader).ReadProgress`: the snapshots handed to the callback, in
order, when the byte lists `reads` become ready on the reader one after the other and the
reader then ends. -/
def ReadProgress (filename : String) (reads : List (List Nat)) : List EncodingProgress :=
  (scanTokens reads NewScanner).filterMap (processLine filename)

/-! ## The patterns read as text

The six patterns of `progress.go` are read here as the texts they accept, without any
search procedure, to state what the matchers above must return. A repetition takes as many
bytes as it can: in each pattern the class that is repeated and the byte that must follow
it exclude one another, so no other split of the text matches. -/

/-- Modelled from the pattern text: a byte of the class `\s`, which for Go `regexp` is tab,
line feed, form feed, carriage return or space. -/
def spaceByte (b : Nat) : Prop :=
  b = 9 ∨ b = 10 ∨ b = 12 ∨ b = 13 ∨ b = 32

/-- Modelled from the pattern text: a byte of the class `\d`, an ASCII digit. -/
def digitByte (b : Nat) : Prop :=
  48 ≤ b ∧ b ≤ 57

/-- Modelled from the pattern text `key\s*(\d+)suffix`: the text `s` begins with a match
whose group is `digits`, that is with `key`, any number of `\s` bytes, the non-empty run of
digits `digits`, which no further digit follows, and then `suffix`. -/
def IntFieldAt (key suffix s digits : List Nat) : Prop :=
  ∃ sp rest, s = key ++ sp ++ digits ++ rest ∧ (∀ b ∈ sp, spaceByte b) ∧
    digits ≠ [] ∧ (∀ b ∈ digits, digitByte b) ∧
    (∀ b, rest.head? = some b → ¬ digitByte b) ∧ suffix <+: rest

/-- Modelled from the pattern text `key\s*(\d+\.\d+)suffix`: the text `s` begins with a
match whose group is `g.1`, a dot, `g.2`, that is with `key`, any number of `\s` bytes, the
non-empty run of digits `g.1`, a dot, the non-empty run of digits `g.2`, which no further
digit follows, and then `suffix`. -/
def DecFieldAt (key suffix s : List Nat) (g : List Nat × List Nat) : Prop :=
  ∃ sp rest, s = key ++ sp ++ g.1 ++ 46 :: g.2 ++ rest ∧ (∀ b ∈ sp, spaceByte b) ∧
    g.1 ≠ [] ∧ (∀ b ∈ g.1, digitByte b) ∧ g.2 ≠ [] ∧ (∀ b ∈ g.2, digitByte b) ∧
    (∀ b, rest.head? = some b → ¬ digitByte b) ∧ suffix <+: rest

/-- Modelled from the pattern text `time=(\d{2}):(\d{2}):(\d{2}\.\d{2})`: the text `s`
begins with the match `whole`, that is with `time=` and eleven bytes of the form
`dd:dd:dd.dd`. -/
def TimeAt (s whole : List Nat) : Prop :=
  ∃ h1 h2 m1 m2 s1 s2 f1 f2 rest,
    whole = bytesOf "time=" ++ [h1, h2, 58, m1, m2, 58, s1, s2, 46, f1, f2] ∧
    s = whole ++ rest ∧
    digitByte h1 ∧ digitByte h2 ∧ digitByte m1 ∧ digitByte m2 ∧
    digitByte s1 ∧ digitByte s2 ∧ digitByte f1 ∧ digitByte f2

/-- Modelled from the documentation of Go `regexp`, whose `Find` methods return the
leftmost match: `r` is the result for `line` when `At suf v` says that a match with
value `v` begins the text `suf`. With `some v` a match with value `v` begins at some
position and none begins before it; with `none` no match begins anywhere. -/
def LeftmostMatch {α : Type} (At : List Nat → α → Prop) (line : List Nat) :
    Option α → Prop
  | some v =>
    ∃ pre suf, line = pre ++ suf ∧ At suf v ∧
      ∀ pre1 suf1 v1, line = pre1 ++ suf1 → pre1.length < pre.length → ¬ At suf1 v1
  | none => ∀ pre suf v, line = pre ++ suf → ¬ At suf v

end Encoder

namespace Encoder

/-! ## Job supervisor

The world outside the program (file system, subprocesses, clock) is a state of an arbitrary
type `World`, changed only through the operations of an `Env`. Every function returns its
error, the world it leaves and the trace of the effects it performed itself, in order. The
statement `go progressReader.ReadProgress(stderr)` starts a goroutine that no function waits
for: what such a goroutine hands to the callback is kept apart from the trace, and
`Observed` says in which orders the callback can receive it. -/

/-- The outcome of Go `os.Stat` as `encodeFile` inspects it. -/
inductive StatResult where
  /-- The error is `nil`. -/
  | found
  /-- The error satisfies `os.IsNotExist`. -/
  | notExist (msg : String)
  /-- Any other error. -/
  | failed (msg : String)
  deriving DecidableEq

/-- How one `ffmpeg` subprocess ends, as `runFFmpegCommand` inspects it. -/
inductive CmdResult where
  /-- The call `cmd.StderrPipe()` fails. -/
  | pipeFailed (msg : String)
  /-- The call `cmd.Start()` fails. -/
  | startFailed (msg : String)
  /-- The call `cmd.Wait()` returns an `*exec.ExitError` with text `msg` and captured
  output `stderr`. -/
  | exitError (msg : String) (stderr : String)
  /-- The call `cmd.Wait()` returns another error. -/
  | waitFailed (msg : String)
  /-- The call `cmd.Wait()` returns `nil`. -/
  | exited
  deriving DecidableEq

/-- The operations of the operating system that the supervisor uses. -/
structure Env (World : Type) where
  /-- The host family, which fixes `os.DevNull`. -/
  host : HostOS
  /-- Go `os.Stat(path)`. -/
  stat : World → String → StatResult
  /-- Go `os.MkdirAll(path, 0755)`: the error and the world after the call. -/
  mkdirAll : World → String → Option String × World
  /-- Go `exec.LookPath(file)`: the error. -/
  lookPath : World → String → Option String
  /-- One run of `ffmpeg` with the given arguments: how it ends, the byte lists that the
  reader goroutine gets from the pipe of the diagnostic stream before `Wait` closes the
  pipe, and the world after the run. -/
  run : World → List String → CmdResult × List (List Nat) × World
  /-- Go `os.Remove(path)`: the world after the call (the error is dropped by the caller). -/
  remove : World → String → World
  /-- Go `os.TempDir()`. -/
  tempDir : World → String
  /-- Go `time.Now().UnixNano()`. -/
  unixNano : World → Int

/-- An effect of the supervisor on the outside world or on its caller. -/
inductive Event where
  | stat (path : String)
  | mkdirAll (path : String)
  | lookPath (file : String)
  /-- A call of the callback by the supervisor itself. -/
  | callback (progress : EncodingProgress)
  /-- The call `cmd.Start()` for `ffmpeg` with these arguments; the reader goroutine of the
  command is running by then. -/
  | exec (args : List String)
  | remove (path : String)
  deriving DecidableEq

/-- The result of a supervisor function: its error, the world it leaves, its own effects in
order, and for every `exec` event of the trace, in order, the snapshots that the reader
goroutine of that command hands to the callback. The callbacks of a reader are not in the
trace, as they happen at moments of their own. -/
structure Outcome (World : Type) where
  err : Option String
  world : World
  trace : List Event
  readers : List (List EncodingProgress)

/-- Method `(*Encoder).runFFmpegCommand`. The reader goroutine is started before
`cmd.Start()` and is never waited for. When the pipe cannot be made there is no goroutine;
when the start fails the goroutine finds the pipe closed and reads nothing. -/
def runFFmpegCommand {World : Type} (env : Env World) (w : World) (args : List String)
    (filename : String) : Outcome World :=
  match env.run w args with
  | (CmdResult.pipeFailed msg, _, _) =>
    { err := some ("failed to create stderr pipe: " ++ msg), world := w, trace := [],
      readers := [] }
  | (CmdResult.startFailed msg, _, w1) =>
    { err := some ("failed to start encoding: " ++ msg), world := w1,
      trace := [Event.exec args], readers := [ReadProgress filename []] }
  | (CmdResult.exitError msg stderr, reads, w1) =>
    { err := some ("encoding failed: " ++ msg ++ "\nError output:\n" ++ stderr), world := w1,
      trace := [Event.exec args], readers := [ReadProgress filename reads] }
  | (CmdResult.waitFailed msg, reads, w1) =>
    { err := some ("encoding failed: " ++ msg), world := w1,
      trace := [Event.exec args], readers := [ReadProgress filename reads] }
  | (CmdResult.exited, reads, w1) =>
    { err := none, world := w1,
      trace := [Event.exec args], readers := [ReadProgress filename reads] }

/-- Method `(*Encoder).runSinglePassEncoding`. -/
def runSinglePassEncoding {World : Type} (env : Env World) (w : World)
    (inputPath outputPath : String) (options : EncodingOptions) : Outcome World :=
  match BuildFFmpegArgs options inputPath with
  | (_, some err) =>
    { err := some ("failed to build FFmpeg arguments: " ++ err), world := w, trace := [],
      readers := [] }
  | (args, none) =>
    runFFmpegCommand env w (args ++ [outputPath]) (filepath.Base inputPath)

/-- Method `(*Encoder).runTwoPassEncoding`. -/
def runTwoPassEncoding {World : Type} (env : Env World) (w : World)
    (inputPath outputPath : String) (options : EncodingOptions) : Outcome World :=
  let passLogFile := filepath.Join (env.tempDir w) ("ffmpeg2pass_" ++ fmtD (env.unixNano w))
  let passArgs := Build2PassArgs env.host options inputPath passLogFile
  let r1 := runFFmpegCommand env w passArgs.1 (filepath.Base inputPath)
  match r1.err with
  | some err =>
    { err := some ("first pass failed: " ++ err), world := r1.world, trace := r1.trace,
      readers := r1.readers }
  | none =>
    let r2 := runFFmpegCommand env r1.world (passArgs.2 ++ [outputPath])
      (filepath.Base inputPath)
    match r2.err with
    | some err =>
      { err := some ("second pass failed: " ++ err), world := r2.world,
        trace := r1.trace ++ r2.trace, readers := r1.readers ++ r2.readers }
    | none =>
      let w3 := env.remove r2.world (passLogFile ++ "-0.log")
      let w4 := env.remove w3 (passLogFile ++ "-0.log.mbtree")
      { err := none, world := w4,
        trace := r1.trace ++ r2.trace ++
          [Event.remove (passLogFile ++ "-0.log"),
           Event.remove (passLogFile ++ "-0.log.mbtree")],
        readers := r1.readers ++ r2.readers }

/-- Method `(*Encoder).encodeFile`. -/
def encodeFile {World : Type} (env : Env World) (w : World) (inputPath : String)
    (options : EncodingOptions) : Outcome World :=
  match env.stat w inputPath with
  | StatResult.notExist msg =>
    { err := some ("input file not found (" ++ inputPath ++ "): " ++ msg), world := w,
      trace := [Event.stat inputPath], readers := [] }
  | _ =>
    let filename := filepath.Base inputPath
    let outputPath := getOutputPath options inputPath
    let outputDir := filepath.Dir outputPath
    match env.mkdirAll w outputDir with
    | (some msg, w1) =>
      { err := some ("failed to create output directory (" ++ outputDir ++ "): " ++ msg),
        world := w1, trace := [Event.stat inputPath, Event.mkdirAll outputDir],
        readers := [] }
    | (none, w1) =>
      match env.stat w1 outputPath with
      | StatResult.found =>
        { err := some ("output file already exists: " ++ outputPath), world := w1,
          trace := [Event.stat inputPath, Event.mkdirAll outputDir, Event.stat outputPath],
          readers := [] }
      | _ =>
        let started : List Event :=
          [Event.stat inputPath, Event.mkdirAll outputDir, Event.stat outputPath,
           Event.callback
             { Filename := filename, Frame := 0, FPS := 0, Time := "", Size := 0,
               Bitrate := ⟨0, 0⟩, Speed := ⟨0, 0⟩, Progress := ⟨0, 0⟩,
               Status := "processing" }]
        let r :=
          if options.Use2Pass && options.QualityMode == QualityModeBitrate then
            runTwoPassEncoding env w1 inputPath outputPath options
          else runSinglePassEncoding env w1 inputPath outputPath options
        match r.err with
        | some err =>
          { err := some err, world := r.world, trace := started ++ r.trace,
            readers := r.readers }
        | none =>
          match env.stat r.world outputPath with
          | StatResult.notExist _ =>
            { err := some ("encoded file not found: " ++ outputPath), world := r.world,
              trace := started ++ r.trace ++ [Event.stat outputPath],
              readers := r.readers }
          | _ =>
            { err := none, world := r.world,
              trace := started ++ r.trace ++
                [Event.stat outputPath,
                 Event.callback
                   { Filename := filename, Frame := 0, FPS := 0, Time := "", Size := 0,
                     Bitrate := ⟨0, 0⟩, Speed := ⟨0, 0⟩, Progress := ⟨0, 0⟩,
                     Status := "completed" }],
              readers := r.readers }

/-- The loop `for _, inputPath := range paths` of `StartEncoding`. -/
def encodeFiles {World : Type} (env : Env World) (w : World) (options : EncodingOptions) :
    List String → Outcome World
  | [] => { err := none, world := w, trace := [], readers := [] }
  | inputPath :: rest =>
    let r := encodeFile env w inputPath options
    match r.err with
    | some err => { err := some err, world := r.world, trace := r.trace, readers := r.readers }
    | none =>
      let rs := encodeFiles env r.world options rest
      { err := rs.err, world := rs.world, trace := r.trace ++ rs.trace,
        readers := r.readers ++ rs.readers }

/-- Method `(*Encoder).StartEncoding`. -/
def StartEncoding {World : Type} (env : Env World) (w : World) (paths : List String)
    (options : EncodingOptions) : Outcome World :=
  match Validate options with
  | (some err, _) =>
    { err := some ("invalid encoding options: " ++ err), world := w, trace := [],
      readers := [] }
  | (none, validated) =>
    match env.lookPath w "ffmpeg" with
    | some err =>
      { err := some ("FFmpeg is not installed: " ++ err), world := w,
        trace := [Event.lookPath "ffmpeg"], readers := [] }
    | none =>
      let r := encodeFiles env w validated paths
      { err := r.err, world := r.world, trace := Event.lookPath "ffmpeg" :: r.trace,
        readers := r.readers }

/-- The snapshots that the supervisor itself hands to the callback, in order. -/
def callbacksOf (trace : List Event) : List EncodingProgress :=
  trace.filterMap (fun e => match e with
    | Event.callback p => some p
    | _ => none)

/-- The argument lists of the commands that the supervisor starts, in order. -/
def startsOf (trace : List Event) : List (List String) :=
  trace.filterMap (fun e => match e with
    | Event.exec args => some args
    | _ => none)

/-- The snapshot `encodeFile` emits before the first phase of a file. -/
def startedSnapshot (inputPath : String) : EncodingProgress :=
  { Filename := filepath.Base inputPath, Frame := 0, FPS := 0, Time := "", Size := 0,
    Bitrate := ⟨0, 0⟩, Speed := ⟨0, 0⟩, Progress := ⟨0, 0⟩, Status := "processing" }

/-- The snapshot `encodeFile` emits after the whole file completed. -/
def completedSnapshot (inputPath : String) : EncodingProgress :=
  { Filename := filepath.Base inputPath, Frame := 0, FPS := 0, Time := "", Size := 0,
    Bitrate := ⟨0, 0⟩, Speed := ⟨0, 0⟩, Progress := ⟨0, 0⟩, Status := "completed" }

/-- The test `progress.Time != "" || progress.Frame > 0` that `ReadProgress` makes before it
calls the callback. Every snapshot of a reader goroutine passes it, and the two snapshots
that `encodeFile` emits itself do not. -/
def hasProgressData (p : EncodingProgress) : Bool :=
  p.Time != "" || decide (p.Frame > 0)

/-- The orders in which the callback can receive snapshots. `Observed trace readers pending
obs` holds when `obs` can be received while the supervisor performs the effects `trace`,
the commands it starts have the reader goroutines `readers`, and `pending` holds, for each
goroutine that runs already, the snapshots it has still to hand over. A snapshot of the
supervisor is received when the supervisor emits it; a goroutine that runs can hand over
its next snapshot at any moment, also after the supervisor emitted later snapshots; and
what a goroutine has not handed over when the observation stops is never received. -/
inductive Observed : List Event → List (List EncodingProgress) →
    List (List EncodingProgress) → List EncodingProgress → Prop where
  /-- The observation stops after the last effect of the supervisor. -/
  | stop (readers pending : List (List EncodingProgress)) : Observed [] readers pending []
  /-- The supervisor calls the callback. -/
  | emit (p : EncodingProgress) (trace : List Event)
      (readers pending : List (List EncodingProgress)) (obs : List EncodingProgress)
      (h : Observed trace readers pending obs) :
      Observed (Event.callback p :: trace) readers pending (p :: obs)
  /-- A command starts: its reader goroutine runs from now on. -/
  | start (args : List String) (r : List EncodingProgress) (trace : List Event)
      (readers pending : List (List EncodingProgress)) (obs : List EncodingProgress)
      (h : Observed trace readers (pending ++ [r]) obs) :
      Observed (Event.exec args :: trace) (r :: readers) pending obs
  /-- The supervisor performs an effect that is neither a callback nor a start. -/
  | step (e : Event) (trace : List Event)
      (readers pending : List (List EncodingProgress)) (obs : List EncodingProgress)
      (hc : ∀ p, e ≠ Event.callback p) (he : ∀ args, e ≠ Event.exec args)
      (h : Observed trace readers pending obs) :
      Observed (e :: trace) readers pending obs
  /-- A reader goroutine hands over its next snapshot. -/
  | deliver (p : EncodingProgress) (ps : List EncodingProgress) (trace : List Event)
      (readers before after : List (List EncodingProgress)) (obs : List EncodingProgress)
      (h : Observed trace readers (before ++ ps :: after) obs) :
      Observed trace readers (before ++ (p :: ps) :: after) (p :: obs)

/-- One of the precondition checks of `encodeFile` fails: the input does not exist, the
output directory cannot be created, or the output path exists. -/
def preconditionFails {World : Type} (env : Env World) (w : World) (inputPath : String)
    (options : EncodingOptions) : Prop :=
  (∃ msg, env.stat w inputPath = StatResult.notExist msg) ∨
  (∃ msg, (env.mkdirAll w (filepath.Dir (getOutputPath options inputPath))).1 = some msg) ∨
  env.stat (env.mkdirAll w (filepath.Dir (getOutputPath options inputPath))).2
    (getOutputPath options inputPath) = StatResult.found

/-! ## A sample world -/

/-- A sample world: the list of the paths that exist. -/
structure DemoWorld where
  files : List String
  deriving DecidableEq

/-- The path that follows `-passlogfile` in an argument list, with the two suffixes of the
statistics files that `ffmpeg` writes. -/
def demoLogFiles (args : List String) : List String :=
  match args.dropWhile (fun a => a != "-passlogfile") with
  | _ :: log :: _ => [log ++ "-0.log", log ++ "-0.log.mbtree"]
  | _ => []

/-- A sample environment on a Unix-like host. Every directory can be created and `ffmpeg`
is installed. A run of `ffmpeg` writes its statistics files; on the input
`/in/broken.mov`, and in the second pass on the input `/in/broken2.mov`, it then exits
with status 1; otherwise it reports one status line, writes its last argument as the
output file and exits normally. -/
def demoEnv : Env DemoWorld :=
  { host := HostOS.unixLike
    stat := fun w path =>
      if path ∈ w.files then StatResult.found
      else StatResult.notExist ("stat " ++ path ++ ": no such file or directory")
    mkdirAll := fun w _ => (none, w)
    lookPath := fun _ _ => none
    run := fun w args =>
      if args.getD 1 "" = "/in/broken.mov" ∨
          (args.getD 1 "" = "/in/broken2.mov" ∧ args.getD 7 "" = "2") then
        (CmdResult.exitError "exit status 1" "", [], { files := demoLogFiles args ++ w.files })
      else
        (CmdResult.exited, [bytesOf "frame=  10 fps= 30\r"],
          { files :=
              (if args.getLast?.getD "" = "/dev/null" then [] else [args.getLast?.getD ""])
                ++ demoLogFiles args ++ w.files })
    remove := fun w path => { files := w.files.filter (fun f => f != path) }
    tempDir := fun _ => "/tmp"
    unixNano := fun _ => 1700000000000000000 }

/-- A second sample environment, which differs from `demoEnv` in the two operations that
meet a file where a directory is expected: `os.Stat` of a path whose directory is a file
fails with an error that is not `IsNotExist`, and `os.MkdirAll` of a path that is a file
fails. -/
def demoEnvNotDir : Env DemoWorld :=
  { demoEnv with
    stat := fun w path =>
      if path ∈ w.files then StatResult.found
      else if filepath.Dir path ∈ w.files then
        StatResult.failed ("stat " ++ path ++ ": not a directory")
      else StatResult.notExist ("stat " ++ path ++ ": no such file or directory")
    mkdirAll := fun w path =>
      if path ∈ w.files then (some ("mkdir " ++ path ++ ": not a directory"), w)
      else (none, w) }

end Encoder

/-! ## Codec capability enumeration (`pkg/codec/codec.go`) -/

namespace strings

/-- Go `strings.Contains(s, substr)`: `substr` starts at some position of `s`. -/
def Contains (s substr : String) : Bool :=
  s.data.tails.any (fun t => substr.data.isPrefixOf t)

end strings

namespace codec

/-- Struct `CodecInfo`. -/
structure CodecInfo where
  Name : String
  DisplayName : String
  Hardware : String
  Formats : List String
  deriving DecidableEq

/-- Function `checkMacCodecs`: the slice `*codecs` after the call. -/
def checkMacCodecs (codecs : List CodecInfo) (encoderList : String) : List CodecInfo :=
  let codecs :=
    if strings.Contains encoderList "hevc_videotoolbox" then
      codecs ++ [{ Name := "hevc_videotoolbox", DisplayName := "HEVC (Apple Silicon/Intel)",
                   Hardware := "apple", Formats := ["mp4"] }]
    else codecs
  let codecs :=
    if strings.Contains encoderList "h264_videotoolbox" then
      codecs ++ [{ Name := "h264_videotoolbox", DisplayName := "H.264 (Apple Silicon/Intel)",
                   Hardware := "apple", Formats := ["mp4"] }]
    else codecs
  codecs

/-- Function `checkWindowsLinuxCodecs`: the slice `*codecs` after the call. The results of
the probes `hasNvidiaGPU()` and `hasIntelGPU()`, which run external commands, are the
arguments `hasNvidiaGPU` and `hasIntelGPU`. -/
def checkWindowsLinuxCodecs (hasNvidiaGPU hasIntelGPU : Bool) (codecs : List CodecInfo)
    (encoderList : String) : List CodecInfo :=
  let codecs :=
    if hasNvidiaGPU then
      let codecs :=
        if strings.Contains encoderList "hevc_nvenc" then
          codecs ++ [{ Name := "hevc_nvenc", DisplayName := "HEVC (NVIDIA GPU)",
                       Hardware := "nvidia", Formats := ["mp4"] }]
        else codecs
      let codecs :=
        if strings.Contains encoderList "h264_nvenc" then
          codecs ++ [{ Name := "h264_nvenc", DisplayName := "H.264 (NVIDIA GPU)",
                       Hardware := "nvidia", Formats := ["mp4"] }]
        else codecs
      codecs
    else codecs
  let codecs :=
    if hasIntelGPU then
      let codecs :=
        if strings.Contains encoderList "hevc_qsv" then
          codecs ++ [{ Name := "hevc_qsv", DisplayName := "HEVC (Intel QuickSync)",
                       Hardware := "intel", Formats := ["mp4"] }]
        else codecs
      let codecs :=
        if strings.Contains encoderList "h264_qsv" then
          codecs ++ [{ Name := "h264_qsv", DisplayName := "H.264 (Intel QuickSync)",
                       Hardware := "intel", Formats := ["mp4"] }]
        else codecs
      codecs
    else codecs
  codecs

/-- Function `checkVPCodecs`: the slice `*codecs` after the call. -/
def checkVPCodecs (codecs : List CodecInfo) (encoderList : String) : List CodecInfo :=
  let codecs :=
    if strings.Contains encoderList "libvpx" then
      codecs ++ [{ Name := "vp8", DisplayName := "VP8", Hardware := "cpu",
                   Formats := ["webm"] }]
    else codecs
  let codecs :=
    if strings.Contains encoderList "libvpx-vp9" then
      codecs ++ [{ Name := "vp9", DisplayName := "VP9", Hardware := "cpu",
                   Formats := ["webm"] }]
    else codecs
  codecs

/-- Function `GetAvailable`: the codec list and the error. The arguments are what the
function reads from its host: `goos` is `runtime.GOOS`, `encoders` is the outcome of
`ffmpeg -encoders` (its output, or the text of its error), and the two booleans are the
results of the GPU probes. -/
def GetAvailable (goos : String) (encoders : Except String String)
    (hasNvidiaGPU hasIntelGPU : Bool) : List CodecInfo × Option String :=
  let codecs : List CodecInfo :=
    [] ++ [{ Name := "h264", DisplayName := "H.264 (CPU)", Hardware := "cpu",
             Formats := ["mp4"] },
           { Name := "hevc", DisplayName := "HEVC (CPU)", Hardware := "cpu",
             Formats := ["mp4"] }]
  match encoders with
  | Except.error err =>
    (codecs,
      some ("failed to get ffmpeg encoder list (using default codecs only): " ++ err))
  | Except.ok encoderList =>
    let codecs :=
      if goos = "darwin" then checkMacCodecs codecs encoderList
      else if goos = "windows" ∨ goos = "linux" then
        checkWindowsLinuxCodecs hasNvidiaGPU hasIntelGPU codecs encoderList
      else codecs
    let codecs := checkVPCodecs codecs encoderList
    (codecs, none)

end codec

namespace Encoder

/-- A request for VideoToolbox H.264 in MP4 with CRF 23. -/
def optsH264VideoToolbox : EncodingOptions :=
  { VideoFormat := "mp4", VideoCodec := "h264_videotoolbox", QualityMode := "crf",
    QualityValue := 23, Use2Pass := false, IsResize := false, Width := 0, Height := 0,
    OutputPath := "", Prefix := "", Postfix := "", AudioCodec := "", AudioBitrate := 0,
    AudioSamplerate := 0 }

/-- A two-pass request in bitrate mode whose quality value is unset. -/
def optsBitrateTwoPassUnset : EncodingOptions :=
  { VideoFormat := "mp4", VideoCodec := "h264", QualityMode := "bitrate", QualityValue := 0,
    Use2Pass := true, IsResize := false, Width := 0, Height := 0, OutputPath := "",
    Prefix := "", Postfix := "", AudioCodec := "", AudioBitrate := 0, AudioSamplerate := 0 }

/-- A two-pass request in bitrate mode at 40 kbit/s. -/
def optsBitrate40TwoPass : EncodingOptions :=
  { VideoFormat := "mp4", VideoCodec := "h264", QualityMode := "bitrate", QualityValue := 40,
    Use2Pass := true, IsResize := false, Width := 0, Height := 0, OutputPath := "",
    Prefix := "", Postfix := "", AudioCodec := "", AudioBitrate := 0, AudioSamplerate := 0 }

/-- A request that converts to MP4 with no output path, prefix or postfix. -/
def optsPlainMp4 : EncodingOptions :=
  { VideoFormat := "mp4", VideoCodec := "h264", QualityMode := "crf", QualityValue := 23,
    Use2Pass := false, IsResize := false, Width := 0, Height := 0, OutputPath := "",
    Prefix := "", Postfix := "", AudioCodec := "", AudioBitrate := 0, AudioSamplerate := 0 }

end Encoder

namespace filepath

/-! ## Auxiliary notions for the facts about `Clean` -/

/-- The elements `Clean` keeps for a path with the characters `l`, last one first. -/
def cleanStack (rooted : Bool) (l : List Char) : List (List Char) :=
  (splitOnSlash l).foldl (cleanStep rooted) []

/-- The characters `Clean` returns for the kept elements `out`, first one first. -/
def render (rooted : Bool) (out : List (List Char)) : List Char :=
  if rooted then '/' :: List.intercalate ['/'] out
  else if List.intercalate ['/'] out = [] then ['.']
  else List.intercalate ['/'] out

/-- Every element of the stack `out` (last element first) has no slash and is kept by
`cleanStep` on top of the elements below it. -/
def stackOk (rooted : Bool) : List (List Char) → Prop
  | [] => True
  | elem :: out =>
    cleanStep rooted out elem = elem :: out ∧ (∀ c ∈ elem, c ≠ '/') ∧ stackOk rooted out

end filepath

namespace Encoder

/-! ## Facts about the two tables -/

theorem lookup_cons_ite {β : Type} (k a : String) (b : β) (t : List (String × β)) :
    List.lookup k ((a, b) :: t) = if k = a then some b else List.lookup k t := by
  by_cases h : k = a
  · subst h
    simp [List.lookup]
  · have hb : (k == a) = false := by simpa using h
    simp [List.lookup, hb, h]

theorem supportedFormats_some {k : String} {cs : List String}
    (h : SupportedFormats k = some cs) :
    (k = "mp4" ∧ cs = ["h264", "h264_nvenc", "h264_qsv", "hevc", "hevc_nvenc", "hevc_qsv",
        "hevc_videotoolbox"]) ∨ (k = "webm" ∧ cs = ["vp8", "vp9"]) := by
  unfold SupportedFormats SupportedFormatsTable at h
  rw [lookup_cons_ite, lookup_cons_ite] at h
  by_cases h1 : k = "mp4"
  · rw [if_pos h1] at h
    exact Or.inl ⟨h1, (Option.some.inj h).symm⟩
  · rw [if_neg h1] at h
    by_cases h2 : k = "webm"
    · rw [if_pos h2] at h
      exact Or.inr ⟨h2, (Option.some.inj h).symm⟩
    · rw [if_neg h2] at h
      simp [List.lookup] at h

theorem codecSettings_some {k : String} {set : CodecSetting}
    (h : codecSettings k = some set) :
    (k = "h264" ∨ k = "hevc" ∨ k = "vp9") ∧
    set.defaultMode = QualityModeCRF ∧ set.qualityRange.min = 0 ∧
      0 < set.qualityRange.default_ ∧ set.qualityRange.default_ ≤ set.qualityRange.max := by
  unfold codecSettings codecSettingsTable at h
  rw [lookup_cons_ite, lookup_cons_ite, lookup_cons_ite] at h
  by_cases h1 : k = "h264"
  · rw [if_pos h1] at h
    have h' := (Option.some.inj h).symm
    subst h'
    exact ⟨Or.inl h1, by decide⟩
  · rw [if_neg h1] at h
    by_cases h2 : k = "hevc"
    · rw [if_pos h2] at h
      have h' := (Option.some.inj h).symm
      subst h'
      exact ⟨Or.inr (Or.inl h2), by decide⟩
    · rw [if_neg h2] at h
      by_cases h3 : k = "vp9"
      · rw [if_pos h3] at h
        have h' := (Option.some.inj h).symm
        subst h'
        exact ⟨Or.inr (Or.inr h3), by decide⟩
      · rw [if_neg h3] at h
        simp [List.lookup] at h

/-! ## Unfolding lemmas for `Validate` -/

theorem any_codec_iff (cs : List String) (c : String) :
    cs.any (fun codec => c == codec) = true ↔ c ∈ cs := by
  simp [List.any_eq_true]

theorem Validate_of_no_format (o : EncodingOptions)
    (h : SupportedFormats o.VideoFormat = none) :
    Validate o = (some ("unsupported video format: " ++ o.VideoFormat), o) := by
  unfold Validate
  rw [h]

theorem Validate_of_no_codec (o : EncodingOptions) (cs : List String)
    (h : SupportedFormats o.VideoFormat = some cs) (hc : o.VideoCodec ∉ cs) :
    Validate o =
      (some ("unsupported codec " ++ o.VideoCodec ++ " for format " ++ o.VideoFormat), o) := by
  have hany : cs.any (fun codec => o.VideoCodec == codec) = false := by
    rw [Bool.eq_false_iff]
    intro ht
    exact hc ((any_codec_iff cs o.VideoCodec).1 ht)
  unfold Validate
  rw [h]
  simp only [hany]
  rfl

theorem Validate_of_no_entry (o : EncodingOptions) (cs : List String)
    (h : SupportedFormats o.VideoFormat = some cs) (hc : o.VideoCodec ∈ cs)
    (hn : codecSettings (baseCodecOf o.VideoCodec) = none) :
    Validate o =
      (if (o.Use2Pass && o.QualityMode != QualityModeBitrate) = true then
          some "2-pass encoding is only available with bitrate mode"
        else none, o) := by
  have hany : cs.any (fun codec => o.VideoCodec == codec) = true :=
    (any_codec_iff cs o.VideoCodec).2 hc
  unfold Validate
  rw [h]
  simp only [hany, hn, Bool.not_true, Bool.false_eq_true, if_false]
  split_ifs <;> rfl

/-- The tail of `Validate` once the settings entry `set` has been found and the
defaults have been filled in. -/
theorem Validate_of_entry_nonzero (o : EncodingOptions) (cs : List String) (set : CodecSetting)
    (h : SupportedFormats o.VideoFormat = some cs) (hc : o.VideoCodec ∈ cs)
    (hs : codecSettings (baseCodecOf o.VideoCodec) = some set) (hq : o.QualityValue ≠ 0) :
    Validate o =
      (if o.QualityValue < set.qualityRange.min ∨ o.QualityValue > set.qualityRange.max then
          some ("quality value " ++ fmtD o.QualityValue ++ " out of range ["
                  ++ fmtD set.qualityRange.min ++ "-" ++ fmtD set.qualityRange.max
                  ++ "] for codec " ++ o.VideoCodec)
        else if (o.Use2Pass && o.QualityMode != QualityModeBitrate) = true then
          some "2-pass encoding is only available with bitrate mode"
        else none, o) := by
  have hany : cs.any (fun codec => o.VideoCodec == codec) = true :=
    (any_codec_iff cs o.VideoCodec).2 hc
  unfold Validate
  rw [h]
  simp only [hany, hs, if_neg hq, Bool.not_true, Bool.false_eq_true, if_false]
  split_ifs <;> rfl

theorem Validate_of_entry_zero (o : EncodingOptions) (cs : List String) (set : CodecSetting)
    (h : SupportedFormats o.VideoFormat = some cs) (hc : o.VideoCodec ∈ cs)
    (hs : codecSettings (baseCodecOf o.VideoCodec) = some set) (hq : o.QualityValue = 0) :
    Validate o =
      (if o.Use2Pass = true then some "2-pass encoding is only available with bitrate mode"
        else none,
       { o with QualityMode := set.defaultMode, QualityValue := set.qualityRange.default_ }) := by
  have hany : cs.any (fun codec => o.VideoCodec == codec) = true :=
    (any_codec_iff cs o.VideoCodec).2 hc
  obtain ⟨-, hm, hmin, hpos, hmax⟩ := codecSettings_some hs
  have hr : ¬ (set.qualityRange.default_ < set.qualityRange.min ∨
      set.qualityRange.default_ > set.qualityRange.max) := by
    rw [hmin]; omega
  unfold Validate
  rw [h]
  simp only [hany, hs, if_pos hq]
  simp only [Bool.not_true, Bool.false_eq_true, if_false, if_neg hr, hm]
  cases o.Use2Pass <;> simp [QualityModeCRF, QualityModeBitrate]

theorem Validate_snd_of_nonzero (o : EncodingOptions) (hq : o.QualityValue ≠ 0) :
    (Validate o).2 = o := by
  cases h : SupportedFormats o.VideoFormat with
  | none => rw [Validate_of_no_format o h]
  | some cs =>
    by_cases hc : o.VideoCodec ∈ cs
    · cases hs : codecSettings (baseCodecOf o.VideoCodec) with
      | none => rw [Validate_of_no_entry o cs h hc hs]
      | some set => rw [Validate_of_entry_nonzero o cs set h hc hs hq]
    · rw [Validate_of_no_codec o cs h hc]

theorem Validate_fst_of_two_pass_crf (o : EncodingOptions) (h2 : o.Use2Pass = true)
    (hm : o.QualityMode = QualityModeCRF) : (Validate o).1 ≠ none := by
  have hb : (o.Use2Pass && o.QualityMode != QualityModeBitrate) = true := by
    rw [h2, hm]; decide
  cases h : SupportedFormats o.VideoFormat with
  | none => rw [Validate_of_no_format o h]; simp
  | some cs =>
    by_cases hc : o.VideoCodec ∈ cs
    · cases hs : codecSettings (baseCodecOf o.VideoCodec) with
      | none => rw [Validate_of_no_entry o cs h hc hs, if_pos hb]; simp
      | some set =>
        by_cases hq : o.QualityValue = 0
        · rw [Validate_of_entry_zero o cs set h hc hs hq, if_pos h2]; simp
        · rw [Validate_of_entry_nonzero o cs set h hc hs hq, if_pos hb]
          split_ifs <;> simp
    · rw [Validate_of_no_codec o cs h hc]; simp

theorem Validate_twice (o : EncodingOptions) : Validate (Validate o).2 = Validate o := by
  have hfix : (Validate o).2 = o → Validate (Validate o).2 = Validate o := fun e => by rw [e]
  by_cases hq : o.QualityValue = 0
  · cases h : SupportedFormats o.VideoFormat with
    | none => exact hfix (by rw [Validate_of_no_format o h])
    | some cs =>
      by_cases hc : o.VideoCodec ∈ cs
      · cases hs : codecSettings (baseCodecOf o.VideoCodec) with
        | none => exact hfix (by rw [Validate_of_no_entry o cs h hc hs])
        | some set =>
          obtain ⟨-, hm, hmin, hpos, hmax⟩ := codecSettings_some hs
          have hr : ¬ (set.qualityRange.default_ < set.qualityRange.min ∨
              set.qualityRange.default_ > set.qualityRange.max) := by
            rw [hmin]; omega
          have hne : set.qualityRange.default_ ≠ 0 := by omega
          have h1 := Validate_of_entry_zero o cs set h hc hs hq
          have h2 := Validate_of_entry_nonzero
            { o with QualityMode := set.defaultMode, QualityValue := set.qualityRange.default_ }
            cs set h hc hs hne
          rw [h1]
          simp only [] at h2 ⊢
          rw [h2]
          simp only [if_neg hr, hm]
          cases o.Use2Pass <;> simp [QualityModeCRF, QualityModeBitrate]
      · exact hfix (by rw [Validate_of_no_codec o cs h hc])
  · exact hfix (Validate_snd_of_nonzero o hq)

theorem baseCodecOf_of_entry {k : String} {set : CodecSetting}
    (h : codecSettings k = some set) : baseCodecOf k = k := by
  obtain ⟨hk, -⟩ := codecSettings_some h
  rcases hk with hk | hk | hk <;> subst hk <;> decide

theorem Main_supportedFormats_eq (k : String) : Main.supportedFormats k = SupportedFormats k :=
  rfl

theorem Main_codecSettings_eq (k : String) : Main.codecSettings k = codecSettings k :=
  rfl

theorem Main_Validate_of_no_entry (o : EncodingOptions) (cs : List String)
    (h : SupportedFormats o.VideoFormat = some cs) (hc : o.VideoCodec ∈ cs)
    (hn : codecSettings (baseCodecOf o.VideoCodec) = none) :
    Main.Validate o = (some ("no settings found for codec: " ++ o.VideoCodec), o) := by
  have hany : cs.any (fun codec => o.VideoCodec == codec) = true :=
    (any_codec_iff cs o.VideoCodec).2 hc
  have hdirect : codecSettings o.VideoCodec = none := by
    cases hd : codecSettings o.VideoCodec with
    | none => rfl
    | some set =>
      rw [baseCodecOf_of_entry hd, hd] at hn
      exact absurd hn (by simp)
  unfold Main.Validate
  rw [Main_supportedFormats_eq, h]
  simp only [hany, Main_codecSettings_eq, hdirect, hn, Bool.not_true, Bool.false_eq_true,
    if_false]

/-! ## Claims about `Validate` -/

/-- C1, refuted as stated: VP8 in WebM is an allowed pair and the quality value is the
sentinel 0, yet the settings table has no default for it, and after `Validate` the quality
value is still 0 and the quality mode is still the empty string. -/
theorem C1_counterexample_vp8_has_no_default :
    SupportedFormats optsVp8Unset.VideoFormat = some ["vp8", "vp9"] ∧
    optsVp8Unset.VideoCodec ∈ ["vp8", "vp9"] ∧
    optsVp8Unset.QualityValue = 0 ∧
    Validate optsVp8Unset = (none, optsVp8Unset) ∧
    ¬ ∃ set : CodecSetting,
        codecSettings (baseCodecOf optsVp8Unset.VideoCodec) = some set ∧
        (Validate optsVp8Unset).2.QualityValue = set.qualityRange.default_ ∧
        (Validate optsVp8Unset).2.QualityMode = set.defaultMode := by
  refine ⟨by decide, by decide, by decide, by decide, ?_⟩
  rintro ⟨set, hs, -, -⟩
  have hnone : codecSettings (baseCodecOf optsVp8Unset.VideoCodec) = none := by decide
  rw [hnone] at hs
  exact Option.noConfusion hs

/-- C1, amended: for an allowed format and codec whose base codec has the settings entry
`set`, and quality value 0, `Validate` leaves the options with the quality value
equal to the default of `set` and the quality mode equal to the default mode of `set`, every
other field being as before. -/
theorem C1_validate_fills_defaults (o : EncodingOptions) (cs : List String)
    (set : CodecSetting)
    (h : SupportedFormats o.VideoFormat = some cs) (hc : o.VideoCodec ∈ cs)
    (hs : codecSettings (baseCodecOf o.VideoCodec) = some set) (hq : o.QualityValue = 0) :
    (Validate o).2.QualityValue = set.qualityRange.default_ ∧
    (Validate o).2.QualityMode = set.defaultMode ∧
    (Validate o).2 =
      { o with QualityMode := set.defaultMode, QualityValue := set.qualityRange.default_ } := by
  rw [Validate_of_entry_zero o cs set h hc hs hq]
  exact ⟨rfl, rfl, rfl⟩

/-- Witness for C1: NVENC H.264 with the quality unset gets the H.264 defaults, 23 and crf. -/
theorem C1_validate_fills_defaults_witness :
    (Validate optsNvencUnset).2.QualityValue = 23 ∧
    (Validate optsNvencUnset).2.QualityMode = "crf" :=
  have w := C1_validate_fills_defaults optsNvencUnset
    ["h264", "h264_nvenc", "h264_qsv", "hevc", "hevc_nvenc", "hevc_qsv", "hevc_videotoolbox"]
    { defaultMode := QualityModeCRF, qualityRange := { min := 0, max := 51, default_ := 23 } }
    (by decide) (by decide) (by decide) (by decide)
  ⟨w.1, w.2.1⟩

/-- C2: when the format is not a key of `SupportedFormats`, `Validate` returns the
unsupported-format error, and when the codec is not in the list of the format it returns
the unsupported-codec error; in both cases the options are returned unchanged. -/
theorem C2_validate_rejects_unsupported (o : EncodingOptions) :
    (SupportedFormats o.VideoFormat = none →
      Validate o = (some ("unsupported video format: " ++ o.VideoFormat), o)) ∧
    (∀ cs, SupportedFormats o.VideoFormat = some cs → o.VideoCodec ∉ cs →
      Validate o =
        (some ("unsupported codec " ++ o.VideoCodec ++ " for format " ++ o.VideoFormat), o)) :=
  ⟨Validate_of_no_format o, fun cs h hc => Validate_of_no_codec o cs h hc⟩

/-- Witness for C2: `avi` is rejected as a format and `vp9` in `mp4` as a codec. -/
theorem C2_validate_rejects_unsupported_witness :
    Validate optsAvi = (some "unsupported video format: avi", optsAvi) ∧
    Validate optsVp9InMp4 = (some "unsupported codec vp9 for format mp4", optsVp9InMp4) :=
  ⟨(C2_validate_rejects_unsupported optsAvi).1 (by decide),
   (C2_validate_rejects_unsupported optsVp9InMp4).2
    ["h264", "h264_nvenc", "h264_qsv", "hevc", "hevc_nvenc", "hevc_qsv", "hevc_videotoolbox"]
    (by decide) (by decide)⟩

/-- C3: for an allowed format and codec whose base codec has the settings entry `set`, a
nonzero quality value below `min` or above `max` makes `Validate` return the out-of-range
error and leave the options, so also the quality value and mode, unchanged. -/
theorem C3_validate_rejects_out_of_range (o : EncodingOptions) (cs : List String)
    (set : CodecSetting)
    (h : SupportedFormats o.VideoFormat = some cs) (hc : o.VideoCodec ∈ cs)
    (hs : codecSettings (baseCodecOf o.VideoCodec) = some set) (hq : o.QualityValue ≠ 0)
    (hr : o.QualityValue < set.qualityRange.min ∨ o.QualityValue > set.qualityRange.max) :
    Validate o =
      (some ("quality value " ++ fmtD o.QualityValue ++ " out of range ["
              ++ fmtD set.qualityRange.min ++ "-" ++ fmtD set.qualityRange.max
              ++ "] for codec " ++ o.VideoCodec), o) ∧
    (Validate o).2.QualityValue = o.QualityValue ∧
    (Validate o).2.QualityMode = o.QualityMode := by
  rw [Validate_of_entry_nonzero o cs set h hc hs hq, if_pos hr]
  exact ⟨rfl, rfl, rfl⟩

/-- Witness for C3: 2000 is outside the H.264 range 0..51. -/
theorem C3_validate_rejects_out_of_range_witness :
    Validate optsH264TwoPass =
      (some "quality value 2000 out of range [0-51] for codec h264", optsH264TwoPass) :=
  (C3_validate_rejects_out_of_range optsH264TwoPass
    ["h264", "h264_nvenc", "h264_qsv", "hevc", "hevc_nvenc", "hevc_qsv", "hevc_videotoolbox"]
    { defaultMode := QualityModeCRF, qualityRange := { min := 0, max := 51, default_ := 23 } }
    (by decide) (by decide) (by decide) (by decide) (by decide)).1

/-- C4: options with `Use2Pass` set and quality mode "crf" never pass `Validate`, whatever
the other fields are. -/
theorem C4_two_pass_with_crf_fails (o : EncodingOptions) (h2 : o.Use2Pass = true)
    (hm : o.QualityMode = "crf") : ∃ msg, (Validate o).1 = some msg :=
  Option.ne_none_iff_exists'.1 (Validate_fst_of_two_pass_crf o h2 hm)

/-- Witness for C4: a two-pass HEVC request in CRF mode with the quality unset. -/
theorem C4_two_pass_with_crf_fails_witness :
    optsCrfTwoPass.Use2Pass = true ∧ optsCrfTwoPass.QualityMode = "crf" ∧
    ∃ msg, (Validate optsCrfTwoPass).1 = some msg :=
  ⟨by decide, by decide, C4_two_pass_with_crf_fails optsCrfTwoPass (by decide) (by decide)⟩

/-- C5, refuted as stated: VP8 in WebM is an allowed pair whose base codec has no settings
entry, and `Validate` of `pkg/encoder` returns no error for it. -/
theorem C5_counterexample_vp8_passes :
    SupportedFormats optsVp8Unset.VideoFormat = some ["vp8", "vp9"] ∧
    optsVp8Unset.VideoCodec ∈ ["vp8", "vp9"] ∧
    codecSettings (baseCodecOf optsVp8Unset.VideoCodec) = none ∧
    (Validate optsVp8Unset).1 = none := by
  decide

/-- C5, amended: for an allowed pair whose base codec has no settings entry, only the
legacy `Validate` of `app.go` treats the missing entry as an error ("no settings found for
codec"); `Validate` of `pkg/encoder` succeeds unless `Use2Pass` is set and the quality
mode is not bitrate. -/
theorem C5_missing_entry_fatal_only_in_legacy (o : EncodingOptions) (cs : List String)
    (h : SupportedFormats o.VideoFormat = some cs) (hc : o.VideoCodec ∈ cs)
    (hn : codecSettings (baseCodecOf o.VideoCodec) = none) :
    Main.Validate o = (some ("no settings found for codec: " ++ o.VideoCodec), o) ∧
    ((Validate o).1 = none ↔
      ¬ (o.Use2Pass = true ∧ o.QualityMode ≠ QualityModeBitrate)) := by
  refine ⟨Main_Validate_of_no_entry o cs h hc hn, ?_⟩
  rw [Validate_of_no_entry o cs h hc hn]
  cases o.Use2Pass <;> by_cases hb : o.QualityMode = QualityModeBitrate <;> simp [hb]

/-- Witness for C5: VP8 in WebM fails in the legacy package and passes in `pkg/encoder`. -/
theorem C5_missing_entry_fatal_only_in_legacy_witness :
    Main.Validate optsVp8Unset = (some "no settings found for codec: vp8", optsVp8Unset) ∧
    (Validate optsVp8Unset).1 = none :=
  have w := C5_missing_entry_fatal_only_in_legacy optsVp8Unset ["vp8", "vp9"]
    (by decide) (by decide) (by decide)
  ⟨w.1, w.2.2 (by decide)⟩

/-- C6: for an allowed pair whose base codec has no settings entry, `Validate` of
`pkg/encoder` changes no field, whatever the quality value is, and its only error is the
two-pass error, returned exactly when `Use2Pass` is set and the quality mode is not
bitrate. -/
theorem C6_no_entry_skips_quality_checks (o : EncodingOptions) (cs : List String)
    (h : SupportedFormats o.VideoFormat = some cs) (hc : o.VideoCodec ∈ cs)
    (hn : codecSettings (baseCodecOf o.VideoCodec) = none) :
    (Validate o).2 = o ∧
    ((o.Use2Pass = true ∧ o.QualityMode ≠ QualityModeBitrate) →
      (Validate o).1 = some "2-pass encoding is only available with bitrate mode") ∧
    (¬ (o.Use2Pass = true ∧ o.QualityMode ≠ QualityModeBitrate) → (Validate o).1 = none) := by
  rw [Validate_of_no_entry o cs h hc hn]
  refine ⟨rfl, ?_, ?_⟩
  · rintro ⟨h2, hm⟩
    simp [h2, hm]
  · intro hnot
    cases h2 : o.Use2Pass
    · simp
    · by_cases hb : o.QualityMode = QualityModeBitrate
      · simp [hb]
      · exact absurd ⟨h2, hb⟩ hnot

/-- Witness for C6: VP8 in WebM with quality value 0 passes unchanged. -/
theorem C6_no_entry_skips_quality_checks_witness :
    (Validate optsVp8Unset).2 = optsVp8Unset ∧ (Validate optsVp8Unset).1 = none :=
  have w := C6_no_entry_skips_quality_checks optsVp8Unset ["vp8", "vp9"]
    (by decide) (by decide) (by decide)
  ⟨w.1, w.2.2 (by decide)⟩

/-- C7: `Validate` is idempotent: run on the options left by a first call it returns the
same error or success and the same options; and a call on options with a nonzero quality
value changes no field. -/
theorem C7_validate_idempotent (o : EncodingOptions) :
    (Validate (Validate o).2).1 = (Validate o).1 ∧
    (Validate (Validate o).2).2 = (Validate o).2 ∧
    (o.QualityValue ≠ 0 → (Validate o).2 = o) := by
  rw [Validate_twice o]
  exact ⟨rfl, rfl, Validate_snd_of_nonzero o⟩

/-- Witness for C7: the two-pass request with quality 2000 is returned unchanged. -/
theorem C7_validate_idempotent_witness :
    optsH264TwoPass.QualityValue ≠ 0 ∧ (Validate optsH264TwoPass).2 = optsH264TwoPass :=
  ⟨by decide, (C7_validate_idempotent optsH264TwoPass).2.2 (by decide)⟩

/-! ## Claims about the command compiler -/

theorem append_k_ne (s t : String) (ht : t.data.getLast? ≠ some 'k') : s ++ "k" ≠ t := by
  intro h
  apply ht
  rw [← h, String.data_append]
  have hk : "k".data = ['k'] := rfl
  rw [hk, List.getLast?_concat]

theorem scale_ne (a b t : String) (ht : t.data.head? ≠ some 's') :
    "scale=" ++ a ++ ":" ++ b ≠ t := by
  intro h
  apply ht
  rw [← h, String.data_append, String.data_append, String.data_append]
  have hs : "scale=".data = ['s', 'c', 'a', 'l', 'e', '='] := rfl
  rw [hs]
  rfl

/-- C8: in crf or bitrate mode `BuildFFmpegArgs` returns a nil error and exactly the input
pair, the video-codec pair, one quality pair, the scale filter when resize is on with
positive width and height, the audio-codec pair (with `copy` for an empty codec), the audio
bitrate pair when positive and the sample-rate pair when positive, in this order. -/
theorem C8_build_args_exact (o : EncodingOptions) (inputPath : String)
    (hm : o.QualityMode = "crf" ∨ o.QualityMode = "bitrate") :
    BuildFFmpegArgs o inputPath =
      (["-i", inputPath, "-c:v", o.VideoCodec]
        ++ (if o.QualityMode = "crf" then ["-crf", fmtD o.QualityValue]
            else ["-b:v", fmtD o.QualityValue ++ "k"])
        ++ (if o.IsResize = true ∧ 0 < o.Width ∧ 0 < o.Height then
              ["-vf", "scale=" ++ fmtD o.Width ++ ":" ++ fmtD o.Height]
            else [])
        ++ (if o.AudioCodec = "" then ["-c:a", "copy"] else ["-c:a", o.AudioCodec])
        ++ (if 0 < o.AudioBitrate then ["-b:a", fmtD o.AudioBitrate ++ "k"] else [])
        ++ (if 0 < o.AudioSamplerate then ["-ar", fmtD o.AudioSamplerate] else []),
       none) := by
  unfold BuildFFmpegArgs
  rcases hm with hm | hm <;>
    simp only [hm, QualityModeCRF, QualityModeBitrate] <;>
    split_ifs <;> simp_all

/-- Witness for C8: CRF 23 with resize to 1280x720 and no audio settings. -/
theorem C8_build_args_exact_witness :
    BuildFFmpegArgs optsH264Crf "in.mov" =
      (["-i", "in.mov", "-c:v", "h264", "-crf", "23", "-vf", "scale=1280:720", "-c:a", "copy"],
       none) :=
  (C8_build_args_exact optsH264Crf "in.mov" (Or.inl (by decide))).trans (by decide)

theorem Validate_ok_allowed (o : EncodingOptions) (hv : (Validate o).1 = none) :
    ∃ cs, SupportedFormats o.VideoFormat = some cs ∧ o.VideoCodec ∈ cs := by
  cases h : SupportedFormats o.VideoFormat with
  | none =>
    rw [Validate_of_no_format o h] at hv
    exact Option.noConfusion hv
  | some cs =>
    by_cases hc : o.VideoCodec ∈ cs
    · exact ⟨cs, rfl, hc⟩
    · rw [Validate_of_no_codec o cs h hc] at hv
      exact Option.noConfusion hv

theorem Validate_snd_fields (o : EncodingOptions) :
    ∃ m q, (Validate o).2 = { o with QualityMode := m, QualityValue := q } := by
  by_cases hq : o.QualityValue = 0
  · cases h : SupportedFormats o.VideoFormat with
    | none => exact ⟨o.QualityMode, o.QualityValue, by rw [Validate_of_no_format o h]⟩
    | some cs =>
      by_cases hc : o.VideoCodec ∈ cs
      · cases hs : codecSettings (baseCodecOf o.VideoCodec) with
        | none => exact ⟨o.QualityMode, o.QualityValue, by rw [Validate_of_no_entry o cs h hc hs]⟩
        | some set =>
          exact ⟨set.defaultMode, set.qualityRange.default_,
            by rw [Validate_of_entry_zero o cs set h hc hs hq]⟩
      · exact ⟨o.QualityMode, o.QualityValue, by rw [Validate_of_no_codec o cs h hc]⟩
  · exact ⟨o.QualityMode, o.QualityValue, by rw [Validate_snd_of_nonzero o hq]⟩

theorem ite_append_right (c : Prop) [Decidable c] (a x : List String) :
    (if c then a ++ x else a) = a ++ (if c then x else []) := by
  split_ifs <;> simp

/-- The argument list of `BuildFFmpegArgs` as one concatenation of its five segments. -/
theorem BuildFFmpegArgs_segments (o : EncodingOptions) (inputPath : String) :
    (BuildFFmpegArgs o inputPath).1 =
      ["-i", inputPath, "-c:v", o.VideoCodec]
        ++ (if o.QualityMode = "crf" then ["-crf", fmtD o.QualityValue]
            else if o.QualityMode = "bitrate" then ["-b:v", fmtD o.QualityValue ++ "k"]
            else [])
        ++ ((if o.IsResize = true ∧ 0 < o.Width ∧ 0 < o.Height then
              ["-vf", "scale=" ++ fmtD o.Width ++ ":" ++ fmtD o.Height]
            else [])
        ++ (if o.AudioCodec = "" then ["-c:a", "copy"] else ["-c:a", o.AudioCodec])
        ++ (if 0 < o.AudioBitrate then ["-b:a", fmtD o.AudioBitrate ++ "k"] else [])
        ++ (if 0 < o.AudioSamplerate then ["-ar", fmtD o.AudioSamplerate] else [])) := by
  have hq : ∀ a : List String,
      (if o.QualityMode = QualityModeCRF then a ++ ["-crf", fmtD o.QualityValue]
        else if o.QualityMode = QualityModeBitrate then a ++ ["-b:v", fmtD o.QualityValue ++ "k"]
        else a) =
      a ++ (if o.QualityMode = "crf" then ["-crf", fmtD o.QualityValue]
            else if o.QualityMode = "bitrate" then ["-b:v", fmtD o.QualityValue ++ "k"]
            else []) := by
    intro a
    simp only [QualityModeCRF, QualityModeBitrate]
    split_ifs <;> simp
  have ha : ∀ a : List String,
      (if (o.AudioCodec != "") = true then a ++ ["-c:a", o.AudioCodec] else a ++ ["-c:a", "copy"]) =
      a ++ (if o.AudioCodec = "" then ["-c:a", "copy"] else ["-c:a", o.AudioCodec]) := by
    intro a
    by_cases h : o.AudioCodec = ""
    · simp [h]
    · simp [h]
  unfold BuildFFmpegArgs
  simp only [hq, ha, ite_append_right, Bool.and_eq_true, decide_eq_true_eq, gt_iff_lt]
  simp only [List.append_assoc, and_assoc, QualityModeCRF, QualityModeBitrate]
  split_ifs <;> rfl

/-- C9, refuted as stated: `Validate` accepts an H.264 request with quality 23 whose quality
mode is the empty string, and `BuildFFmpegArgs` then emits neither `-crf` nor `-b:v`. -/
theorem C9_counterexample_no_quality_flag :
    Validate optsH264NoMode = (none, optsH264NoMode) ∧
    BuildFFmpegArgs (Validate optsH264NoMode).2 "in.mov" =
      (["-i", "in.mov", "-c:v", "h264", "-c:a", "copy"], none) ∧
    "-crf" ∉ (BuildFFmpegArgs (Validate optsH264NoMode).2 "in.mov").1 ∧
    "-b:v" ∉ (BuildFFmpegArgs (Validate optsH264NoMode).2 "in.mov").1 := by
  decide

/-- C9, amended: for options accepted by `Validate`, the arguments built from the validated
options are the input pair, the video-codec pair, then the pair `-crf n` when the
validated quality mode is crf, the pair `-b:v nk` when it is bitrate and nothing when it is
any other string, then the resize and audio flags, which do not depend on the mode; and a
request with the sentinel quality 0 whose base codec has a settings entry is validated
to crf mode. -/
theorem C9_one_quality_flag_per_known_mode (o : EncodingOptions) (inputPath : String)
    (hv : (Validate o).1 = none) :
    (∃ tail : List String,
      ((Validate o).2.QualityMode = "crf" →
        (BuildFFmpegArgs (Validate o).2 inputPath).1 =
          ["-i", inputPath, "-c:v", o.VideoCodec, "-crf", fmtD (Validate o).2.QualityValue]
            ++ tail) ∧
      ((Validate o).2.QualityMode = "bitrate" →
        (BuildFFmpegArgs (Validate o).2 inputPath).1 =
          ["-i", inputPath, "-c:v", o.VideoCodec,
            "-b:v", fmtD (Validate o).2.QualityValue ++ "k"] ++ tail) ∧
      ((Validate o).2.QualityMode ≠ "crf" → (Validate o).2.QualityMode ≠ "bitrate" →
        (BuildFFmpegArgs (Validate o).2 inputPath).1 =
          ["-i", inputPath, "-c:v", o.VideoCodec] ++ tail) ∧
      tail =
        (if o.IsResize = true ∧ 0 < o.Width ∧ 0 < o.Height then
            ["-vf", "scale=" ++ fmtD o.Width ++ ":" ++ fmtD o.Height]
          else [])
        ++ (if o.AudioCodec = "" then ["-c:a", "copy"] else ["-c:a", o.AudioCodec])
        ++ (if 0 < o.AudioBitrate then ["-b:a", fmtD o.AudioBitrate ++ "k"] else [])
        ++ (if 0 < o.AudioSamplerate then ["-ar", fmtD o.AudioSamplerate] else [])) ∧
    (o.QualityValue = 0 → (∃ set, codecSettings (baseCodecOf o.VideoCodec) = some set) →
      (Validate o).2.QualityMode = "crf") := by
  obtain ⟨m, q, hmq⟩ := Validate_snd_fields o
  constructor
  · refine ⟨_, ?_, ?_, ?_, rfl⟩
    · intro hm
      rw [BuildFFmpegArgs_segments, if_pos hm, hmq]
      rfl
    · intro hm
      have hc : (Validate o).2.QualityMode ≠ "crf" := by rw [hm]; decide
      rw [BuildFFmpegArgs_segments, if_neg hc, if_pos hm, hmq]
      rfl
    · intro h1 h2
      rw [BuildFFmpegArgs_segments, if_neg h1, if_neg h2, hmq]
      rfl
  · rintro hq ⟨set, hs⟩
    obtain ⟨cs, h, hc⟩ := Validate_ok_allowed o hv
    rw [Validate_of_entry_zero o cs set h hc hs hq]
    exact (codecSettings_some hs).2.1

/-- Witness for C9: NVENC H.264 with the quality unset is validated to crf 23 and gets
exactly the `-crf 23` pair after the codec pair. -/
theorem C9_one_quality_flag_per_known_mode_witness :
    (Validate optsNvencUnset).1 = none ∧
    (BuildFFmpegArgs (Validate optsNvencUnset).2 "in.mov").1 =
      ["-i", "in.mov", "-c:v", "h264_nvenc", "-crf", "23", "-c:a", "copy"] := by
  refine ⟨by decide, ?_⟩
  obtain ⟨⟨tail, hcrf, -, -, ht⟩, hmode⟩ :=
    C9_one_quality_flag_per_known_mode optsNvencUnset "in.mov" (by decide)
  have hm : (Validate optsNvencUnset).2.QualityMode = "crf" :=
    hmode (by decide)
      ⟨{ defaultMode := QualityModeCRF, qualityRange := { min := 0, max := 51, default_ := 23 } },
        by decide⟩
  rw [hcrf hm, ht]
  decide

theorem devNull_not_audio_flag (host : HostOS) :
    DevNull host ≠ "-c:a" ∧ DevNull host ≠ "-b:a" ∧ DevNull host ≠ "-ar" := by
  cases host <;> decide

theorem Build2PassArgs_fst (host : HostOS) (o : EncodingOptions)
    (inputPath passLogFile : String) :
    (Build2PassArgs host o inputPath passLogFile).1 =
      ["-i", inputPath, "-c:v", o.VideoCodec, "-b:v", fmtD o.QualityValue ++ "k",
        "-pass", "1", "-passlogfile", passLogFile, "-an"]
        ++ ["-f", "null"]
        ++ (if o.IsResize = true ∧ 0 < o.Width ∧ 0 < o.Height then
              ["-vf", "scale=" ++ fmtD o.Width ++ ":" ++ fmtD o.Height]
            else [])
        ++ [DevNull host] := by
  unfold Build2PassArgs
  simp only [ite_append_right, Bool.and_eq_true, decide_eq_true_eq, gt_iff_lt, and_assoc]
  rfl

theorem Build2PassArgs_snd (host : HostOS) (o : EncodingOptions)
    (inputPath passLogFile : String) :
    (Build2PassArgs host o inputPath passLogFile).2 =
      ["-i", inputPath, "-c:v", o.VideoCodec, "-b:v", fmtD o.QualityValue ++ "k",
        "-pass", "2", "-passlogfile", passLogFile]
        ++ (if o.IsResize = true ∧ 0 < o.Width ∧ 0 < o.Height then
              ["-vf", "scale=" ++ fmtD o.Width ++ ":" ++ fmtD o.Height]
            else [])
        ++ (if o.AudioCodec = "" then ["-c:a", "copy"] else ["-c:a", o.AudioCodec])
        ++ (if 0 < o.AudioBitrate then ["-b:a", fmtD o.AudioBitrate ++ "k"] else [])
        ++ (if 0 < o.AudioSamplerate then ["-ar", fmtD o.AudioSamplerate] else []) := by
  have ha : ∀ a : List String,
      (if (o.AudioCodec != "") = true then a ++ ["-c:a", o.AudioCodec]
        else a ++ ["-c:a", "copy"]) =
      a ++ (if o.AudioCodec = "" then ["-c:a", "copy"] else ["-c:a", o.AudioCodec]) := by
    intro a
    by_cases h : o.AudioCodec = ""
    · simp [h]
    · simp [h]
  unfold Build2PassArgs
  simp only [ha, ite_append_right, Bool.and_eq_true, decide_eq_true_eq, gt_iff_lt, and_assoc]

theorem not_mem_pass1 (host : HostOS) (o : EncodingOptions) (inputPath passLogFile f : String)
    (hf : f = "-c:a" ∨ f = "-b:a" ∨ f = "-ar")
    (hi : f ≠ inputPath) (hc : f ≠ o.VideoCodec) (hl : f ≠ passLogFile) :
    f ∉ (Build2PassArgs host o inputPath passLogFile).1 := by
  have hd : f ≠ DevNull host := by
    obtain ⟨hd1, hd2, hd3⟩ := devNull_not_audio_flag host
    rcases hf with hf | hf | hf <;> subst hf <;> intro e
    · exact hd1 e.symm
    · exact hd2 e.symm
    · exact hd3 e.symm
  have hk : f ≠ fmtD o.QualityValue ++ "k" := by
    intro e
    refine append_k_ne (fmtD o.QualityValue) f ?_ e.symm
    rcases hf with hf | hf | hf <;> subst hf <;> decide
  have hsc : f ≠ "scale=" ++ fmtD o.Width ++ ":" ++ fmtD o.Height := by
    intro e
    refine scale_ne (fmtD o.Width) (fmtD o.Height) f ?_ e.symm
    rcases hf with hf | hf | hf <;> subst hf <;> decide
  have hlit : f ≠ "-i" ∧ f ≠ "-c:v" ∧ f ≠ "-b:v" ∧ f ≠ "-pass" ∧ f ≠ "1" ∧
      f ≠ "-passlogfile" ∧ f ≠ "-an" ∧ f ≠ "-f" ∧ f ≠ "null" ∧ f ≠ "-vf" := by
    rcases hf with hf | hf | hf <;> subst hf <;> decide
  obtain ⟨l1, l2, l3, l4, l5, l6, l7, l8, l9, l10⟩ := hlit
  rw [Build2PassArgs_fst]
  simp only [List.mem_append, List.mem_cons, List.mem_singleton, List.not_mem_nil, or_false,
    not_or]
  refine ⟨⟨⟨⟨l1, hi, l2, hc, l3, hk, l4, l5, l6, hl, l7⟩, l8, l9⟩, ?_⟩, hd⟩
  split_ifs
  · simp only [List.mem_cons, List.mem_singleton, List.not_mem_nil, or_false, not_or]
    exact ⟨l10, hsc⟩
  · exact List.not_mem_nil f

/-- C10: when the input path, the codec name and the log path are none of the flags `-c:a`,
`-b:a`, `-ar`, the first-pass list of `Build2PassArgs` contains `-an` and none of these three
flags; it is the fixed head followed by `-f`, `null`, the scale filter when resize applies,
and the null device; and the second-pass list contains `-c:a` directly followed by the audio
codec, or by `copy` when the audio codec is empty. -/
theorem C10_two_pass_audio_flags (host : HostOS) (o : EncodingOptions)
    (inputPath passLogFile : String)
    (hi : inputPath ∉ ["-c:a", "-b:a", "-ar"])
    (hcodec : o.VideoCodec ∉ ["-c:a", "-b:a", "-ar"])
    (hl : passLogFile ∉ ["-c:a", "-b:a", "-ar"]) :
    "-an" ∈ (Build2PassArgs host o inputPath passLogFile).1 ∧
    "-c:a" ∉ (Build2PassArgs host o inputPath passLogFile).1 ∧
    "-b:a" ∉ (Build2PassArgs host o inputPath passLogFile).1 ∧
    "-ar" ∉ (Build2PassArgs host o inputPath passLogFile).1 ∧
    (Build2PassArgs host o inputPath passLogFile).1 =
      ["-i", inputPath, "-c:v", o.VideoCodec, "-b:v", fmtD o.QualityValue ++ "k",
        "-pass", "1", "-passlogfile", passLogFile, "-an"]
        ++ ["-f", "null"]
        ++ (if o.IsResize = true ∧ 0 < o.Width ∧ 0 < o.Height then
              ["-vf", "scale=" ++ fmtD o.Width ++ ":" ++ fmtD o.Height]
            else [])
        ++ [DevNull host] ∧
    (∃ pre post : List String,
      (Build2PassArgs host o inputPath passLogFile).2 =
        pre ++ ["-c:a", if o.AudioCodec = "" then "copy" else o.AudioCodec] ++ post) := by
  simp only [List.mem_cons, List.mem_singleton, List.not_mem_nil, or_false, not_or] at hi hcodec hl
  refine ⟨?_, ?_, ?_, ?_, Build2PassArgs_fst host o inputPath passLogFile, ?_⟩
  · rw [Build2PassArgs_fst]
    simp
  · exact not_mem_pass1 host o inputPath passLogFile "-c:a" (Or.inl rfl)
      (Ne.symm hi.1) (Ne.symm hcodec.1) (Ne.symm hl.1)
  · exact not_mem_pass1 host o inputPath passLogFile "-b:a" (Or.inr (Or.inl rfl))
      (Ne.symm hi.2.1) (Ne.symm hcodec.2.1) (Ne.symm hl.2.1)
  · exact not_mem_pass1 host o inputPath passLogFile "-ar" (Or.inr (Or.inr rfl))
      (Ne.symm hi.2.2) (Ne.symm hcodec.2.2) (Ne.symm hl.2.2)
  · rw [Build2PassArgs_snd]
    refine ⟨["-i", inputPath, "-c:v", o.VideoCodec, "-b:v", fmtD o.QualityValue ++ "k",
        "-pass", "2", "-passlogfile", passLogFile]
        ++ (if o.IsResize = true ∧ 0 < o.Width ∧ 0 < o.Height then
              ["-vf", "scale=" ++ fmtD o.Width ++ ":" ++ fmtD o.Height]
            else []),
      (if 0 < o.AudioBitrate then ["-b:a", fmtD o.AudioBitrate ++ "k"] else [])
        ++ (if 0 < o.AudioSamplerate then ["-ar", fmtD o.AudioSamplerate] else []), ?_⟩
    by_cases ha : o.AudioCodec = ""
    · simp only [if_pos ha, List.append_assoc]
    · simp only [if_neg ha, List.append_assoc]

/-- Witness for C10: the two-pass H.264 request on a Unix-like host. -/
theorem C10_two_pass_audio_flags_witness :
    "-an" ∈ (Build2PassArgs HostOS.unixLike optsH264TwoPass "in.mov" "/tmp/log").1 ∧
    "-c:a" ∉ (Build2PassArgs HostOS.unixLike optsH264TwoPass "in.mov" "/tmp/log").1 ∧
    (Build2PassArgs HostOS.unixLike optsH264TwoPass "in.mov" "/tmp/log").1 =
      ["-i", "in.mov", "-c:v", "h264", "-b:v", "2000k", "-pass", "1", "-passlogfile",
        "/tmp/log", "-an", "-f", "null", "-vf", "scale=1280:720", "/dev/null"] :=
  have w := C10_two_pass_audio_flags HostOS.unixLike optsH264TwoPass "in.mov" "/tmp/log"
    (by decide) (by decide) (by decide)
  ⟨w.1, w.2.1, w.2.2.2.2.1.trans (by decide)⟩

/-- C11: in bitrate mode the second-pass list is the single-pass list with `-pass 2
-passlogfile <log>` inserted after its first six elements, which are the input pair, the
codec pair and the `-b:v` pair; the first-pass list starts with the same six elements,
carries the same log path and the same scale filter, and ends with the null device. -/
theorem C11_pass2_is_single_pass_plus_pass_flags (host : HostOS) (o : EncodingOptions)
    (inputPath passLogFile : String) (hm : o.QualityMode = "bitrate") :
    (BuildFFmpegArgs o inputPath).1.take 6 =
      ["-i", inputPath, "-c:v", o.VideoCodec, "-b:v", fmtD o.QualityValue ++ "k"] ∧
    (Build2PassArgs host o inputPath passLogFile).2 =
      (BuildFFmpegArgs o inputPath).1.take 6
        ++ ["-pass", "2", "-passlogfile", passLogFile]
        ++ (BuildFFmpegArgs o inputPath).1.drop 6 ∧
    (∃ scale audio : List String,
      (BuildFFmpegArgs o inputPath).1.drop 6 = scale ++ audio ∧
      scale =
        (if o.IsResize = true ∧ 0 < o.Width ∧ 0 < o.Height then
            ["-vf", "scale=" ++ fmtD o.Width ++ ":" ++ fmtD o.Height]
          else []) ∧
      (Build2PassArgs host o inputPath passLogFile).1 =
        (BuildFFmpegArgs o inputPath).1.take 6
          ++ ["-pass", "1", "-passlogfile", passLogFile, "-an", "-f", "null"]
          ++ scale ++ [DevNull host]) := by
  have hc : o.QualityMode ≠ "crf" := by rw [hm]; decide
  have hseg := BuildFFmpegArgs_segments o inputPath
  rw [if_neg hc, if_pos hm] at hseg
  have htake : (BuildFFmpegArgs o inputPath).1.take 6 =
      ["-i", inputPath, "-c:v", o.VideoCodec, "-b:v", fmtD o.QualityValue ++ "k"] := by
    rw [hseg]; rfl
  have hdrop : (BuildFFmpegArgs o inputPath).1.drop 6 =
      (if o.IsResize = true ∧ 0 < o.Width ∧ 0 < o.Height then
          ["-vf", "scale=" ++ fmtD o.Width ++ ":" ++ fmtD o.Height]
        else [])
      ++ ((if o.AudioCodec = "" then ["-c:a", "copy"] else ["-c:a", o.AudioCodec])
      ++ (if 0 < o.AudioBitrate then ["-b:a", fmtD o.AudioBitrate ++ "k"] else [])
      ++ (if 0 < o.AudioSamplerate then ["-ar", fmtD o.AudioSamplerate] else [])) := by
    rw [hseg]
    simp only [List.append_assoc]
    rfl
  refine ⟨htake, ?_, _, _, hdrop, rfl, ?_⟩
  · rw [htake, hdrop, Build2PassArgs_snd]
    simp only [List.append_assoc, List.cons_append, List.nil_append]
  · rw [htake, Build2PassArgs_fst]
    simp only [List.append_assoc, List.cons_append, List.nil_append]

/-- Witness for C11: the two-pass H.264 request at 2000 kbit/s. -/
theorem C11_pass2_is_single_pass_plus_pass_flags_witness :
    (Build2PassArgs HostOS.unixLike optsH264TwoPass "in.mov" "/tmp/log").2 =
      ["-i", "in.mov", "-c:v", "h264", "-b:v", "2000k", "-pass", "2", "-passlogfile",
        "/tmp/log", "-vf", "scale=1280:720", "-c:a", "aac", "-b:a", "128k", "-ar", "44100"] ∧
    (BuildFFmpegArgs optsH264TwoPass "in.mov").1 =
      ["-i", "in.mov", "-c:v", "h264", "-b:v", "2000k",
        "-vf", "scale=1280:720", "-c:a", "aac", "-b:a", "128k", "-ar", "44100"] :=
  ⟨(C11_pass2_is_single_pass_plus_pass_flags HostOS.unixLike optsH264TwoPass "in.mov"
      "/tmp/log" (by decide)).2.1.trans (by decide), by decide⟩

/-- C17, refuted as stated: with an empty audio codec and an audio bitrate of 128 and a sample
rate of 44100, both `BuildFFmpegArgs` and the second pass of `Build2PassArgs` emit `-b:a 128k`
and `-ar 44100` after `-c:a copy`. -/
theorem C17_counterexample_copy_with_bitrate :
    optsCopyWithBitrate.AudioCodec = "" ∧
    (BuildFFmpegArgs optsCopyWithBitrate "in.mov").1 =
      ["-i", "in.mov", "-c:v", "h264", "-b:v", "40k",
        "-c:a", "copy", "-b:a", "128k", "-ar", "44100"] ∧
    (Build2PassArgs HostOS.unixLike optsCopyWithBitrate "in.mov" "/tmp/log").2 =
      ["-i", "in.mov", "-c:v", "h264", "-b:v", "40k", "-pass", "2", "-passlogfile", "/tmp/log",
        "-c:a", "copy", "-b:a", "128k", "-ar", "44100"] ∧
    "-b:a" ∈ (BuildFFmpegArgs optsCopyWithBitrate "in.mov").1 ∧
    "-ar" ∈ (Build2PassArgs HostOS.unixLike optsCopyWithBitrate "in.mov" "/tmp/log").2 := by
  decide

/-- C17, amended: with an empty audio codec, `BuildFFmpegArgs` and the second pass of
`Build2PassArgs` end with `-c:a copy`, followed by `-b:a <n>k` exactly when the audio bitrate
is positive and by `-ar <n>` exactly when the sample rate is positive; so `-c:a copy` is the
only audio flag when neither of the two is positive. -/
theorem C17_empty_audio_codec_copies (host : HostOS) (o : EncodingOptions)
    (inputPath passLogFile : String) (ha : o.AudioCodec = "") :
    (BuildFFmpegArgs o inputPath).1 =
      ["-i", inputPath, "-c:v", o.VideoCodec]
        ++ (if o.QualityMode = "crf" then ["-crf", fmtD o.QualityValue]
            else if o.QualityMode = "bitrate" then ["-b:v", fmtD o.QualityValue ++ "k"]
            else [])
        ++ (if o.IsResize = true ∧ 0 < o.Width ∧ 0 < o.Height then
              ["-vf", "scale=" ++ fmtD o.Width ++ ":" ++ fmtD o.Height]
            else [])
        ++ ["-c:a", "copy"]
        ++ (if 0 < o.AudioBitrate then ["-b:a", fmtD o.AudioBitrate ++ "k"] else [])
        ++ (if 0 < o.AudioSamplerate then ["-ar", fmtD o.AudioSamplerate] else []) ∧
    (Build2PassArgs host o inputPath passLogFile).2 =
      ["-i", inputPath, "-c:v", o.VideoCodec, "-b:v", fmtD o.QualityValue ++ "k",
        "-pass", "2", "-passlogfile", passLogFile]
        ++ (if o.IsResize = true ∧ 0 < o.Width ∧ 0 < o.Height then
              ["-vf", "scale=" ++ fmtD o.Width ++ ":" ++ fmtD o.Height]
            else [])
        ++ ["-c:a", "copy"]
        ++ (if 0 < o.AudioBitrate then ["-b:a", fmtD o.AudioBitrate ++ "k"] else [])
        ++ (if 0 < o.AudioSamplerate then ["-ar", fmtD o.AudioSamplerate] else []) ∧
    (o.AudioBitrate ≤ 0 → o.AudioSamplerate ≤ 0 →
      ∃ pre1 pre2 : List String,
        (BuildFFmpegArgs o inputPath).1 = pre1 ++ ["-c:a", "copy"] ∧
        (Build2PassArgs host o inputPath passLogFile).2 = pre2 ++ ["-c:a", "copy"]) := by
  have h1 := BuildFFmpegArgs_segments o inputPath
  have h2 := Build2PassArgs_snd host o inputPath passLogFile
  rw [if_pos ha] at h1 h2
  refine ⟨?_, h2, ?_⟩
  · rw [h1]
    simp only [List.append_assoc]
  · intro hb hr
    have hb' : ¬ 0 < o.AudioBitrate := by omega
    have hr' : ¬ 0 < o.AudioSamplerate := by omega
    rw [if_neg hb', if_neg hr'] at h1 h2
    refine ⟨["-i", inputPath, "-c:v", o.VideoCodec]
        ++ (if o.QualityMode = "crf" then ["-crf", fmtD o.QualityValue]
            else if o.QualityMode = "bitrate" then ["-b:v", fmtD o.QualityValue ++ "k"]
            else [])
        ++ (if o.IsResize = true ∧ 0 < o.Width ∧ 0 < o.Height then
              ["-vf", "scale=" ++ fmtD o.Width ++ ":" ++ fmtD o.Height]
            else []),
      ["-i", inputPath, "-c:v", o.VideoCodec, "-b:v", fmtD o.QualityValue ++ "k",
        "-pass", "2", "-passlogfile", passLogFile]
        ++ (if o.IsResize = true ∧ 0 < o.Width ∧ 0 < o.Height then
              ["-vf", "scale=" ++ fmtD o.Width ++ ":" ++ fmtD o.Height]
            else []), ?_, ?_⟩
    · rw [h1]
      simp only [List.append_nil, List.append_assoc]
    · rw [h2]
      simp only [List.append_nil]

/-- Witness for C17: CRF 23 with resize and every audio field left at its zero value. -/
theorem C17_empty_audio_codec_copies_witness :
    optsH264Crf.AudioCodec = "" ∧
    (BuildFFmpegArgs optsH264Crf "in.mov").1 =
      ["-i", "in.mov", "-c:v", "h264", "-crf", "23", "-vf", "scale=1280:720", "-c:a", "copy"] :=
  ⟨by decide,
   (C17_empty_audio_codec_copies HostOS.unixLike optsH264Crf "in.mov" "/tmp/log"
      (by decide)).1.trans (by decide)⟩

/-! ## Claims about the output path -/

theorem extScan_suffix (r acc : List Char) :
    ∃ pre, r.reverse ++ acc = pre ++ filepath.extScan r acc := by
  induction r generalizing acc with
  | nil => exact ⟨acc, by simp [filepath.extScan]⟩
  | cons c rest ih =>
    unfold filepath.extScan
    by_cases h1 : c = '/'
    · exact ⟨(c :: rest).reverse ++ acc, by simp [h1]⟩
    · by_cases h2 : c = '.'
      · exact ⟨rest.reverse, by simp [h1, h2]⟩
      · obtain ⟨pre, hp⟩ := ih (c :: acc)
        exact ⟨pre, by simp [h1, h2, ← hp]⟩

theorem Ext_suffix (p : String) : (filepath.Ext p).data <:+ p.data := by
  obtain ⟨pre, hp⟩ := extScan_suffix p.data.reverse []
  refine ⟨pre, ?_⟩
  simp only [List.reverse_reverse, List.append_nil] at hp
  rw [hp]
  rfl

theorem TrimSuffix_append (s suffix : String) (h : suffix.data <:+ s.data) :
    strings.TrimSuffix s suffix ++ suffix = s := by
  unfold strings.TrimSuffix
  rw [if_pos (List.isSuffixOf_iff_suffix.2 h)]
  obtain ⟨pre, hp⟩ := h
  apply String.ext
  rw [String.data_append, ← hp]
  simp

theorem getOutputPath_derived (o : EncodingOptions) (inputPath : String)
    (h : o.OutputPath = "") :
    getOutputPath o inputPath =
      filepath.Join (filepath.Dir inputPath)
        (o.Prefix
          ++ strings.TrimSuffix (filepath.Base inputPath)
              (filepath.Ext (filepath.Base inputPath))
          ++ o.Postfix ++ "." ++ o.VideoFormat) := by
  unfold getOutputPath
  simp only [h, bne_self_eq_false, Bool.false_eq_true, if_false]
  by_cases h1 : o.Prefix = "" <;> by_cases h2 : o.Postfix = "" <;> simp [h1, h2]

/-- C12: on a host whose path separator is the slash, `getOutputPath` returns a non-empty
`OutputPath` unchanged; with an empty `OutputPath` it returns the join of the directory of
the input with prefix, stem, postfix, a dot and the video format, where the stem followed
by the last extension of the base name is the base name; for `/a/b/clip.mov`, prefix `x_`,
postfix `_y` and format `mp4` the result is `/a/b/x_clip_y.mp4`. -/
theorem C12_output_path_derivation (o : EncodingOptions) (inputPath : String) :
    (o.OutputPath ≠ "" → getOutputPath o inputPath = o.OutputPath) ∧
    (o.OutputPath = "" →
      getOutputPath o inputPath =
        filepath.Join (filepath.Dir inputPath)
          (o.Prefix
            ++ strings.TrimSuffix (filepath.Base inputPath)
                (filepath.Ext (filepath.Base inputPath))
            ++ o.Postfix ++ "." ++ o.VideoFormat)) ∧
    strings.TrimSuffix (filepath.Base inputPath) (filepath.Ext (filepath.Base inputPath))
        ++ filepath.Ext (filepath.Base inputPath) = filepath.Base inputPath ∧
    getOutputPath optsNaming "/a/b/clip.mov" = "/a/b/x_clip_y.mp4" := by
  refine ⟨fun h => ?_, getOutputPath_derived o inputPath,
    TrimSuffix_append _ _ (Ext_suffix _), by decide⟩
  unfold getOutputPath
  simp [h]

/-- Witness for C12: an explicit output path wins, and the example path is derived from
directory `/a/b`, stem `clip` and extension `.mov`. -/
theorem C12_output_path_derivation_witness :
    getOutputPath optsExplicitOut "/a/b/clip.mov" = "/out/final.mp4" ∧
    getOutputPath optsNaming "/a/b/clip.mov" =
      filepath.Join "/a/b" ("x_" ++ "clip" ++ "_y" ++ "." ++ "mp4") :=
  ⟨(C12_output_path_derivation optsExplicitOut "/a/b/clip.mov").1 (by decide),
   ((C12_output_path_derivation optsNaming "/a/b/clip.mov").2.1 (by decide)).trans
    (by decide)⟩

/-! ## Claims about the tokenizer -/

theorem IndexAnyFrom_none (chars data : List Nat) (i : Nat) :
    IndexAnyFrom chars data i = none ↔ ∀ b ∈ data, b ∉ chars := by
  induction data generalizing i with
  | nil => simp [IndexAnyFrom]
  | cons b rest ih =>
    rw [IndexAnyFrom]
    by_cases hb : b ∈ chars
    · simp [hb]
    · simp [hb, ih]

theorem IndexAnyFrom_first (pre post : List Nat) (d : Nat) (chars : List Nat) (i : Nat)
    (hd : d ∈ chars) (hpre : ∀ b ∈ pre, b ∉ chars) :
    IndexAnyFrom chars (pre ++ d :: post) i = some (i + pre.length) := by
  induction pre generalizing i with
  | nil => simp [IndexAnyFrom, hd]
  | cons b rest ih =>
    have hb : b ∉ chars := hpre b (by simp)
    have ih' := ih (i + 1) (fun x hx => hpre x (by simp [hx]))
    rw [List.cons_append, IndexAnyFrom, if_neg hb, ih', List.length_cons]
    congr 1
    omega

theorem IndexAny_none {data chars : List Nat} :
    IndexAny data chars = none ↔ ∀ b ∈ data, b ∉ chars :=
  IndexAnyFrom_none chars data 0

theorem IndexAny_first (pre post : List Nat) (d : Nat) (chars : List Nat) (hd : d ∈ chars)
    (hpre : ∀ b ∈ pre, b ∉ chars) : IndexAny (pre ++ d :: post) chars = some pre.length := by
  unfold IndexAny
  rw [IndexAnyFrom_first pre post d chars 0 hd hpre, Nat.zero_add]

theorem mem_lineEnds (b : Nat) : b ∈ bytesOf "\r\n" ↔ (b = 13 ∨ b = 10) := by
  have h : bytesOf "\r\n" = [13, 10] := by decide
  rw [h]
  simp

/-- The three cases of `scanSplit` on a buffer cut at its first line end. -/
theorem scanSplit_of_lineEnd (pre post : List Nat) (d : Nat) (atEOF : Bool)
    (hd : d = 13 ∨ d = 10) (hpre : ∀ b ∈ pre, b ≠ 13 ∧ b ≠ 10) :
    scanSplit (pre ++ d :: post) atEOF =
      { advance := pre.length + 1, token := some pre, err := none } := by
  have hidx : IndexAny (pre ++ d :: post) (bytesOf "\r\n") = some pre.length :=
    IndexAny_first pre post d _ ((mem_lineEnds d).2 hd) (fun b hb hm => by
      have := hpre b hb
      rcases (mem_lineEnds b).1 hm with h | h <;> omega)
  unfold scanSplit
  have hne : ¬ ((atEOF && (pre ++ d :: post).length == 0) = true) := by simp
  rw [if_neg hne, hidx]
  simp

theorem scanSplit_of_no_lineEnd (data : List Nat) (atEOF : Bool)
    (hdata : ∀ b ∈ data, b ≠ 13 ∧ b ≠ 10) :
    scanSplit data atEOF =
      if atEOF = true ∧ data ≠ [] then
        { advance := data.length, token := some data, err := none }
      else { advance := 0, token := none, err := none } := by
  have hidx : IndexAny data (bytesOf "\r\n") = none := by
    rw [IndexAny_none]
    intro b hb hm
    have := hdata b hb
    rcases (mem_lineEnds b).1 hm with h | h <;> omega
  unfold scanSplit
  rw [hidx]
  cases atEOF <;> cases data <;> simp

theorem split_at_index (data : List Nat) (i d : Nat) (h : data[i]? = some d) :
    data = data.take i ++ d :: data.drop (i + 1) ∧ (data.take i).length = i := by
  induction data generalizing i with
  | nil => simp at h
  | cons b rest ih =>
    cases i with
    | zero =>
      simp at h
      simp [h]
    | succ k =>
      simp at h
      obtain ⟨h1, h2⟩ := ih k h
      refine ⟨?_, by simp [h2]⟩
      simp only [List.take_succ_cons, List.drop_succ_cons, List.cons_append]
      rw [← h1]

theorem mem_take_getElem? (data : List Nat) (i b : Nat) (hb : b ∈ data.take i) :
    ∃ j, j < i ∧ data[j]? = some b := by
  induction data generalizing i with
  | nil => simp at hb
  | cons x rest ih =>
    cases i with
    | zero => simp at hb
    | succ k =>
      rw [List.take_succ_cons] at hb
      rcases List.mem_cons.1 hb with hx | hx
      · exact ⟨0, by omega, by simp [hx]⟩
      · obtain ⟨j, hj, hjb⟩ := ih k hx
        exact ⟨j + 1, by omega, by simpa using hjb⟩

/-- C13: the split function of `ReadProgress`. If the byte at index `i` is the first carriage
return or line feed of `data`, it advances by `i + 1` and the token is `data[0:i]`; with no
such byte it asks for more data (advance 0, no token) when not at the end, returns all of a
non-empty `data` as the token at the end, and returns no token for empty data at the end. -/
theorem C13_split_function_rule (data : List Nat) (atEOF : Bool) :
    (∀ i, (data[i]? = some 13 ∨ data[i]? = some 10) →
      (∀ j, j < i → data[j]? ≠ some 13 ∧ data[j]? ≠ some 10) →
      scanSplit data atEOF =
        { advance := i + 1, token := some (data.take i), err := none }) ∧
    ((∀ b ∈ data, b ≠ 13 ∧ b ≠ 10) → atEOF = false →
      scanSplit data atEOF = { advance := 0, token := none, err := none }) ∧
    ((∀ b ∈ data, b ≠ 13 ∧ b ≠ 10) → atEOF = true → data ≠ [] →
      scanSplit data atEOF = { advance := data.length, token := some data, err := none }) ∧
    (data = [] → atEOF = true →
      scanSplit data atEOF = { advance := 0, token := none, err := none }) := by
  refine ⟨?_, ?_, ?_, ?_⟩
  · intro i hi hfirst
    have hd : ∃ d, data[i]? = some d ∧ (d = 13 ∨ d = 10) := by
      rcases hi with h | h
      · exact ⟨13, h, Or.inl rfl⟩
      · exact ⟨10, h, Or.inr rfl⟩
    obtain ⟨d, hdi, hd⟩ := hd
    obtain ⟨hsplit, hlen⟩ := split_at_index data i d hdi
    have hpre : ∀ b ∈ data.take i, b ≠ 13 ∧ b ≠ 10 := by
      intro b hb
      obtain ⟨j, hj, hjb⟩ := mem_take_getElem? data i b hb
      have := hfirst j hj
      rw [hjb] at this
      exact ⟨fun e => this.1 (by rw [e]), fun e => this.2 (by rw [e])⟩
    have key := scanSplit_of_lineEnd (data.take i) (data.drop (i + 1)) d atEOF hd hpre
    rw [← hsplit, hlen] at key
    exact key
  · intro hdata hEOF
    rw [scanSplit_of_no_lineEnd data atEOF hdata, hEOF]
    simp
  · intro hdata hEOF hne
    rw [scanSplit_of_no_lineEnd data atEOF hdata, if_pos ⟨hEOF, hne⟩]
  · intro hdata hEOF
    subst hdata
    rw [scanSplit_of_no_lineEnd [] atEOF (by simp)]
    simp

/-- Witness for C13: `ab`, carriage return, `c` is cut after the carriage return; `ab` alone
waits for more bytes, and is the final token at the end of the stream. -/
theorem C13_split_function_rule_witness :
    scanSplit (bytesOf "ab\rc") false =
      { advance := 3, token := some (bytesOf "ab"), err := none } ∧
    scanSplit (bytesOf "ab") false = { advance := 0, token := none, err := none } ∧
    scanSplit (bytesOf "ab") true =
      { advance := 2, token := some (bytesOf "ab"), err := none } ∧
    scanSplit [] true = { advance := 0, token := none, err := none } :=
  ⟨(C13_split_function_rule (bytesOf "ab\rc") false).1 2 (by decide) (by decide),
   (C13_split_function_rule (bytesOf "ab") false).2.1 (by decide) rfl,
   (C13_split_function_rule (bytesOf "ab") true).2.2.1 (by decide) rfl (by decide),
   (C13_split_function_rule [] true).2.2.2 rfl rfl⟩

theorem specTokens_cons_lineEnd (b : Nat) (bs : List Nat) (hb : b = 13 ∨ b = 10) :
    specTokens (b :: bs) = [] :: specTokens bs := by
  simp only [specTokens, if_pos hb]

theorem specTokens_cons_other (b : Nat) (bs : List Nat) (hb : ¬ (b = 13 ∨ b = 10)) :
    specTokens (b :: bs) =
      match specTokens bs with
      | [] => [[b]]
      | t :: ts => (b :: t) :: ts := by
  simp only [specTokens, if_neg hb]

theorem specTokens_cut (pre post : List Nat) (d : Nat) (hd : d = 13 ∨ d = 10)
    (hpre : ∀ b ∈ pre, b ≠ 13 ∧ b ≠ 10) :
    specTokens (pre ++ d :: post) = pre :: specTokens post := by
  induction pre with
  | nil => exact specTokens_cons_lineEnd d post hd
  | cons b rest ih =>
    have hb : ¬ (b = 13 ∨ b = 10) := by
      have := hpre b (by simp)
      omega
    have ih' := ih (fun x hx => hpre x (by simp [hx]))
    rw [List.cons_append, specTokens_cons_other b _ hb, ih']

theorem specTokens_no_lineEnd (data : List Nat) (hdata : ∀ b ∈ data, b ≠ 13 ∧ b ≠ 10)
    (hne : data ≠ []) : specTokens data = [data] := by
  induction data with
  | nil => exact absurd rfl hne
  | cons b rest ih =>
    have hb : ¬ (b = 13 ∨ b = 10) := by
      have := hdata b (by simp)
      omega
    rw [specTokens_cons_other b rest hb]
    cases rest with
    | nil => rfl
    | cons c rest' =>
      rw [ih (fun x hx => hdata x (by simp [hx])) (by simp)]

/-- Either a buffer has a first line end, or it has none. -/
theorem lineEnd_cases (data : List Nat) :
    (∀ b ∈ data, b ≠ 13 ∧ b ≠ 10) ∨
    ∃ pre d post, data = pre ++ d :: post ∧ (d = 13 ∨ d = 10) ∧ ∀ b ∈ pre, b ≠ 13 ∧ b ≠ 10 := by
  induction data with
  | nil => exact Or.inl (by simp)
  | cons b rest ih =>
    by_cases hb : b = 13 ∨ b = 10
    · exact Or.inr ⟨[], b, rest, rfl, hb, by simp⟩
    · rcases ih with h | ⟨pre, d, post, he, hd, hpre⟩
      · left
        intro x hx
        rcases List.mem_cons.1 hx with hx | hx
        · subst hx; omega
        · exact h x hx
      · right
        refine ⟨b :: pre, d, post, by rw [he]; rfl, hd, ?_⟩
        intro x hx
        rcases List.mem_cons.1 hx with hx | hx
        · subst hx; omega
        · exact hpre x hx

theorem scanBuffered_lineEnd (atEOF : Bool) (n : Nat) (pre post : List Nat) (d : Nat)
    (hd : d = 13 ∨ d = 10) (hpre : ∀ b ∈ pre, b ≠ 13 ∧ b ≠ 10) :
    scanBuffered atEOF (n + 1) (pre ++ d :: post) =
      (pre :: (scanBuffered atEOF n post).1, (scanBuffered atEOF n post).2) := by
  have hdrop : (pre ++ d :: post).drop (pre.length + 1) = post := by
    rw [show pre ++ d :: post = (pre ++ [d]) ++ post by simp]
    exact List.drop_left' (by simp)
  have hne : pre ++ d :: post ≠ [] := by simp
  rw [scanBuffered, if_pos (Or.inl hne), scanSplit_of_lineEnd pre post d atEOF hd hpre]
  simp only [hdrop]

theorem scanBuffered_waits (n : Nat) (data : List Nat)
    (hdata : ∀ b ∈ data, b ≠ 13 ∧ b ≠ 10) : scanBuffered false n data = ([], data) := by
  cases n with
  | zero => rfl
  | succ m =>
    rw [scanBuffered]
    by_cases h : data ≠ [] ∨ false = true
    · rw [if_pos h, scanSplit_of_no_lineEnd data false hdata]
      simp
    · rw [if_neg h]

theorem scanBuffered_empty (atEOF : Bool) (n : Nat) : scanBuffered atEOF n [] = ([], []) := by
  cases n with
  | zero => rfl
  | succ m =>
    rw [scanBuffered]
    by_cases h : ([] : List Nat) ≠ [] ∨ atEOF = true
    · rw [if_pos h, scanSplit_of_no_lineEnd [] atEOF (by simp)]
      simp
    · rw [if_neg h]

theorem scanBuffered_final (n : Nat) (data : List Nat)
    (hdata : ∀ b ∈ data, b ≠ 13 ∧ b ≠ 10) (hne : data ≠ []) :
    scanBuffered true (n + 1) data = ([data], []) := by
  rw [scanBuffered, if_pos (Or.inl hne), scanSplit_of_no_lineEnd data true hdata,
    if_pos ⟨rfl, hne⟩]
  simp only [List.drop_length, scanBuffered_empty]

/-- While more data may come, the scanner hands out the complete lines of its buffer and
keeps the rest. -/
theorem scanBuffered_false (fuel : Nat) (data : List Nat) (hf : data.length < fuel)
    (rest : List Nat) :
    specTokens (data ++ rest) =
      (scanBuffered false fuel data).1 ++ specTokens ((scanBuffered false fuel data).2 ++ rest) := by
  induction fuel generalizing data with
  | zero => omega
  | succ n ih =>
    rcases lineEnd_cases data with h | ⟨pre, d, post, he, hd, hpre⟩
    · rw [scanBuffered_waits _ data h]
      rfl
    · subst he
      have hlen : post.length < n := by
        simp only [List.length_append, List.length_cons] at hf
        omega
      rw [scanBuffered_lineEnd false n pre post d hd hpre, List.append_assoc, List.cons_append,
        specTokens_cut pre (post ++ rest) d hd hpre, ih post hlen]
      rfl

/-- At the end of the stream the scanner hands out every line of its buffer. -/
theorem scanBuffered_true (fuel : Nat) (data : List Nat) (hf : data.length < fuel) :
    (scanBuffered true fuel data).1 = specTokens data := by
  induction fuel generalizing data with
  | zero => omega
  | succ n ih =>
    rcases lineEnd_cases data with h | ⟨pre, d, post, he, hd, hpre⟩
    · by_cases hne : data = []
      · subst hne
        rw [scanBuffered_empty]
        rfl
      · rw [scanBuffered_final n data h hne, specTokens_no_lineEnd data h hne]
    · subst he
      have hlen : post.length < n := by
        simp only [List.length_append, List.length_cons] at hf
        omega
      rw [scanBuffered_lineEnd true n pre post d hd hpre, specTokens_cut pre post d hd hpre,
        ih post hlen]

theorem specTokens_flatten (data : List Nat) :
    (specTokens data).flatten = data.filter (fun b => b != 13 && b != 10) := by
  induction data with
  | nil => rfl
  | cons b rest ih =>
    by_cases hb : b = 13 ∨ b = 10
    · rw [specTokens_cons_lineEnd b rest hb]
      have hf : (b != 13 && b != 10) = false := by
        rcases hb with h | h <;> simp [h]
      simp [List.filter_cons, hf, ih]
    · rw [specTokens_cons_other b rest hb]
      have hf : (b != 13 && b != 10) = true := by
        simp only [not_or] at hb
        simp [hb.1, hb.2]
      rw [List.filter_cons, if_pos hf, ← ih]
      cases specTokens rest with
      | nil => rfl
      | cons t ts => rfl

theorem scanBuffered_false_props (fuel : Nat) (data : List Nat) (hf : data.length < fuel) :
    (∀ t ∈ (scanBuffered false fuel data).1, t.length < data.length) ∧
    (∀ b ∈ (scanBuffered false fuel data).2, b ≠ 13 ∧ b ≠ 10) ∧
    (scanBuffered false fuel data).2.length ≤ data.length := by
  induction fuel generalizing data with
  | zero => omega
  | succ n ih =>
    rcases lineEnd_cases data with h | ⟨pre, d, post, he, hd, hpre⟩
    · rw [scanBuffered_waits _ data h]
      exact ⟨fun t ht => absurd ht (List.not_mem_nil t), h, Nat.le_refl _⟩
    · subst he
      have hlen : post.length < n := by
        simp only [List.length_append, List.length_cons] at hf
        omega
      obtain ⟨h1, h2, h3⟩ := ih post hlen
      rw [scanBuffered_lineEnd false n pre post d hd hpre]
      simp only [List.length_append, List.length_cons]
      refine ⟨?_, h2, by omega⟩
      intro t ht
      rcases List.mem_cons.1 ht with ht | ht
      · rw [ht]; omega
      · have := h1 t ht
        omega

/-- The first token of a stream that begins with bytes without a line end holds them all. -/
theorem specTokens_head_long (buf rest : List Nat) (hbuf : ∀ b ∈ buf, b ≠ 13 ∧ b ≠ 10)
    (hne : buf ≠ []) :
    ∃ t ts, specTokens (buf ++ rest) = t :: ts ∧ buf.length ≤ t.length := by
  induction buf with
  | nil => exact absurd rfl hne
  | cons b bs ih =>
    have hb : ¬ (b = 13 ∨ b = 10) := by
      have := hbuf b (by simp)
      omega
    rw [List.cons_append, specTokens_cons_other b _ hb]
    by_cases hbs : bs = []
    · subst hbs
      cases specTokens ([] ++ rest) with
      | nil => exact ⟨[b], [], rfl, by simp⟩
      | cons t ts => exact ⟨b :: t, ts, rfl, by simp⟩
    · obtain ⟨t, ts, ht, hlen⟩ := ih (fun x hx => hbuf x (by simp [hx])) hbs
      rw [ht]
      exact ⟨b :: t, ts, rfl, by simp only [List.length_cons]; omega⟩

/-- A stream that begins with `MaxScanTokenSize` bytes without a line end has no token below
the limit. -/
theorem specTokensBelowLimit_of_long (buf rest : List Nat)
    (hbuf : ∀ b ∈ buf, b ≠ 13 ∧ b ≠ 10) (hlong : MaxScanTokenSize ≤ buf.length) :
    specTokensBelowLimit (buf ++ rest) = [] := by
  have hne : buf ≠ [] := by
    intro h
    rw [h] at hlong
    exact absurd hlong (by decide)
  obtain ⟨t, ts, ht, hlen⟩ := specTokens_head_long buf rest hbuf hne
  unfold specTokensBelowLimit
  rw [ht, List.takeWhile_cons]
  have : ¬ t.length < MaxScanTokenSize := by omega
  simp [this]

theorem takeWhile_append_of_all {α : Type} (p : α → Bool) (a b : List α)
    (h : ∀ x ∈ a, p x = true) : (a ++ b).takeWhile p = a ++ b.takeWhile p := by
  induction a with
  | nil => rfl
  | cons x rest ih =>
    rw [List.cons_append, List.takeWhile_cons, h x (by simp)]
    simp only [if_true]
    rw [ih (fun y hy => h y (by simp [hy]))]
    rfl

theorem takeWhile_of_all {α : Type} (p : α → Bool) (a : List α)
    (h : ∀ x ∈ a, p x = true) : a.takeWhile p = a := by
  have := takeWhile_append_of_all p a [] h
  simpa using this

theorem makeRoom_none (s : Scanner) (h : makeRoom s = none) :
    MaxScanTokenSize ≤ s.buf.length := by
  unfold makeRoom at h
  simp only [] at h
  split_ifs at h
  all_goals omega

theorem makeRoom_some (s s1 : Scanner) (hok : s.ok) (h : makeRoom s = some s1) :
    s1.buf = s.buf ∧ s1.start + s1.buf.length < s1.cap ∧ s1.cap ≤ MaxScanTokenSize ∧
    s.buf.length < MaxScanTokenSize := by
  obtain ⟨hin, hcap⟩ := hok
  have hmax : MaxScanTokenSize = 65536 := rfl
  have hstart : startBufSize = 4096 := rfl
  unfold makeRoom at h
  simp only [] at h
  split_ifs at h
  all_goals
    rw [← Option.some.inj h]
    refine ⟨rfl, ?_, ?_, ?_⟩ <;> dsimp only <;> omega

/-- One `Read` of the scanner and what follows it, in terms of the whole stream. -/
theorem scanChunk_spec (fuel : Nat) (chunk : List Nat) (s : Scanner)
    (hf : chunk.length < fuel) (hok : s.ok) (hbuf : ∀ b ∈ s.buf, b ≠ 13 ∧ b ≠ 10) :
    (∀ tokens s1, scanChunk fuel chunk s = (tokens, some s1) →
      s1.ok ∧ (∀ b ∈ s1.buf, b ≠ 13 ∧ b ≠ 10) ∧
      ∀ rest, specTokensBelowLimit (s.buf ++ chunk ++ rest) =
        tokens ++ specTokensBelowLimit (s1.buf ++ rest)) ∧
    (∀ tokens, scanChunk fuel chunk s = (tokens, none) →
      ∀ rest, specTokensBelowLimit (s.buf ++ chunk ++ rest) = tokens) := by
  induction fuel generalizing chunk s with
  | zero => omega
  | succ k ih =>
    rw [scanChunk]
    by_cases hc : chunk = []
    · subst hc
      rw [if_pos rfl]
      refine ⟨?_, ?_⟩
      · intro tokens s1 h
        have h1 := (Prod.mk.inj h).1
        have h2 := Option.some.inj (Prod.mk.inj h).2
        subst h1
        subst h2
        exact ⟨hok, hbuf, fun rest => by simp⟩
      · intro tokens h
        exact absurd (Prod.mk.inj h).2 (by simp)
    · rw [if_neg hc]
      cases hm : makeRoom s with
      | none =>
        simp only []
        refine ⟨?_, ?_⟩
        · intro tokens s1 h
          exact absurd (Prod.mk.inj h).2 (by simp)
        · intro tokens h
          have h1 := (Prod.mk.inj h).1
          subst h1
          intro rest
          rw [List.append_assoc]
          exact specTokensBelowLimit_of_long s.buf (chunk ++ rest) hbuf (makeRoom_none s hm)
      | some s1 =>
        simp only []
        obtain ⟨hb1, hspace, hcap1, hlt⟩ := makeRoom_some s s1 hok hm
        have hclen : 0 < chunk.length := List.length_pos.2 hc
        have hprops := scanBuffered_false_props
          ((s1.buf ++ chunk.take (min chunk.length (s1.cap - (s1.start + s1.buf.length)))).length
            + 1)
          (s1.buf ++ chunk.take (min chunk.length (s1.cap - (s1.start + s1.buf.length))))
          (by omega)
        have hspec := scanBuffered_false
          ((s1.buf ++ chunk.take (min chunk.length (s1.cap - (s1.start + s1.buf.length)))).length
            + 1)
          (s1.buf ++ chunk.take (min chunk.length (s1.cap - (s1.start + s1.buf.length))))
          (by omega)
        generalize hn : min chunk.length (s1.cap - (s1.start + s1.buf.length)) = n
          at hprops hspec ⊢
        have hn1 : 1 ≤ n := by
          rw [← hn]
          omega
        have hn2 : n ≤ chunk.length := by
          rw [← hn]
          omega
        have hn3 : s1.start + s1.buf.length + n ≤ s1.cap := by
          rw [← hn]
          omega
        have hdlen : (s1.buf ++ chunk.take n).length = s1.buf.length + n := by
          rw [List.length_append, List.length_take, Nat.min_eq_left hn2]
        generalize hr : scanBuffered false ((s1.buf ++ chunk.take n).length + 1)
          (s1.buf ++ chunk.take n) = r at hprops hspec ⊢
        obtain ⟨ht, hnd, hrl⟩ := hprops
        have hok2 : Scanner.ok
            { buf := r.2, start := s1.start + ((s1.buf ++ chunk.take n).length - r.2.length),
              cap := s1.cap } := by
          refine ⟨?_, hcap1⟩
          simp only []
          omega
        have hdrop : (chunk.drop n).length < k := by
          rw [List.length_drop]
          omega
        obtain ⟨ih1, ih2⟩ := ih (chunk.drop n)
          { buf := r.2, start := s1.start + ((s1.buf ++ chunk.take n).length - r.2.length),
            cap := s1.cap } hdrop hok2 hnd
        have hshort : ∀ t ∈ r.1, decide (t.length < MaxScanTokenSize) = true := by
          intro t htm
          have := ht t htm
          simp only [decide_eq_true_eq]
          omega
        have hstream : ∀ rest, specTokensBelowLimit (s.buf ++ chunk ++ rest) =
            r.1 ++ specTokensBelowLimit (r.2 ++ (chunk.drop n ++ rest)) := by
          intro rest
          have hcut : s.buf ++ chunk ++ rest =
              (s1.buf ++ chunk.take n) ++ (chunk.drop n ++ rest) := by
            rw [hb1]
            conv_lhs => rw [← List.take_append_drop n chunk]
            simp only [List.append_assoc]
          unfold specTokensBelowLimit
          rw [hcut, hspec (chunk.drop n ++ rest)]
          exact takeWhile_append_of_all _ _ _ hshort
        refine ⟨?_, ?_⟩
        · intro tokens s2 h
          have h1 := (Prod.mk.inj h).1
          have h2 := (Prod.mk.inj h).2
          obtain ⟨a1, a2, a3⟩ := ih1 _ s2 (Prod.ext rfl h2)
          refine ⟨a1, a2, ?_⟩
          intro rest
          have a4 : specTokensBelowLimit (r.2 ++ List.drop n chunk ++ rest) = _ := a3 rest
          rw [hstream rest, ← List.append_assoc r.2, a4, ← List.append_assoc]
          exact congrArg (fun l => l ++ specTokensBelowLimit (s2.buf ++ rest)) h1
        · intro tokens h
          have h1 := (Prod.mk.inj h).1
          have h2 := (Prod.mk.inj h).2
          have a3 := ih2 _ (Prod.ext rfl h2)
          intro rest
          have a4 : specTokensBelowLimit (r.2 ++ List.drop n chunk ++ rest) = _ := a3 rest
          rw [hstream rest, ← List.append_assoc r.2, a4]
          exact h1

/-- The tokens of the scanner are the tokens of the whole stream up to the first one that
reaches the size limit, however the stream is cut into reads. -/
theorem scanTokens_eq_specTokensBelowLimit (reads : List (List Nat)) (s : Scanner)
    (hok : s.ok) (hbuf : ∀ b ∈ s.buf, b ≠ 13 ∧ b ≠ 10) :
    scanTokens reads s = specTokensBelowLimit (s.buf ++ reads.flatten) := by
  induction reads generalizing s with
  | nil =>
    rw [scanTokens]
    cases hm : makeRoom s with
    | none =>
      simp only []
      exact (specTokensBelowLimit_of_long s.buf _ hbuf (makeRoom_none s hm)).symm
    | some s1 =>
      simp only []
      obtain ⟨hb1, -, -, hlt⟩ := makeRoom_some s s1 hok hm
      rw [hb1, scanBuffered_true _ s.buf (by omega)]
      simp only [List.flatten_nil, List.append_nil]
      unfold specTokensBelowLimit
      symm
      apply takeWhile_of_all
      intro t ht
      by_cases hne : s.buf = []
      · rw [hne] at ht
        exact absurd ht (by simp [specTokens])
      · rw [specTokens_no_lineEnd s.buf hbuf hne] at ht
        have := List.mem_singleton.1 ht
        subst this
        simp only [decide_eq_true_eq]
        exact hlt
  | cons chunk rest ih =>
    rw [scanTokens]
    obtain ⟨h1, h2⟩ := scanChunk_spec (chunk.length + 1) chunk s (by omega) hok hbuf
    rcases hr : scanChunk (chunk.length + 1) chunk s with ⟨tokens, res⟩
    cases res with
    | none =>
      simp only []
      rw [List.flatten_cons, ← List.append_assoc]
      exact (h2 tokens hr rest.flatten).symm
    | some s1 =>
      simp only []
      obtain ⟨a1, a2, a3⟩ := h1 tokens s1 hr
      rw [ih s1 a1 a2, List.flatten_cons, ← List.append_assoc]
      exact (a3 rest.flatten).symm

theorem ok_NewScanner : NewScanner.ok := by
  unfold Scanner.ok NewScanner
  exact ⟨by simp, by decide⟩

/-- C14: the tokens the scanner of `ReadProgress` returns depend only on the concatenation
of the reads, not on where the reads are cut. When every line of the stream is shorter than
the buffer limit of the scanner, they are the stream cut at every carriage return and line
feed, with a non-empty unterminated remainder as the final token, and the tokens put
together are the stream without its carriage returns and line feeds. In general they are
these tokens up to the first one that reaches the limit. -/
theorem C14_tokens_independent_of_chunking (reads1 reads2 : List (List Nat))
    (h : reads1.flatten = reads2.flatten) :
    scanTokens reads1 NewScanner = scanTokens reads2 NewScanner ∧
    ((∀ t ∈ specTokens reads1.flatten, t.length < MaxScanTokenSize) →
      scanTokens reads1 NewScanner = specTokens reads1.flatten ∧
      (scanTokens reads1 NewScanner).flatten =
        reads1.flatten.filter (fun b => b != 13 && b != 10)) ∧
    scanTokens reads1 NewScanner = specTokensBelowLimit reads1.flatten := by
  have h1 := scanTokens_eq_specTokensBelowLimit reads1 NewScanner ok_NewScanner
    (fun b hb => absurd hb (List.not_mem_nil b))
  have h2 := scanTokens_eq_specTokensBelowLimit reads2 NewScanner ok_NewScanner
    (fun b hb => absurd hb (List.not_mem_nil b))
  have hnil : ∀ l : List Nat, NewScanner.buf ++ l = l := fun l => rfl
  rw [hnil] at h1 h2
  refine ⟨by rw [h1, h2, h], ?_, h1⟩
  intro hshort
  have hall : specTokensBelowLimit reads1.flatten = specTokens reads1.flatten :=
    takeWhile_of_all _ _ (fun t ht => by
      simp only [decide_eq_true_eq]
      exact hshort t ht)
  rw [h1, hall]
  exact ⟨rfl, specTokens_flatten _⟩

/-- Witness for C14: the two status lines delivered as two writes, or cut in the middle of
the first line, give the two tokens before the delimiters. -/
theorem C14_tokens_independent_of_chunking_witness :
    scanTokens [bytesOf "frame=  10 fps= 30\r",
        bytesOf "time=00:00:05.00 bitrate=500.0kbits/s speed=1.0x\n"] NewScanner =
      [bytesOf "frame=  10 fps= 30",
        bytesOf "time=00:00:05.00 bitrate=500.0kbits/s speed=1.0x"] ∧
    scanTokens [bytesOf "frame=  10 fps= 30\r",
        bytesOf "time=00:00:05.00 bitrate=500.0kbits/s speed=1.0x\n"] NewScanner =
      scanTokens [bytesOf "frame=  1", bytesOf "0 fps= 30\rtime=00:00:05.00 bitr",
        bytesOf "ate=500.0kbits/s speed=1.0x\n"] NewScanner ∧
    scanTokens [bytesOf "frame=  10 fps= 30\r",
        bytesOf "time=00:00:05.00 bitrate=500.0kbits/s speed=1.0x\n"] NewScanner =
      specTokens (bytesOf "frame=  10 fps= 30\r"
        ++ bytesOf "time=00:00:05.00 bitrate=500.0kbits/s speed=1.0x\n") :=
  ⟨by decide,
   (C14_tokens_independent_of_chunking
      [bytesOf "frame=  10 fps= 30\r",
        bytesOf "time=00:00:05.00 bitrate=500.0kbits/s speed=1.0x\n"]
      [bytesOf "frame=  1", bytesOf "0 fps= 30\rtime=00:00:05.00 bitr",
        bytesOf "ate=500.0kbits/s speed=1.0x\n"] (by decide)).1,
   ((C14_tokens_independent_of_chunking
      [bytesOf "frame=  10 fps= 30\r",
        bytesOf "time=00:00:05.00 bitrate=500.0kbits/s speed=1.0x\n"]
      [bytesOf "frame=  1", bytesOf "0 fps= 30\rtime=00:00:05.00 bitr",
        bytesOf "ate=500.0kbits/s speed=1.0x\n"] (by decide)).2.1 (by decide)).1⟩

/-! ## Claims about line parsing -/

/-- The snapshot `processLine` builds for a line that is not blank, field by field, and the
test that decides whether it is handed to the callback. -/
theorem processLine_of_not_blank (filename : String) (line : List Nat)
    (hb : isBlank line = false) :
    processLine filename line =
      if (match timeRegex line with
            | some whole => textOf (whole.drop 5)
            | none => "") ≠ "" ∨
          (match frameRegex line with
            | some digits => Atoi digits
            | none => 0) > 0 then
        some
          { Filename := filename,
            Frame := match frameRegex line with
              | some digits => Atoi digits
              | none => 0,
            FPS := match fpsRegex line with
              | some digits => Atoi digits
              | none => 0,
            Time := match timeRegex line with
              | some whole => textOf (whole.drop 5)
              | none => "",
            Size := match sizeRegex line with
              | some digits => Atoi digits
              | none => 0,
            Bitrate := match bitrateRegex line with
              | some (whole, frac) => ParseFloat whole frac
              | none => ⟨0, 0⟩,
            Speed := match speedRegex line with
              | some (whole, frac) => ParseFloat whole frac
              | none => ⟨0, 0⟩,
            Progress := ⟨0, 0⟩,
            Status := "processing" }
      else none := by
  unfold processLine
  rw [hb]
  generalize frameRegex line = a1
  generalize fpsRegex line = a2
  generalize timeRegex line = a3
  generalize sizeRegex line = a4
  generalize bitrateRegex line = a5
  generalize speedRegex line = a6
  rcases a1 with _ | d1 <;> rcases a2 with _ | d2 <;> rcases a3 with _ | d3 <;>
    rcases a4 with _ | d4 <;> rcases a5 with _ | ⟨w5, f5⟩ <;> rcases a6 with _ | ⟨w6, f6⟩ <;>
    rfl

theorem processLine_of_blank (filename : String) (line : List Nat)
    (hb : isBlank line = true) : processLine filename line = none := by
  unfold processLine
  rw [if_pos hb]

theorem findFirst_some {α : Type} (m : List Nat → Option α) (s : List Nat) (r : α)
    (h : findFirst m s = some r) : ∃ pre suf, s = pre ++ suf ∧ m suf = some r := by
  induction s with
  | nil => exact ⟨[], [], rfl, h⟩
  | cons b rest ih =>
    rw [findFirst] at h
    cases hm : m (b :: rest) with
    | some r' =>
      rw [hm] at h
      exact ⟨[], b :: rest, rfl, by rw [hm]; exact h⟩
    | none =>
      rw [hm] at h
      obtain ⟨pre, suf, he, hs⟩ := ih h
      exact ⟨b :: pre, suf, by rw [he]; rfl, hs⟩

theorem stripLiteral_some (lit s r : List Nat) (h : stripLiteral lit s = some r) :
    s = lit ++ r := by
  unfold stripLiteral at h
  by_cases hp : lit.isPrefixOf s = true
  · rw [if_pos hp] at h
    obtain ⟨t, ht⟩ := List.isPrefixOf_iff_prefix.1 hp
    have hr := (Option.some.inj h).symm
    rw [hr, ← ht]
    simp
  · rw [if_neg hp] at h
    exact Option.noConfusion h

theorem matchesClasses_take (cs : List (Nat → Bool)) (r : List Nat)
    (h : matchesClasses cs r = true) : (r.take cs.length).length = cs.length := by
  induction cs generalizing r with
  | nil => simp
  | cons c cs ih =>
    cases r with
    | nil => simp [matchesClasses] at h
    | cons b bs =>
      simp only [matchesClasses, Bool.and_eq_true] at h
      simp [ih bs h.2]

/-- A match of `timeRegex` is the literal `time=` followed by eleven bytes of the line. -/
theorem timeRegex_some (line whole : List Nat) (h : timeRegex line = some whole) :
    (whole.drop 5).length = 11 ∧
    ∃ pre post, line = pre ++ bytesOf "time=" ++ whole.drop 5 ++ post := by
  obtain ⟨pre, suf, he, hm⟩ := findFirst_some matchTime line whole h
  unfold matchTime at hm
  cases hs : stripLiteral (bytesOf "time=") suf with
  | none => rw [hs] at hm; exact Option.noConfusion hm
  | some r =>
    rw [hs] at hm
    simp only [] at hm
    by_cases hc : matchesClasses timeClasses r = true
    · rw [if_pos hc] at hm
      have hw := (Option.some.inj hm).symm
      have hlen : (r.take 11).length = 11 := matchesClasses_take timeClasses r hc
      have hdrop : whole.drop 5 = r.take 11 := by
        rw [hw]
        exact List.drop_left' (by decide)
      refine ⟨by rw [hdrop, hlen], pre, r.drop 11, ?_⟩
      rw [hdrop, he, stripLiteral_some _ _ _ hs]
      simp only [List.append_assoc, List.take_append_drop]
    · rw [if_neg hc] at hm
      exact Option.noConfusion hm

theorem textOf_length (bs : List Nat) : (textOf bs).length = bs.length := by
  simp [textOf, String.length]

theorem textOf_ne_empty (bs : List Nat) (h : bs.length = 11) : textOf bs ≠ "" := by
  intro he
  have := textOf_length bs
  rw [he, h] at this
  exact absurd this (by decide)

/-- C15, refuted as stated: the line `frame=    0 fps= 30` is not blank and yields the frame
number 0, yet no snapshot is emitted for it. -/
theorem C15_counterexample_frame_zero :
    isBlank (bytesOf "frame=    0 fps= 30") = false ∧
    frameRegex (bytesOf "frame=    0 fps= 30") = some (bytesOf "0") ∧
    timeRegex (bytesOf "frame=    0 fps= 30") = none ∧
    processLine "clip.mov" (bytesOf "frame=    0 fps= 30") = none := by
  decide

/-- C15, amended: for a line that is not blank, `ReadProgress` emits a snapshot if and only
if the line yields a time text or a frame number greater than 0; the snapshot has status
`processing` and the file name of the reader; a line yielding neither a frame number nor a
time text emits nothing. -/
theorem C15_emits_iff_time_or_positive_frame (filename : String) (line : List Nat)
    (hb : isBlank line = false) :
    ((∃ snap, processLine filename line = some snap) ↔
      ((∃ whole, timeRegex line = some whole) ∨
        ∃ digits, frameRegex line = some digits ∧ 0 < Atoi digits)) ∧
    (∀ snap, processLine filename line = some snap →
      snap.Status = "processing" ∧ snap.Filename = filename) ∧
    (timeRegex line = none → frameRegex line = none → processLine filename line = none) := by
  have hp := processLine_of_not_blank filename line hb
  refine ⟨?_, ?_, ?_⟩
  · constructor
    · rintro ⟨snap, hs⟩
      rw [hp] at hs
      split_ifs at hs with hc
      rcases hc with hc | hc
      · cases ht : timeRegex line with
        | none => rw [ht] at hc; exact absurd rfl hc
        | some whole => exact Or.inl ⟨whole, rfl⟩
      · cases hf : frameRegex line with
        | none => rw [hf] at hc; exact absurd hc (by decide)
        | some digits =>
          rw [hf] at hc
          exact Or.inr ⟨digits, rfl, hc⟩
    · intro h
      rw [hp]
      have hc : (match timeRegex line with
            | some whole => textOf (whole.drop 5)
            | none => "") ≠ "" ∨
          (match frameRegex line with
            | some digits => Atoi digits
            | none => 0) > 0 := by
        rcases h with ⟨whole, ht⟩ | ⟨digits, hf, hpos⟩
        · left
          rw [ht]
          exact textOf_ne_empty _ (timeRegex_some line whole ht).1
        · right
          rw [hf]
          exact hpos
      rw [if_pos hc]
      exact ⟨_, rfl⟩
  · intro snap hs
    rw [hp] at hs
    split_ifs at hs with hc
    have := (Option.some.inj hs).symm
    subst this
    exact ⟨rfl, rfl⟩
  · intro ht hf
    rw [hp, ht, hf]
    simp

/-- Witness for C15: a banner line emits nothing, a line with a frame number emits once. -/
theorem C15_emits_iff_time_or_positive_frame_witness :
    processLine "clip.mov" (bytesOf "ffmpeg version 6.0 Copyright (c) 2000-2023") = none ∧
    ∃ snap, processLine "clip.mov" (bytesOf "frame=  10 fps= 30") = some snap :=
  ⟨(C15_emits_iff_time_or_positive_frame "clip.mov"
      (bytesOf "ffmpeg version 6.0 Copyright (c) 2000-2023") (by decide)).2.2
      (by decide) (by decide),
   (C15_emits_iff_time_or_positive_frame "clip.mov" (bytesOf "frame=  10 fps= 30")
      (by decide)).1.2 (Or.inr ⟨bytesOf "10", by decide, by decide⟩)⟩

/-! ## The matchers against the patterns read as text -/

theorem isDigit_iff (b : Nat) : isDigit b = true ↔ digitByte b := by
  simp [isDigit, digitByte]

theorem isRegexSpace_iff (b : Nat) : isRegexSpace b = true ↔ spaceByte b := by
  simp [isRegexSpace, spaceByte, or_assoc]

theorem not_space_of_digit (b : Nat) (h : digitByte b) : isRegexSpace b = false := by
  cases hs : isRegexSpace b with
  | false => rfl
  | true =>
    have := (isRegexSpace_iff b).1 hs
    unfold spaceByte at this
    unfold digitByte at h
    omega

theorem takeWhile_dropWhile_append {α : Type} (p : α → Bool) (a b : List α)
    (ha : ∀ x ∈ a, p x = true) (hb : ∀ x, b.head? = some x → p x = false) :
    (a ++ b).takeWhile p = a ∧ (a ++ b).dropWhile p = b := by
  induction a with
  | nil =>
    cases b with
    | nil => exact ⟨rfl, rfl⟩
    | cons x xs =>
      have hx := hb x rfl
      simp [List.takeWhile_cons, List.dropWhile_cons, hx]
  | cons x rest ih =>
    obtain ⟨h1, h2⟩ := ih (fun y hy => ha y (by simp [hy]))
    have hx := ha x (by simp)
    simp [List.takeWhile_cons, List.dropWhile_cons, hx, h1, h2]

theorem head?_dropWhile_false {α : Type} (p : α → Bool) (l : List α) (x : α)
    (h : (l.dropWhile p).head? = some x) : p x = false := by
  induction l with
  | nil => simp at h
  | cons y rest ih =>
    rw [List.dropWhile_cons] at h
    cases hy : p y with
    | true =>
      rw [hy] at h
      exact ih h
    | false =>
      rw [hy] at h
      simp at h
      rw [← h]
      exact hy

theorem stripLiteral_append (lit r : List Nat) : stripLiteral lit (lit ++ r) = some r := by
  unfold stripLiteral
  have hp : lit.isPrefixOf (lit ++ r) = true :=
    List.isPrefixOf_iff_prefix.2 (List.prefix_append lit r)
  rw [if_pos hp]
  simp

/-- The matcher of an integer field accepts exactly the texts of its pattern. -/
theorem matchIntField_iff (key suffix s digits : List Nat) :
    matchIntField key suffix s = some digits ↔ IntFieldAt key suffix s digits := by
  constructor
  · intro h
    unfold matchIntField at h
    cases hs : stripLiteral key s with
    | none => rw [hs] at h; exact Option.noConfusion h
    | some r1 =>
      rw [hs] at h
      simp only [] at h
      split_ifs at h with hc
      have hd := Option.some.inj h
      refine ⟨r1.takeWhile isRegexSpace,
        (r1.dropWhile isRegexSpace).dropWhile isDigit, ?_, ?_, ?_, ?_, ?_, ?_⟩
      · rw [stripLiteral_some key s r1 hs, ← hd, List.append_assoc, List.append_assoc,
          List.takeWhile_append_dropWhile, List.takeWhile_append_dropWhile]
      · intro b hb
        exact (isRegexSpace_iff b).1 (List.mem_takeWhile_imp hb)
      · rw [← hd]; exact hc.1
      · intro b hb
        rw [← hd] at hb
        exact (isDigit_iff b).1 (List.mem_takeWhile_imp hb)
      · intro b hb hdig
        have := head?_dropWhile_false isDigit _ b hb
        rw [(isDigit_iff b).2 hdig] at this
        exact Bool.noConfusion this
      · exact List.isPrefixOf_iff_prefix.1 hc.2
  · rintro ⟨sp, rest, hs, hsp, hne, hdig, hrest, hsuf⟩
    unfold matchIntField
    rw [hs, List.append_assoc, List.append_assoc, stripLiteral_append]
    simp only []
    have hhead : ∀ x, (digits ++ rest).head? = some x → isRegexSpace x = false := by
      intro x hx
      cases digits with
      | nil => exact absurd rfl hne
      | cons d ds =>
        simp at hx
        rw [← hx]
        exact not_space_of_digit d (hdig d (by simp))
    obtain ⟨-, h2⟩ := takeWhile_dropWhile_append isRegexSpace sp (digits ++ rest)
      (fun x hx => (isRegexSpace_iff x).2 (hsp x hx)) hhead
    obtain ⟨h3, h4⟩ := takeWhile_dropWhile_append isDigit digits rest
      (fun x hx => (isDigit_iff x).2 (hdig x hx))
      (fun x hx => by
        cases hd : isDigit x with
        | false => rfl
        | true => exact absurd ((isDigit_iff x).1 hd) (hrest x hx))
    rw [h2, h3, h4, if_pos ⟨hne, List.isPrefixOf_iff_prefix.2 hsuf⟩]

/-- The matcher of a decimal field accepts exactly the texts of its pattern. -/
theorem matchDecField_iff (key suffix s : List Nat) (g : List Nat × List Nat) :
    matchDecField key suffix s = some g ↔ DecFieldAt key suffix s g := by
  constructor
  · intro h
    unfold matchDecField at h
    cases hs : stripLiteral key s with
    | none => rw [hs] at h; exact Option.noConfusion h
    | some r1 =>
      rw [hs] at h
      simp only [] at h
      cases hr : (r1.dropWhile isRegexSpace).dropWhile isDigit with
      | nil => rw [hr] at h; exact Option.noConfusion h
      | cons dot r3 =>
        rw [hr] at h
        simp only [] at h
        split_ifs at h with hc
        have hd := Option.some.inj h
        obtain ⟨hdot, hw, hf, hsuf⟩ := hc
        refine ⟨r1.takeWhile isRegexSpace, r3.dropWhile isDigit, ?_, ?_, ?_, ?_, ?_, ?_, ?_, ?_⟩
        · rw [stripLiteral_some key s r1 hs, ← hd]
          simp only []
          rw [← hdot]
          have e1 := List.takeWhile_append_dropWhile isRegexSpace r1
          have e2 := List.takeWhile_append_dropWhile isDigit (r1.dropWhile isRegexSpace)
          have e3 := List.takeWhile_append_dropWhile isDigit r3
          rw [hr] at e2
          conv_lhs => rw [← e1, ← e2, ← e3]
          simp only [List.append_assoc, List.cons_append]
        · intro b hb
          exact (isRegexSpace_iff b).1 (List.mem_takeWhile_imp hb)
        · rw [← hd]; exact hw
        · intro b hb
          rw [← hd] at hb
          exact (isDigit_iff b).1 (List.mem_takeWhile_imp hb)
        · rw [← hd]; exact hf
        · intro b hb
          rw [← hd] at hb
          exact (isDigit_iff b).1 (List.mem_takeWhile_imp hb)
        · intro b hb hdig
          have := head?_dropWhile_false isDigit _ b hb
          rw [(isDigit_iff b).2 hdig] at this
          exact Bool.noConfusion this
        · exact List.isPrefixOf_iff_prefix.1 hsuf
  · rintro ⟨sp, rest, hs, hsp, hw, hwd, hf, hfd, hrest, hsuf⟩
    unfold matchDecField
    rw [hs, List.append_assoc, List.append_assoc, List.append_assoc, stripLiteral_append]
    simp only []
    have hhead : ∀ x, (g.1 ++ (46 :: g.2 ++ rest)).head? = some x →
        isRegexSpace x = false := by
      intro x hx
      cases hg : g.1 with
      | nil => exact absurd hg hw
      | cons d ds =>
        rw [hg] at hx
        simp at hx
        rw [← hx]
        exact not_space_of_digit d (hwd d (by rw [hg]; simp))
    obtain ⟨-, h2⟩ := takeWhile_dropWhile_append isRegexSpace sp (g.1 ++ (46 :: g.2 ++ rest))
      (fun x hx => (isRegexSpace_iff x).2 (hsp x hx)) hhead
    obtain ⟨h3, h4⟩ := takeWhile_dropWhile_append isDigit g.1 (46 :: g.2 ++ rest)
      (fun x hx => (isDigit_iff x).2 (hwd x hx))
      (fun x hx => by
        simp at hx
        rw [← hx]
        decide)
    obtain ⟨h5, h6⟩ := takeWhile_dropWhile_append isDigit g.2 rest
      (fun x hx => (isDigit_iff x).2 (hfd x hx))
      (fun x hx => by
        cases hd : isDigit x with
        | false => rfl
        | true => exact absurd ((isDigit_iff x).1 hd) (hrest x hx))
    rw [h2, h3, h4]
    simp only [List.cons_append]
    rw [h5, h6, if_pos ⟨trivial, hw, hf, List.isPrefixOf_iff_prefix.2 hsuf⟩]

/-- The matcher of the time accepts exactly the texts of its pattern. -/
theorem matchTime_iff (s whole : List Nat) : matchTime s = some whole ↔ TimeAt s whole := by
  constructor
  · intro h
    unfold matchTime at h
    cases hs : stripLiteral (bytesOf "time=") s with
    | none => rw [hs] at h; exact Option.noConfusion h
    | some r =>
      rw [hs] at h
      simp only [] at h
      split_ifs at h with hc
      have hd := Option.some.inj h
      have hse := stripLiteral_some _ s r hs
      rcases r with _ | ⟨h1, _ | ⟨h2, _ | ⟨c1, _ | ⟨m1, _ | ⟨m2, _ | ⟨c2, _ | ⟨s1, _ | ⟨s2,
        _ | ⟨c3, _ | ⟨f1, _ | ⟨f2, rest⟩⟩⟩⟩⟩⟩⟩⟩⟩⟩⟩
      all_goals simp only [matchesClasses, timeClasses, Bool.and_eq_true, Bool.false_eq_true,
        false_and, and_false, beq_iff_eq, Bool.and_true] at hc
      obtain ⟨a1, a2, a3, a4, a5, a6, a7, a8, a9, a10, a11⟩ := hc
      subst a3
      subst a6
      subst a9
      refine ⟨h1, h2, m1, m2, s1, s2, f1, f2, rest, ?_, ?_, (isDigit_iff _).1 a1,
        (isDigit_iff _).1 a2, (isDigit_iff _).1 a4, (isDigit_iff _).1 a5,
        (isDigit_iff _).1 a7, (isDigit_iff _).1 a8, (isDigit_iff _).1 a10,
        (isDigit_iff _).1 a11⟩
      · rw [← hd]
        rfl
      · rw [hse, ← hd]
        simp
  · rintro ⟨h1, h2, m1, m2, s1, s2, f1, f2, rest, hw, hs, d1, d2, d3, d4, d5, d6, d7, d8⟩
    unfold matchTime
    rw [hs, hw, List.append_assoc, stripLiteral_append]
    simp only []
    have hc : matchesClasses timeClasses
        ([h1, h2, 58, m1, m2, 58, s1, s2, 46, f1, f2] ++ rest) = true := by
      simp [matchesClasses, timeClasses, (isDigit_iff _).2 d1, (isDigit_iff _).2 d2,
        (isDigit_iff _).2 d3, (isDigit_iff _).2 d4, (isDigit_iff _).2 d5,
        (isDigit_iff _).2 d6, (isDigit_iff _).2 d7, (isDigit_iff _).2 d8]
    rw [if_pos hc]
    rfl

/-- The search `findFirst` returns the leftmost match. -/
theorem findFirst_leftmost {α : Type} (m : List Nat → Option α) (At : List Nat → α → Prop)
    (hm : ∀ s v, m s = some v ↔ At s v) (line : List Nat) :
    LeftmostMatch At line (findFirst m line) := by
  induction line with
  | nil =>
    rw [findFirst]
    cases h : m [] with
    | some v =>
      refine ⟨[], [], rfl, (hm [] v).1 h, ?_⟩
      intro pre1 suf1 v1 _ hlen
      exact absurd hlen (Nat.not_lt_zero _)
    | none =>
      intro pre suf v he hat
      have hsuf : suf = [] := (List.append_eq_nil.1 he.symm).2
      rw [hsuf, ← hm, h] at hat
      exact Option.noConfusion hat
  | cons b rest ih =>
    rw [findFirst]
    cases h : m (b :: rest) with
    | some v =>
      refine ⟨[], b :: rest, rfl, (hm _ v).1 h, ?_⟩
      intro pre1 suf1 v1 _ hlen
      exact absurd hlen (Nat.not_lt_zero _)
    | none =>
      simp only []
      have hhere : ∀ v1, ¬ At (b :: rest) v1 := by
        intro v1 hat
        rw [← hm, h] at hat
        exact Option.noConfusion hat
      cases hf : findFirst m rest with
      | some v =>
        rw [hf] at ih
        obtain ⟨pre, suf, he, hat, hbefore⟩ := ih
        refine ⟨b :: pre, suf, by rw [he]; rfl, hat, ?_⟩
        intro pre1 suf1 v1 he1 hlen
        cases pre1 with
        | nil =>
          rw [List.nil_append] at he1
          rw [← he1]
          exact hhere v1
        | cons x pre2 =>
          rw [List.cons_append] at he1
          have he2 := (List.cons.inj he1).2
          exact hbefore pre2 suf1 v1 he2 (by simpa using hlen)
      | none =>
        rw [hf] at ih
        intro pre suf v he
        cases pre with
        | nil =>
          rw [List.nil_append] at he
          rw [← he]
          exact hhere v
        | cons x pre2 =>
          rw [List.cons_append] at he
          exact ih pre2 suf v (List.cons.inj he).2

theorem decimalValue_append (ds : List Nat) (d : Nat) :
    decimalValue (ds ++ [d]) = decimalValue ds * 10 + (d - 48) := by
  unfold decimalValue
  rw [List.foldl_append]
  rfl

theorem ReadProgress_eq (filename : String) (reads : List (List Nat)) :
    ReadProgress filename reads =
      (specTokensBelowLimit reads.flatten).filterMap (processLine filename) := by
  unfold ReadProgress
  rw [scanTokens_eq_specTokensBelowLimit reads NewScanner ok_NewScanner
    (fun b hb => absurd hb (List.not_mem_nil b))]
  rfl

/-- C16, refuted as stated: a stream whose first line has 65536 bytes, the buffer limit of
the scanner, and whose second line is `frame=  10 fps= 30`. The second line alone yields a
snapshot, and after a first line of one byte it is handed to the callback, but after the
long line `ReadProgress` hands over nothing: the scanner has stopped. -/
theorem C16_counterexample_line_at_buffer_limit :
    processLine "clip.mov" (bytesOf "frame=  10 fps= 30") =
      some { Filename := "clip.mov", Frame := 10, FPS := 30, Time := "", Size := 0,
             Bitrate := ⟨0, 0⟩, Speed := ⟨0, 0⟩, Progress := ⟨0, 0⟩,
             Status := "processing" } ∧
    ReadProgress "clip.mov" [bytesOf "x\rframe=  10 fps= 30\r"] =
      [{ Filename := "clip.mov", Frame := 10, FPS := 30, Time := "", Size := 0,
         Bitrate := ⟨0, 0⟩, Speed := ⟨0, 0⟩, Progress := ⟨0, 0⟩, Status := "processing" }] ∧
    ReadProgress "clip.mov"
        [List.replicate 65536 120 ++ bytesOf "\rframe=  10 fps= 30\r"] = [] := by
  refine ⟨by decide, by decide, ?_⟩
  rw [ReadProgress_eq, List.flatten_cons, List.flatten_nil, List.append_nil,
    specTokensBelowLimit_of_long (List.replicate 65536 120) _
      (fun b hb => by
        rw [List.eq_of_mem_replicate hb]
        decide)
      (by rw [List.length_replicate]; decide)]
  rfl

/-- C16, amended: the snapshots `ReadProgress` hands to the callback are the parses of the
lines of the stream, in stream order, lines without a snapshot left out, up to the first
line that has `MaxScanTokenSize` bytes or more; when every line is shorter, these are all
lines of the stream. Each snapshot is a function of its own line: every field is the value
of the group of its pattern in the line, and its zero value when the pattern does not
occur; the time is the eleven bytes that follow the literal `time=` of the match. Each of
the six matchers returns the leftmost match of its pattern, read as text, and a run of
digits is read in base ten. For the lines `frame=  10 fps= 30` and
`time=00:00:05.00 bitrate=500.0kbits/s speed=1.0x` the snapshots are frame 10, fps 30, empty
time, and time `00:00:05.00`, bitrate 500.0, speed 1.0, frame 0, fps 0; a status line with
all six fields gives all six values. -/
theorem C16_snapshots_follow_lines (filename : String) (reads : List (List Nat)) :
    ReadProgress filename reads =
      (specTokensBelowLimit reads.flatten).filterMap (processLine filename) ∧
    ((∀ t ∈ specTokens reads.flatten, t.length < MaxScanTokenSize) →
      ReadProgress filename reads =
        (specTokens reads.flatten).filterMap (processLine filename)) ∧
    (∀ line snap, processLine filename line = some snap →
      snap =
        { Filename := filename,
          Frame := match frameRegex line with
            | some digits => Atoi digits
            | none => 0,
          FPS := match fpsRegex line with
            | some digits => Atoi digits
            | none => 0,
          Time := match timeRegex line with
            | some whole => textOf (whole.drop 5)
            | none => "",
          Size := match sizeRegex line with
            | some digits => Atoi digits
            | none => 0,
          Bitrate := match bitrateRegex line with
            | some (whole, frac) => ParseFloat whole frac
            | none => ⟨0, 0⟩,
          Speed := match speedRegex line with
            | some (whole, frac) => ParseFloat whole frac
            | none => ⟨0, 0⟩,
          Progress := ⟨0, 0⟩,
          Status := "processing" } ∧
      snap.Filename = filename ∧ snap.Status = "processing" ∧
      (frameRegex line = none → snap.Frame = 0) ∧
      (fpsRegex line = none → snap.FPS = 0) ∧
      (timeRegex line = none → snap.Time = "") ∧
      (sizeRegex line = none → snap.Size = 0) ∧
      (bitrateRegex line = none → snap.Bitrate = ⟨0, 0⟩) ∧
      (speedRegex line = none → snap.Speed = ⟨0, 0⟩) ∧
      (∀ whole, timeRegex line = some whole →
        snap.Time = textOf (whole.drop 5) ∧ snap.Time.length = 11 ∧
        ∃ pre post, line = pre ++ bytesOf "time=" ++ whole.drop 5 ++ post)) ∧
    (∀ line,
      LeftmostMatch (IntFieldAt (bytesOf "frame=") []) line (frameRegex line) ∧
      LeftmostMatch (IntFieldAt (bytesOf "fps=") []) line (fpsRegex line) ∧
      LeftmostMatch TimeAt line (timeRegex line) ∧
      LeftmostMatch (IntFieldAt (bytesOf "size=") (bytesOf "kB")) line (sizeRegex line) ∧
      LeftmostMatch (DecFieldAt (bytesOf "bitrate=") (bytesOf "kbits/s")) line
        (bitrateRegex line) ∧
      LeftmostMatch (DecFieldAt (bytesOf "speed=") (bytesOf "x")) line (speedRegex line)) ∧
    (decimalValue [] = 0 ∧
      (∀ ds d, decimalValue (ds ++ [d]) = decimalValue ds * 10 + (d - 48)) ∧
      (∀ ds, Atoi ds = min (decimalValue ds : Int) (2 ^ 63 - 1)) ∧
      ∀ whole frac, ParseFloat whole frac = ⟨decimalValue (whole ++ frac), frac.length⟩) ∧
    ReadProgress "clip.mov"
        [bytesOf "frame=  10 fps= 30\r",
          bytesOf "time=00:00:05.00 bitrate=500.0kbits/s speed=1.0x\n"] =
      [{ Filename := "clip.mov", Frame := 10, FPS := 30, Time := "", Size := 0,
         Bitrate := ⟨0, 0⟩, Speed := ⟨0, 0⟩, Progress := ⟨0, 0⟩, Status := "processing" },
       { Filename := "clip.mov", Frame := 0, FPS := 0, Time := "00:00:05.00", Size := 0,
         Bitrate := ⟨5000, 1⟩, Speed := ⟨10, 1⟩, Progress := ⟨0, 0⟩,
         Status := "processing" }] ∧
    processLine "clip.mov"
        (bytesOf ("frame=  100 fps= 25 q=28.0 size=    1024kB time=00:00:04.00 "
          ++ "bitrate=2097.2kbits/s speed=1.5x")) =
      some { Filename := "clip.mov", Frame := 100, FPS := 25, Time := "00:00:04.00",
             Size := 1024, Bitrate := ⟨20972, 1⟩, Speed := ⟨15, 1⟩, Progress := ⟨0, 0⟩,
             Status := "processing" } := by
  refine ⟨ReadProgress_eq filename reads, ?_, ?_, ?_, ?_, by decide, by decide⟩
  · intro hshort
    rw [ReadProgress_eq]
    unfold specTokensBelowLimit
    rw [takeWhile_of_all _ _ (fun t ht => by
      simp only [decide_eq_true_eq]
      exact hshort t ht)]
  · intro line snap hs
    have hb : isBlank line = false := by
      cases hbl : isBlank line with
      | false => rfl
      | true =>
        rw [processLine_of_blank filename line hbl] at hs
        exact Option.noConfusion hs
    rw [processLine_of_not_blank filename line hb] at hs
    split_ifs at hs with hc
    have := (Option.some.inj hs).symm
    subst this
    refine ⟨rfl, rfl, rfl, ?_, ?_, ?_, ?_, ?_, ?_, ?_⟩
    · intro h; simp only [h]
    · intro h; simp only [h]
    · intro h; simp only [h]
    · intro h; simp only [h]
    · intro h; simp only [h]
    · intro h; simp only [h]
    · intro whole h
      obtain ⟨hlen, hpos⟩ := timeRegex_some line whole h
      refine ⟨by simp only [h], ?_, hpos⟩
      simp only [h]
      rw [textOf_length, hlen]
  · intro line
    exact ⟨findFirst_leftmost _ _ (matchIntField_iff _ _) line,
      findFirst_leftmost _ _ (matchIntField_iff _ _) line,
      findFirst_leftmost _ _ matchTime_iff line,
      findFirst_leftmost _ _ (matchIntField_iff _ _) line,
      findFirst_leftmost _ _ (matchDecField_iff _ _) line,
      findFirst_leftmost _ _ (matchDecField_iff _ _) line⟩
  · refine ⟨rfl, decimalValue_append, ?_, fun _ _ => rfl⟩
    intro ds
    unfold Atoi
    split_ifs with h
    · have : ((2 : Int) ^ 63 - 1) ≤ (decimalValue ds : Int) := by
        have h2 : (2 : Nat) ^ 63 - 1 = 9223372036854775807 := by norm_num
        rw [h2] at h
        have h3 : ((2 : Int) ^ 63 - 1) = 9223372036854775807 := by norm_num
        rw [h3]
        omega
      exact (min_eq_right this).symm
    · have : (decimalValue ds : Int) ≤ ((2 : Int) ^ 63 - 1) := by
        have h2 : (2 : Nat) ^ 63 - 1 = 9223372036854775807 := by norm_num
        rw [h2] at h
        have h3 : ((2 : Int) ^ 63 - 1) = 9223372036854775807 := by norm_num
        rw [h3]
        omega
      exact (min_eq_left this).symm

/-- Witness for C16: the snapshot of the second status line has frame 0, as the line has no
frame number, and a time of eleven characters. -/
theorem C16_snapshots_follow_lines_witness :
    processLine "clip.mov" (bytesOf "time=00:00:05.00 bitrate=500.0kbits/s speed=1.0x") =
      some { Filename := "clip.mov", Frame := 0, FPS := 0, Time := "00:00:05.00", Size := 0,
             Bitrate := ⟨5000, 1⟩, Speed := ⟨10, 1⟩, Progress := ⟨0, 0⟩,
             Status := "processing" } ∧
    ({ Filename := "clip.mov", Frame := 0, FPS := 0, Time := "00:00:05.00", Size := 0,
       Bitrate := ⟨5000, 1⟩, Speed := ⟨10, 1⟩, Progress := ⟨0, 0⟩,
       Status := "processing" } : EncodingProgress).Frame = 0 ∧
    ReadProgress "clip.mov" [bytesOf "frame=  10 fps= 30\r", bytesOf "banner\n"] =
      (specTokens (bytesOf "frame=  10 fps= 30\r" ++ bytesOf "banner\n")).filterMap
        (processLine "clip.mov") :=
  ⟨by decide,
   ((C16_snapshots_follow_lines "clip.mov" []).2.2.1
      (bytesOf "time=00:00:05.00 bitrate=500.0kbits/s speed=1.0x")
      { Filename := "clip.mov", Frame := 0, FPS := 0, Time := "00:00:05.00", Size := 0,
        Bitrate := ⟨5000, 1⟩, Speed := ⟨10, 1⟩, Progress := ⟨0, 0⟩, Status := "processing" }
      (by decide)).2.2.2.1 (by decide),
   (C16_snapshots_follow_lines "clip.mov"
      [bytesOf "frame=  10 fps= 30\r", bytesOf "banner\n"]).2.1 (by decide)⟩

/-! ## Claims about the job supervisor -/

theorem callbacksOf_append (a b : List Event) :
    callbacksOf (a ++ b) = callbacksOf a ++ callbacksOf b := by
  simp [callbacksOf, List.filterMap_append]

/-- A snapshot that `processLine` hands over has status `processing` and the file name of
the reader, and passes the test for progress data. -/
theorem processLine_snapshot (filename : String) (line : List Nat) (snap : EncodingProgress)
    (h : processLine filename line = some snap) :
    snap.Status = "processing" ∧ snap.Filename = filename ∧ hasProgressData snap = true := by
  have hb : isBlank line = false := by
    cases hbl : isBlank line with
    | false => rfl
    | true =>
      rw [processLine_of_blank filename line hbl] at h
      exact Option.noConfusion h
  rw [processLine_of_not_blank filename line hb] at h
  split_ifs at h with hc
  have := (Option.some.inj h).symm
  subst this
  refine ⟨rfl, rfl, ?_⟩
  unfold hasProgressData
  rcases hc with hc | hc
  · simp [hc]
  · simp [hc]

theorem ReadProgress_snapshot (filename : String) (reads : List (List Nat))
    (p : EncodingProgress) (hp : p ∈ ReadProgress filename reads) :
    p.Status = "processing" ∧ p.Filename = filename ∧ hasProgressData p = true := by
  unfold ReadProgress at hp
  obtain ⟨line, -, hl⟩ := List.mem_filterMap.1 hp
  exact processLine_snapshot filename line p hl

/-- A subprocess run emits no snapshot itself, starts one reader goroutine for each start of
a command, and every snapshot of such a goroutine comes from `ReadProgress`. -/
theorem runFFmpegCommand_callbacks {World : Type} (env : Env World) (w : World)
    (args : List String) (filename : String) :
    callbacksOf (runFFmpegCommand env w args filename).trace = [] ∧
    (startsOf (runFFmpegCommand env w args filename).trace).length =
      (runFFmpegCommand env w args filename).readers.length ∧
    ∀ r ∈ (runFFmpegCommand env w args filename).readers, ∀ p ∈ r,
      p.Status = "processing" ∧ p.Filename = filename ∧ hasProgressData p = true := by
  unfold runFFmpegCommand
  rcases hr : env.run w args with ⟨res, reads, w1⟩
  cases res
  all_goals
    simp only []
    refine ⟨by simp [callbacksOf], by simp [startsOf], ?_⟩
    intro r hr p hp
    first
    | exact absurd hr (List.not_mem_nil r)
    | (rw [List.mem_singleton.1 hr] at hp
       exact ReadProgress_snapshot filename _ p hp)

theorem startsOf_append (a b : List Event) : startsOf (a ++ b) = startsOf a ++ startsOf b := by
  simp [startsOf, List.filterMap_append]

theorem runSinglePassEncoding_callbacks {World : Type} (env : Env World) (w : World)
    (inputPath outputPath : String) (options : EncodingOptions) :
    callbacksOf (runSinglePassEncoding env w inputPath outputPath options).trace = [] ∧
    (startsOf (runSinglePassEncoding env w inputPath outputPath options).trace).length =
      (runSinglePassEncoding env w inputPath outputPath options).readers.length ∧
    ∀ r ∈ (runSinglePassEncoding env w inputPath outputPath options).readers, ∀ p ∈ r,
      p.Status = "processing" ∧ p.Filename = filepath.Base inputPath ∧
        hasProgressData p = true := by
  unfold runSinglePassEncoding
  rcases hb : BuildFFmpegArgs options inputPath with ⟨args, err⟩
  cases err with
  | some e =>
    simp only []
    exact ⟨rfl, rfl, fun r hr => absurd hr (List.not_mem_nil r)⟩
  | none => exact runFFmpegCommand_callbacks env w _ _

theorem runTwoPassEncoding_callbacks {World : Type} (env : Env World) (w : World)
    (inputPath outputPath : String) (options : EncodingOptions) :
    callbacksOf (runTwoPassEncoding env w inputPath outputPath options).trace = [] ∧
    (startsOf (runTwoPassEncoding env w inputPath outputPath options).trace).length =
      (runTwoPassEncoding env w inputPath outputPath options).readers.length ∧
    ∀ r ∈ (runTwoPassEncoding env w inputPath outputPath options).readers, ∀ p ∈ r,
      p.Status = "processing" ∧ p.Filename = filepath.Base inputPath ∧
        hasProgressData p = true := by
  unfold runTwoPassEncoding
  simp only []
  split
  · exact runFFmpegCommand_callbacks env w _ _
  · rename_i hr1
    split
    · obtain ⟨a1, a2, a3⟩ := runFFmpegCommand_callbacks env w
        (Build2PassArgs env.host options inputPath
          (filepath.Join (env.tempDir w) ("ffmpeg2pass_" ++ fmtD (env.unixNano w)))).1
        (filepath.Base inputPath)
      obtain ⟨b1, b2, b3⟩ := runFFmpegCommand_callbacks env
        (runFFmpegCommand env w
          (Build2PassArgs env.host options inputPath
            (filepath.Join (env.tempDir w) ("ffmpeg2pass_" ++ fmtD (env.unixNano w)))).1
          (filepath.Base inputPath)).world
        ((Build2PassArgs env.host options inputPath
          (filepath.Join (env.tempDir w) ("ffmpeg2pass_" ++ fmtD (env.unixNano w)))).2
            ++ [outputPath])
        (filepath.Base inputPath)
      refine ⟨?_, ?_, ?_⟩
      · simp only [callbacksOf_append, a1, b1, List.append_nil]
      · simp only [startsOf_append, List.length_append, a2, b2]
      · intro r hr p hp
        rcases List.mem_append.1 hr with hr | hr
        · exact a3 r hr p hp
        · exact b3 r hr p hp
    · obtain ⟨a1, a2, a3⟩ := runFFmpegCommand_callbacks env w
        (Build2PassArgs env.host options inputPath
          (filepath.Join (env.tempDir w) ("ffmpeg2pass_" ++ fmtD (env.unixNano w)))).1
        (filepath.Base inputPath)
      obtain ⟨b1, b2, b3⟩ := runFFmpegCommand_callbacks env
        (runFFmpegCommand env w
          (Build2PassArgs env.host options inputPath
            (filepath.Join (env.tempDir w) ("ffmpeg2pass_" ++ fmtD (env.unixNano w)))).1
          (filepath.Base inputPath)).world
        ((Build2PassArgs env.host options inputPath
          (filepath.Join (env.tempDir w) ("ffmpeg2pass_" ++ fmtD (env.unixNano w)))).2
            ++ [outputPath])
        (filepath.Base inputPath)
      refine ⟨?_, ?_, ?_⟩
      · simp only [callbacksOf_append, a1, b1, List.append_nil]
        rfl
      · simp only [startsOf_append, List.length_append, a2, b2]
        rfl
      · intro r hr p hp
        rcases List.mem_append.1 hr with hr | hr
        · exact a3 r hr p hp
        · exact b3 r hr p hp

/-- The phase that `encodeFile` runs after its checks emits no snapshot itself. -/
theorem phase_callbacks {World : Type} (env : Env World) (w : World)
    (inputPath outputPath : String) (options : EncodingOptions) :
    callbacksOf
        (if (options.Use2Pass && options.QualityMode == QualityModeBitrate) = true then
          runTwoPassEncoding env w inputPath outputPath options
        else runSinglePassEncoding env w inputPath outputPath options).trace = [] ∧
    (startsOf
        (if (options.Use2Pass && options.QualityMode == QualityModeBitrate) = true then
          runTwoPassEncoding env w inputPath outputPath options
        else runSinglePassEncoding env w inputPath outputPath options).trace).length =
      (if (options.Use2Pass && options.QualityMode == QualityModeBitrate) = true then
          runTwoPassEncoding env w inputPath outputPath options
        else runSinglePassEncoding env w inputPath outputPath options).readers.length ∧
    ∀ r ∈
        (if (options.Use2Pass && options.QualityMode == QualityModeBitrate) = true then
          runTwoPassEncoding env w inputPath outputPath options
        else runSinglePassEncoding env w inputPath outputPath options).readers, ∀ p ∈ r,
      p.Status = "processing" ∧ p.Filename = filepath.Base inputPath ∧
        hasProgressData p = true := by
  split_ifs
  · exact runTwoPassEncoding_callbacks env w inputPath outputPath options
  · exact runSinglePassEncoding_callbacks env w inputPath outputPath options

/-- The outcome of `encodeFile` when a precondition check fails: an error, no callback and
no reader goroutine. -/
theorem encodeFile_of_precondition_fails {World : Type} (env : Env World) (w : World)
    (inputPath : String) (options : EncodingOptions)
    (h : preconditionFails env w inputPath options) :
    (encodeFile env w inputPath options).err ≠ none ∧
    callbacksOf (encodeFile env w inputPath options).trace = [] ∧
    (encodeFile env w inputPath options).readers = [] := by
  unfold preconditionFails at h
  unfold encodeFile
  cases hs : env.stat w inputPath with
  | notExist msg => simp [callbacksOf]
  | found =>
    rcases hm : env.mkdirAll w (filepath.Dir (getOutputPath options inputPath)) with ⟨merr, w1⟩
    rw [hs, hm] at h
    cases merr with
    | some msg => simp [hm, callbacksOf]
    | none =>
      simp only [hm]
      rcases h with ⟨msg, h⟩ | ⟨msg, h⟩ | h
      · exact StatResult.noConfusion h
      · exact Option.noConfusion h
      · simp only [] at h
        rw [h]
        simp [callbacksOf]
  | failed msg0 =>
    rcases hm : env.mkdirAll w (filepath.Dir (getOutputPath options inputPath)) with ⟨merr, w1⟩
    rw [hs, hm] at h
    cases merr with
    | some msg => simp [hm, callbacksOf]
    | none =>
      simp only [hm]
      rcases h with ⟨msg, h⟩ | ⟨msg, h⟩ | h
      · exact StatResult.noConfusion h
      · exact Option.noConfusion h
      · simp only [] at h
        rw [h]
        simp [callbacksOf]

/-- The callbacks of `encodeFile` itself when every precondition check passes: the started
snapshot, and the completed snapshot exactly when there is no error. -/
theorem encodeFile_of_preconditions_pass {World : Type} (env : Env World) (w : World)
    (inputPath : String) (options : EncodingOptions)
    (h : ¬ preconditionFails env w inputPath options) :
    ((encodeFile env w inputPath options).err = none →
      callbacksOf (encodeFile env w inputPath options).trace =
        [startedSnapshot inputPath, completedSnapshot inputPath]) ∧
    ((encodeFile env w inputPath options).err ≠ none →
      callbacksOf (encodeFile env w inputPath options).trace =
        [startedSnapshot inputPath]) := by
  unfold preconditionFails at h
  simp only [not_or, not_exists] at h
  obtain ⟨h1, h2, h3⟩ := h
  rcases hm : env.mkdirAll w (filepath.Dir (getOutputPath options inputPath)) with ⟨merr, w1⟩
  rw [hm] at h2 h3
  simp only [] at h2 h3
  have hmerr : merr = none := by
    cases merr with
    | none => rfl
    | some msg => exact absurd rfl (h2 msg)
  subst hmerr
  have hphase := (phase_callbacks env w1 inputPath (getOutputPath options inputPath)
    options).1
  refine ⟨?_, ?_⟩
  all_goals
    unfold encodeFile
    cases hs : env.stat w inputPath with
    | notExist msg => exact absurd hs (h1 msg)
    | found =>
      simp only [hm]
      cases hs2 : env.stat w1 (getOutputPath options inputPath) with
      | found => exact absurd hs2 h3
      | notExist msg2 =>
        split
        · first
          | (intro herr; exact Option.noConfusion herr)
          | (intro _; simp only [callbacksOf_append, hphase]; rfl)
        · split <;>
            first
            | (intro herr; exact Option.noConfusion herr)
            | (intro herr; exact absurd rfl herr)
            | (intro _; simp only [callbacksOf_append, hphase]; rfl)
      | failed msg2 =>
        split
        · first
          | (intro herr; exact Option.noConfusion herr)
          | (intro _; simp only [callbacksOf_append, hphase]; rfl)
        · split <;>
            first
            | (intro herr; exact Option.noConfusion herr)
            | (intro herr; exact absurd rfl herr)
            | (intro _; simp only [callbacksOf_append, hphase]; rfl)
    | failed msg =>
      simp only [hm]
      cases hs2 : env.stat w1 (getOutputPath options inputPath) with
      | found => exact absurd hs2 h3
      | notExist msg2 =>
        split
        · first
          | (intro herr; exact Option.noConfusion herr)
          | (intro _; simp only [callbacksOf_append, hphase]; rfl)
        · split <;>
            first
            | (intro herr; exact Option.noConfusion herr)
            | (intro herr; exact absurd rfl herr)
            | (intro _; simp only [callbacksOf_append, hphase]; rfl)
      | failed msg2 =>
        split
        · first
          | (intro herr; exact Option.noConfusion herr)
          | (intro _; simp only [callbacksOf_append, hphase]; rfl)
        · split <;>
            first
            | (intro herr; exact Option.noConfusion herr)
            | (intro herr; exact absurd rfl herr)
            | (intro _; simp only [callbacksOf_append, hphase]; rfl)

/-- The reader goroutines of `encodeFile`: one for each start of a command, and every
snapshot of theirs comes from `ReadProgress` for the base name of the input. -/
theorem encodeFile_readers {World : Type} (env : Env World) (w : World)
    (inputPath : String) (options : EncodingOptions) :
    (startsOf (encodeFile env w inputPath options).trace).length =
      (encodeFile env w inputPath options).readers.length ∧
    ∀ r ∈ (encodeFile env w inputPath options).readers, ∀ p ∈ r,
      p.Status = "processing" ∧ p.Filename = filepath.Base inputPath ∧
        hasProgressData p = true := by
  have hphase := fun w1 =>
    phase_callbacks env w1 inputPath (getOutputPath options inputPath) options
  unfold encodeFile
  split
  · exact ⟨rfl, fun r hr => absurd hr (List.not_mem_nil r)⟩
  · simp only []
    split
    · exact ⟨rfl, fun r hr => absurd hr (List.not_mem_nil r)⟩
    · split
      · exact ⟨rfl, fun r hr => absurd hr (List.not_mem_nil r)⟩
      · split
        · refine ⟨?_, (hphase _).2.2⟩
          simp only [startsOf_append, List.length_append, (hphase _).2.1]
          simp [startsOf]
        · split
          · refine ⟨?_, (hphase _).2.2⟩
            simp only [startsOf_append, List.length_append, (hphase _).2.1]
            simp [startsOf]
          · refine ⟨?_, (hphase _).2.2⟩
            simp only [startsOf_append, List.length_append, (hphase _).2.1]
            simp [startsOf]

/-- The order in which `encodeFile` reports a failing precondition check, with the text of
the error in each case. -/
theorem encodeFile_precondition_error_cases {World : Type} (env : Env World) (w : World)
    (inputPath : String) (options : EncodingOptions) :
    (∀ msg, env.stat w inputPath = StatResult.notExist msg →
      (encodeFile env w inputPath options).err =
        some ("input file not found (" ++ inputPath ++ "): " ++ msg)) ∧
    ((∀ msg, env.stat w inputPath ≠ StatResult.notExist msg) →
      ∀ msg, (env.mkdirAll w (filepath.Dir (getOutputPath options inputPath))).1 = some msg →
      (encodeFile env w inputPath options).err =
        some ("failed to create output directory ("
          ++ filepath.Dir (getOutputPath options inputPath) ++ "): " ++ msg)) ∧
    ((∀ msg, env.stat w inputPath ≠ StatResult.notExist msg) →
      (env.mkdirAll w (filepath.Dir (getOutputPath options inputPath))).1 = none →
      env.stat (env.mkdirAll w (filepath.Dir (getOutputPath options inputPath))).2
        (getOutputPath options inputPath) = StatResult.found →
      (encodeFile env w inputPath options).err =
        some ("output file already exists: " ++ getOutputPath options inputPath)) := by
  refine ⟨?_, ?_, ?_⟩
  · intro msg hs
    unfold encodeFile
    rw [hs]
  · intro hs msg hm
    unfold encodeFile
    rcases hmk : env.mkdirAll w (filepath.Dir (getOutputPath options inputPath)) with
      ⟨merr, w1⟩
    rw [hmk] at hm
    simp only [] at hm
    subst hm
    cases hst : env.stat w inputPath with
    | notExist m => exact absurd hst (hs m)
    | found => simp [hmk]
    | failed m => simp [hmk]
  · intro hs hm hout
    unfold encodeFile
    rcases hmk : env.mkdirAll w (filepath.Dir (getOutputPath options inputPath)) with
      ⟨merr, w1⟩
    rw [hmk] at hm hout
    simp only [] at hm hout
    subst hm
    cases hst : env.stat w inputPath with
    | notExist m => exact absurd hst (hs m)
    | found => simp [hmk, hout]
    | failed m => simp [hmk, hout]

theorem StartEncoding_of_valid {World : Type} (env : Env World) (w : World)
    (paths : List String) (options : EncodingOptions)
    (hv : (Validate options).1 = none) (hl : env.lookPath w "ffmpeg" = none) :
    (StartEncoding env w paths options).err =
      (encodeFiles env w (Validate options).2 paths).err ∧
    (StartEncoding env w paths options).world =
      (encodeFiles env w (Validate options).2 paths).world ∧
    (StartEncoding env w paths options).trace =
      Event.lookPath "ffmpeg" :: (encodeFiles env w (Validate options).2 paths).trace := by
  unfold StartEncoding
  rcases hvo : Validate options with ⟨verr, validated⟩
  rw [hvo] at hv
  simp only [] at hv
  subst hv
  simp [hl]

theorem StartEncoding_of_invalid {World : Type} (env : Env World) (w : World)
    (paths : List String) (options : EncodingOptions) (e : String)
    (hv : (Validate options).1 = some e) :
    (StartEncoding env w paths options).err = some ("invalid encoding options: " ++ e) ∧
    (StartEncoding env w paths options).world = w ∧
    (StartEncoding env w paths options).trace = [] := by
  unfold StartEncoding
  rcases hvo : Validate options with ⟨verr, validated⟩
  rw [hvo] at hv
  simp only [] at hv
  subst hv
  exact ⟨rfl, rfl, rfl⟩

theorem encodeFiles_cons_ok {World : Type} (env : Env World) (w : World)
    (options : EncodingOptions) (p : String) (rest : List String)
    (hp : (encodeFile env w p options).err = none) :
    (encodeFiles env w options (p :: rest)).err =
      (encodeFiles env (encodeFile env w p options).world options rest).err ∧
    (encodeFiles env w options (p :: rest)).world =
      (encodeFiles env (encodeFile env w p options).world options rest).world ∧
    (encodeFiles env w options (p :: rest)).trace =
      (encodeFile env w p options).trace ++
        (encodeFiles env (encodeFile env w p options).world options rest).trace := by
  simp only [encodeFiles, hp]
  exact ⟨trivial, trivial, trivial⟩

/-- The loop stops at the first file whose processing returns an error. -/
theorem encodeFiles_cons_error {World : Type} (env : Env World) (w : World)
    (options : EncodingOptions) (p : String) (rest : List String) (e : String)
    (hp : (encodeFile env w p options).err = some e) :
    (encodeFiles env w options (p :: rest)).err = some e ∧
    (encodeFiles env w options (p :: rest)).world = (encodeFile env w p options).world ∧
    (encodeFiles env w options (p :: rest)).trace = (encodeFile env w p options).trace := by
  simp only [encodeFiles, hp]
  exact ⟨trivial, trivial, trivial⟩

/-- The loop over a list of files whose first part runs without error continues with the
second part in the world the first part leaves. -/
theorem encodeFiles_append {World : Type} (env : Env World) (w : World)
    (options : EncodingOptions) (a b : List String)
    (ha : (encodeFiles env w options a).err = none) :
    (encodeFiles env w options (a ++ b)).err =
      (encodeFiles env (encodeFiles env w options a).world options b).err ∧
    (encodeFiles env w options (a ++ b)).world =
      (encodeFiles env (encodeFiles env w options a).world options b).world ∧
    (encodeFiles env w options (a ++ b)).trace =
      (encodeFiles env w options a).trace ++
        (encodeFiles env (encodeFiles env w options a).world options b).trace := by
  induction a generalizing w with
  | nil => exact ⟨rfl, rfl, rfl⟩
  | cons p rest ih =>
    cases hp : (encodeFile env w p options).err with
    | some e =>
      rw [(encodeFiles_cons_error env w options p rest e hp).1] at ha
      exact Option.noConfusion ha
    | none =>
      obtain ⟨c1, c2, c3⟩ := encodeFiles_cons_ok env w options p rest hp
      obtain ⟨d1, d2, d3⟩ := encodeFiles_cons_ok env w options p (rest ++ b) hp
      rw [c1] at ha
      obtain ⟨h1, h2, h3⟩ := ih (encodeFile env w p options).world ha
      rw [List.cons_append, d1, d2, d3, c2, c3, h1, h2, h3, List.append_assoc]
      exact ⟨rfl, rfl, rfl⟩

/-- A loop that ends without error has run every file without error. -/
theorem encodeFiles_ok_each {World : Type} (env : Env World) (w : World)
    (options : EncodingOptions) (files a b : List String) (q : String)
    (hok : (encodeFiles env w options files).err = none) (hsplit : files = a ++ q :: b) :
    (encodeFiles env w options a).err = none ∧
    (encodeFile env (encodeFiles env w options a).world q options).err = none := by
  subst hsplit
  induction a generalizing w with
  | nil =>
    refine ⟨rfl, ?_⟩
    rw [List.nil_append] at hok
    cases hq : (encodeFile env w q options).err with
    | none => exact hq
    | some e =>
      rw [(encodeFiles_cons_error env w options q b e hq).1] at hok
      exact Option.noConfusion hok
  | cons p rest ih =>
    rw [List.cons_append] at hok
    cases hp : (encodeFile env w p options).err with
    | some e =>
      rw [(encodeFiles_cons_error env w options p _ e hp).1] at hok
      exact Option.noConfusion hok
    | none =>
      obtain ⟨c1, c2, c3⟩ := encodeFiles_cons_ok env w options p rest hp
      rw [(encodeFiles_cons_ok env w options p _ hp).1] at hok
      rw [c1, c2]
      exact ih (encodeFile env w p options).world hok

theorem encodeFiles_readers_cons_ok {World : Type} (env : Env World) (w : World)
    (options : EncodingOptions) (p : String) (rest : List String)
    (hp : (encodeFile env w p options).err = none) :
    (encodeFiles env w options (p :: rest)).readers =
      (encodeFile env w p options).readers ++
        (encodeFiles env (encodeFile env w p options).world options rest).readers := by
  simp only [encodeFiles, hp]

theorem encodeFiles_readers_cons_error {World : Type} (env : Env World) (w : World)
    (options : EncodingOptions) (p : String) (rest : List String) (e : String)
    (hp : (encodeFile env w p options).err = some e) :
    (encodeFiles env w options (p :: rest)).readers = (encodeFile env w p options).readers := by
  simp only [encodeFiles, hp]

/-- The reader goroutines of the loop over the files: one for each start of a command, and
every snapshot of theirs has status `processing` and progress data. -/
theorem encodeFiles_readers {World : Type} (env : Env World) (w : World)
    (options : EncodingOptions) (paths : List String) :
    (startsOf (encodeFiles env w options paths).trace).length =
      (encodeFiles env w options paths).readers.length ∧
    ∀ r ∈ (encodeFiles env w options paths).readers, ∀ p ∈ r,
      p.Status = "processing" ∧ hasProgressData p = true := by
  induction paths generalizing w with
  | nil => exact ⟨rfl, fun r hr => absurd hr (List.not_mem_nil r)⟩
  | cons q rest ih =>
    obtain ⟨f1, f2⟩ := encodeFile_readers env w q options
    cases hq : (encodeFile env w q options).err with
    | some e =>
      rw [(encodeFiles_cons_error env w options q rest e hq).2.2,
        encodeFiles_readers_cons_error env w options q rest e hq]
      exact ⟨f1, fun r hr p hp => ⟨(f2 r hr p hp).1, (f2 r hr p hp).2.2⟩⟩
    | none =>
      obtain ⟨g1, g2⟩ := ih (encodeFile env w q options).world
      rw [(encodeFiles_cons_ok env w options q rest hq).2.2,
        encodeFiles_readers_cons_ok env w options q rest hq]
      refine ⟨by rw [startsOf_append, List.length_append, List.length_append, f1, g1], ?_⟩
      intro r hr p hp
      rcases List.mem_append.1 hr with hr | hr
      · exact ⟨(f2 r hr p hp).1, (f2 r hr p hp).2.2⟩
      · exact g2 r hr p hp

theorem StartEncoding_readers_of_valid {World : Type} (env : Env World) (w : World)
    (paths : List String) (options : EncodingOptions)
    (hv : (Validate options).1 = none) (hl : env.lookPath w "ffmpeg" = none) :
    (StartEncoding env w paths options).readers =
      (encodeFiles env w (Validate options).2 paths).readers := by
  unfold StartEncoding
  rcases hvo : Validate options with ⟨verr, validated⟩
  rw [hvo] at hv
  simp only [] at hv
  subst hv
  simp [hl]

theorem callbacksOf_cons_other (e : Event) (trace : List Event)
    (hc : ∀ p, e ≠ Event.callback p) : callbacksOf (e :: trace) = callbacksOf trace := by
  cases e with
  | callback p => exact absurd rfl (hc p)
  | stat _ => rfl
  | mkdirAll _ => rfl
  | lookPath _ => rfl
  | exec _ => rfl
  | remove _ => rfl

theorem startsOf_cons_other (e : Event) (trace : List Event)
    (he : ∀ args, e ≠ Event.exec args) : startsOf (e :: trace) = startsOf trace := by
  cases e with
  | exec args => exact absurd rfl (he args)
  | stat _ => rfl
  | mkdirAll _ => rfl
  | lookPath _ => rfl
  | callback _ => rfl
  | remove _ => rfl

/-- Every snapshot the callback receives is one of the supervisor or one of a reader
goroutine. -/
theorem Observed_mem (trace : List Event) (readers pending : List (List EncodingProgress))
    (obs : List EncodingProgress) (h : Observed trace readers pending obs) :
    ∀ p ∈ obs, p ∈ callbacksOf trace ∨ (∃ r ∈ readers, p ∈ r) ∨ ∃ r ∈ pending, p ∈ r := by
  induction h with
  | stop readers pending => intro p hp; exact absurd hp (List.not_mem_nil p)
  | emit q trace readers pending obs _ ih =>
    intro p hp
    rcases List.mem_cons.1 hp with hp | hp
    · left
      rw [hp]
      simp [callbacksOf]
    · rcases ih p hp with h1 | h1 | h1
      · left
        simp only [callbacksOf, List.filterMap_cons] at h1 ⊢
        exact List.mem_cons_of_mem _ h1
      · exact Or.inr (Or.inl h1)
      · exact Or.inr (Or.inr h1)
  | start args r trace readers pending obs _ ih =>
    intro p hp
    rcases ih p hp with h1 | ⟨r1, hr1, hp1⟩ | ⟨r1, hr1, hp1⟩
    · left
      rw [callbacksOf_cons_other _ _ (fun q hq => Event.noConfusion hq)]
      exact h1
    · exact Or.inr (Or.inl ⟨r1, List.mem_cons_of_mem _ hr1, hp1⟩)
    · rcases List.mem_append.1 hr1 with hr1 | hr1
      · exact Or.inr (Or.inr ⟨r1, hr1, hp1⟩)
      · rw [List.mem_singleton.1 hr1] at hp1
        exact Or.inr (Or.inl ⟨r, List.mem_cons_self _ _, hp1⟩)
  | step e trace readers pending obs hc he _ ih =>
    intro p hp
    rw [callbacksOf_cons_other e trace hc]
    exact ih p hp
  | deliver q ps trace readers before after obs _ ih =>
    intro p hp
    rcases List.mem_cons.1 hp with hp | hp
    · right; right
      exact ⟨q :: ps, by simp, by rw [hp]; exact List.mem_cons_self _ _⟩
    · rcases ih p hp with h1 | h1 | ⟨r1, hr1, hp1⟩
      · exact Or.inl h1
      · exact Or.inr (Or.inl h1)
      · right; right
        rcases List.mem_append.1 hr1 with hr1 | hr1
        · exact ⟨r1, List.mem_append_left _ hr1, hp1⟩
        · rcases List.mem_cons.1 hr1 with hr1 | hr1
          · rw [hr1] at hp1
            exact ⟨q :: ps, by simp, List.mem_cons_of_mem _ hp1⟩
          · exact ⟨r1, List.mem_append_right _ (List.mem_cons_of_mem _ hr1), hp1⟩

/-- In every order the callback can receive them, the snapshots without progress data are
the snapshots of the supervisor, in the order it emits them. -/
theorem Observed_synthetic (trace : List Event)
    (readers pending : List (List EncodingProgress)) (obs : List EncodingProgress)
    (h : Observed trace readers pending obs)
    (hr : ∀ r ∈ readers, ∀ p ∈ r, hasProgressData p = true)
    (hp : ∀ r ∈ pending, ∀ p ∈ r, hasProgressData p = true)
    (ht : ∀ p ∈ callbacksOf trace, hasProgressData p = false) :
    obs.filter (fun p => !hasProgressData p) = callbacksOf trace := by
  induction h with
  | stop readers pending => rfl
  | emit q trace readers pending obs _ ih =>
    have hq : hasProgressData q = false := ht q (by simp [callbacksOf])
    have ht2 : ∀ p ∈ callbacksOf trace, hasProgressData p = false := by
      intro p hpm
      apply ht
      simp only [callbacksOf, List.filterMap_cons] at hpm ⊢
      exact List.mem_cons_of_mem _ hpm
    rw [List.filter_cons, hq, ih hr hp ht2]
    simp [callbacksOf]
  | start args r trace readers pending obs _ ih =>
    rw [callbacksOf_cons_other _ _ (fun q hq => Event.noConfusion hq)] at ht ⊢
    apply ih (fun r1 hr1 => hr r1 (List.mem_cons_of_mem _ hr1)) _ ht
    intro r1 hr1
    rcases List.mem_append.1 hr1 with hr1 | hr1
    · exact hp r1 hr1
    · rw [List.mem_singleton.1 hr1]
      exact hr r (List.mem_cons_self _ _)
  | step e trace readers pending obs hc he _ ih =>
    rw [callbacksOf_cons_other e trace hc] at ht ⊢
    exact ih hr hp ht
  | deliver q ps trace readers before after obs _ ih =>
    have hq : hasProgressData q = true :=
      hp (q :: ps) (by simp) q (List.mem_cons_self _ _)
    rw [List.filter_cons, hq]
    simp only [Bool.not_true, Bool.false_eq_true, if_false]
    apply ih hr _ ht
    intro r1 hr1
    rcases List.mem_append.1 hr1 with hr1 | hr1
    · exact hp r1 (List.mem_append_left _ hr1)
    · rcases List.mem_cons.1 hr1 with hr1 | hr1
      · rw [hr1]
        intro p hpm
        exact hp (q :: ps) (by simp) p (List.mem_cons_of_mem _ hpm)
      · exact hp r1 (List.mem_append_right _ (List.mem_cons_of_mem _ hr1))

/-- The callback can always receive the snapshots of the supervisor alone, when no reader
goroutine hands anything over in time. -/
theorem Observed_supervisor_alone (trace : List Event)
    (readers pending : List (List EncodingProgress))
    (h : (startsOf trace).length ≤ readers.length) :
    Observed trace readers pending (callbacksOf trace) := by
  induction trace generalizing readers pending with
  | nil => exact Observed.stop readers pending
  | cons e rest ih =>
    cases e with
    | callback p =>
      rw [startsOf_cons_other _ _ (fun a ha => Event.noConfusion ha)] at h
      exact Observed.emit p rest readers pending _ (ih readers pending h)
    | exec args =>
      cases readers with
      | nil => simp [startsOf] at h
      | cons r rs =>
        rw [callbacksOf_cons_other _ _ (fun q hq => Event.noConfusion hq)]
        refine Observed.start args r rest rs pending _ (ih rs _ ?_)
        simp only [startsOf, List.filterMap_cons, List.length_cons] at h ⊢
        omega
    | stat path =>
      rw [startsOf_cons_other _ _ (fun a ha => Event.noConfusion ha)] at h
      rw [callbacksOf_cons_other _ _ (fun q hq => Event.noConfusion hq)]
      exact Observed.step _ rest readers pending _ (fun q hq => Event.noConfusion hq)
        (fun a ha => Event.noConfusion ha) (ih readers pending h)
    | mkdirAll path =>
      rw [startsOf_cons_other _ _ (fun a ha => Event.noConfusion ha)] at h
      rw [callbacksOf_cons_other _ _ (fun q hq => Event.noConfusion hq)]
      exact Observed.step _ rest readers pending _ (fun q hq => Event.noConfusion hq)
        (fun a ha => Event.noConfusion ha) (ih readers pending h)
    | lookPath file =>
      rw [startsOf_cons_other _ _ (fun a ha => Event.noConfusion ha)] at h
      rw [callbacksOf_cons_other _ _ (fun q hq => Event.noConfusion hq)]
      exact Observed.step _ rest readers pending _ (fun q hq => Event.noConfusion hq)
        (fun a ha => Event.noConfusion ha) (ih readers pending h)
    | remove path =>
      rw [startsOf_cons_other _ _ (fun a ha => Event.noConfusion ha)] at h
      rw [callbacksOf_cons_other _ _ (fun q hq => Event.noConfusion hq)]
      exact Observed.step _ rest readers pending _ (fun q hq => Event.noConfusion hq)
        (fun a ha => Event.noConfusion ha) (ih readers pending h)

/-- C18, refuted as stated, in two respects. In the sample world the second input does not
exist: the supervisor emits the started and the completed snapshot of the first file and
nothing for the second, whose started snapshot is neither emitted nor handed over by a
reader goroutine. In the second sample world the first file is encoded to `/in/a.mp4` and
the second input lies below that file: its output directory cannot be created, and the
error that is returned names that directory, not the second input or its base name. -/
theorem C18_counterexample_no_snapshot_and_error_without_file :
    (StartEncoding demoEnv ⟨["/in/a.mov"]⟩ ["/in/a.mov", "/in/missing.mov"] optsH264Crf).err =
      some ("input file not found (/in/missing.mov): "
        ++ "stat /in/missing.mov: no such file or directory") ∧
    callbacksOf
        (StartEncoding demoEnv ⟨["/in/a.mov"]⟩ ["/in/a.mov", "/in/missing.mov"]
          optsH264Crf).trace =
      [startedSnapshot "/in/a.mov", completedSnapshot "/in/a.mov"] ∧
    (StartEncoding demoEnv ⟨["/in/a.mov"]⟩ ["/in/a.mov", "/in/missing.mov"]
        optsH264Crf).readers =
      [[{ Filename := "a.mov", Frame := 10, FPS := 30, Time := "", Size := 0,
          Bitrate := ⟨0, 0⟩, Speed := ⟨0, 0⟩, Progress := ⟨0, 0⟩, Status := "processing" }]] ∧
    (startedSnapshot "/in/missing.mov").Filename = "missing.mov" ∧
    (StartEncoding demoEnvNotDir ⟨["/in/a.mov"]⟩ ["/in/a.mov", "/in/a.mp4/b.mov"]
        optsH264Crf).err =
      some "failed to create output directory (/in/a.mp4): mkdir /in/a.mp4: not a directory" ∧
    strings.Contains
        "failed to create output directory (/in/a.mp4): mkdir /in/a.mp4: not a directory"
        "b.mov" = false ∧
    callbacksOf
        (StartEncoding demoEnvNotDir ⟨["/in/a.mov"]⟩ ["/in/a.mov", "/in/a.mp4/b.mov"]
          optsH264Crf).trace =
      [startedSnapshot "/in/a.mov", completedSnapshot "/in/a.mov"] := by
  decide

/-- C18, amended. A file that fails a precondition check (input missing, output directory
not creatable, output path exists) gets an error, no snapshot of the supervisor and no
reader goroutine, so no snapshot at all. A file that passes the checks gets the started
snapshot from the supervisor, and the completed snapshot after it exactly when it has no
error. The snapshots of its reader goroutines have status `processing`, the base name of
the file and progress data; they are handed over at moments of their own. So in every
order in which the callback can receive snapshots, a failing file gets no completed
snapshot. For two inputs where the first succeeds and the second fails a precondition
check, the supervisor emits the started and the completed snapshot of the first file and
nothing else, in every order these two are the snapshots without progress data that the
callback receives, and the returned error is the error of the second file: it names the
second input when that does not exist, else the output directory when that cannot be
created, else the output path, which exists. -/
theorem C18_synthetic_events (World : Type) (env : Env World) (w : World)
    (options : EncodingOptions) (inputPath : String) :
    (preconditionFails env w inputPath options →
      (encodeFile env w inputPath options).err ≠ none ∧
      callbacksOf (encodeFile env w inputPath options).trace = [] ∧
      (encodeFile env w inputPath options).readers = []) ∧
    (¬ preconditionFails env w inputPath options →
      ((encodeFile env w inputPath options).err = none →
        callbacksOf (encodeFile env w inputPath options).trace =
          [startedSnapshot inputPath, completedSnapshot inputPath]) ∧
      ((encodeFile env w inputPath options).err ≠ none →
        callbacksOf (encodeFile env w inputPath options).trace =
          [startedSnapshot inputPath])) ∧
    (∀ r ∈ (encodeFile env w inputPath options).readers, ∀ p ∈ r,
      p.Status = "processing" ∧ p.Filename = filepath.Base inputPath ∧
        hasProgressData p = true) ∧
    Observed (encodeFile env w inputPath options).trace
      (encodeFile env w inputPath options).readers []
      (callbacksOf (encodeFile env w inputPath options).trace) ∧
    ((encodeFile env w inputPath options).err ≠ none →
      ∀ obs, Observed (encodeFile env w inputPath options).trace
          (encodeFile env w inputPath options).readers [] obs →
        ∀ p ∈ obs, p.Status ≠ "completed") ∧
    (∀ second : String,
      (Validate options).1 = none → env.lookPath w "ffmpeg" = none →
      (encodeFile env w inputPath (Validate options).2).err = none →
      preconditionFails env (encodeFile env w inputPath (Validate options).2).world second
        (Validate options).2 →
      callbacksOf (StartEncoding env w [inputPath, second] options).trace =
        [startedSnapshot inputPath, completedSnapshot inputPath] ∧
      Observed (StartEncoding env w [inputPath, second] options).trace
        (StartEncoding env w [inputPath, second] options).readers []
        [startedSnapshot inputPath, completedSnapshot inputPath] ∧
      (∀ obs, Observed (StartEncoding env w [inputPath, second] options).trace
          (StartEncoding env w [inputPath, second] options).readers [] obs →
        obs.filter (fun p => !hasProgressData p) =
          [startedSnapshot inputPath, completedSnapshot inputPath]) ∧
      (StartEncoding env w [inputPath, second] options).err =
        (encodeFile env (encodeFile env w inputPath (Validate options).2).world second
          (Validate options).2).err ∧
      (∀ msg,
        env.stat (encodeFile env w inputPath (Validate options).2).world second =
          StatResult.notExist msg →
        (StartEncoding env w [inputPath, second] options).err =
          some ("input file not found (" ++ second ++ "): " ++ msg)) ∧
      ((∀ msg,
          env.stat (encodeFile env w inputPath (Validate options).2).world second ≠
            StatResult.notExist msg) →
        ∀ msg,
          (env.mkdirAll (encodeFile env w inputPath (Validate options).2).world
            (filepath.Dir (getOutputPath (Validate options).2 second))).1 = some msg →
          (StartEncoding env w [inputPath, second] options).err =
            some ("failed to create output directory ("
              ++ filepath.Dir (getOutputPath (Validate options).2 second) ++ "): " ++ msg)) ∧
      ((∀ msg,
          env.stat (encodeFile env w inputPath (Validate options).2).world second ≠
            StatResult.notExist msg) →
        (env.mkdirAll (encodeFile env w inputPath (Validate options).2).world
          (filepath.Dir (getOutputPath (Validate options).2 second))).1 = none →
        (StartEncoding env w [inputPath, second] options).err =
          some ("output file already exists: "
            ++ getOutputPath (Validate options).2 second))) := by
  have hreaders := encodeFile_readers env w inputPath options
  have hsynth : ∀ (o : EncodingOptions) (p : EncodingProgress),
      p ∈ callbacksOf (encodeFile env w inputPath o).trace →
      hasProgressData p = false ∧
        ((encodeFile env w inputPath o).err ≠ none → p.Status ≠ "completed") := by
    intro o p hp
    by_cases hpre : preconditionFails env w inputPath o
    · rw [(encodeFile_of_precondition_fails env w inputPath o hpre).2.1] at hp
      exact absurd hp (List.not_mem_nil p)
    · obtain ⟨hok, hfail⟩ := encodeFile_of_preconditions_pass env w inputPath o hpre
      cases herr : (encodeFile env w inputPath o).err with
      | none =>
        rw [hok herr] at hp
        refine ⟨?_, fun h => absurd rfl h⟩
        rcases List.mem_cons.1 hp with h | h
        · rw [h]; rfl
        · rw [List.mem_singleton.1 h]; rfl
      | some e =>
        have hne : (encodeFile env w inputPath o).err ≠ none := by rw [herr]; simp
        rw [hfail hne] at hp
        rw [List.mem_singleton.1 hp]
        refine ⟨rfl, fun _ => ?_⟩
        show "processing" ≠ "completed"
        decide
  refine ⟨encodeFile_of_precondition_fails env w inputPath options,
    encodeFile_of_preconditions_pass env w inputPath options, hreaders.2,
    Observed_supervisor_alone _ _ _ (Nat.le_of_eq hreaders.1), ?_, ?_⟩
  · intro herr obs hobs p hp
    rcases Observed_mem _ _ _ _ hobs p hp with h | ⟨r, hr, hpr⟩ | ⟨r, hr, _⟩
    · exact (hsynth options p h).2 herr
    · rw [(hreaders.2 r hr p hpr).1]
      decide
    · exact absurd hr (List.not_mem_nil r)
  · intro second hv hl hfirst hpre
    obtain ⟨s1, -, s3⟩ := StartEncoding_of_valid env w [inputPath, second] options hv hl
    have s4 := StartEncoding_readers_of_valid env w [inputPath, second] options hv hl
    obtain ⟨c1, -, c3⟩ :=
      encodeFiles_cons_ok env w (Validate options).2 inputPath [second] hfirst
    have c4 := encodeFiles_readers_cons_ok env w (Validate options).2 inputPath [second]
      hfirst
    obtain ⟨hne, hnil, hnor⟩ := encodeFile_of_precondition_fails env
      (encodeFile env w inputPath (Validate options).2).world second (Validate options).2 hpre
    obtain ⟨e, he⟩ := Option.ne_none_iff_exists'.1 hne
    obtain ⟨d1, -, d3⟩ := encodeFiles_cons_error env
      (encodeFile env w inputPath (Validate options).2).world (Validate options).2 second [] e he
    have d4 := encodeFiles_readers_cons_error env
      (encodeFile env w inputPath (Validate options).2).world (Validate options).2 second [] e he
    have herr : (StartEncoding env w [inputPath, second] options).err =
        (encodeFile env (encodeFile env w inputPath (Validate options).2).world second
          (Validate options).2).err := by
      rw [s1, c1, d1, he]
    have hpass : ¬ preconditionFails env w inputPath (Validate options).2 := by
      intro hp
      exact (encodeFile_of_precondition_fails env w inputPath _ hp).1 hfirst
    have hcb : callbacksOf (StartEncoding env w [inputPath, second] options).trace =
        [startedSnapshot inputPath, completedSnapshot inputPath] := by
      rw [s3, c3, d3, callbacksOf_cons_other _ _ (fun q hq => Event.noConfusion hq),
        callbacksOf_append, hnil,
        (encodeFile_of_preconditions_pass env w inputPath (Validate options).2 hpass).1 hfirst]
      rfl
    have hrd := encodeFiles_readers env w (Validate options).2 [inputPath, second]
    rw [← s4] at hrd
    have hstarts : (startsOf (StartEncoding env w [inputPath, second] options).trace).length =
        (StartEncoding env w [inputPath, second] options).readers.length := by
      rw [s3, startsOf_cons_other _ _ (fun a ha => Event.noConfusion ha)]
      rw [s4]
      exact (encodeFiles_readers env w (Validate options).2 [inputPath, second]).1
    obtain ⟨e1, e2, e3⟩ := encodeFile_precondition_error_cases env
      (encodeFile env w inputPath (Validate options).2).world second (Validate options).2
    refine ⟨hcb, ?_, ?_, herr, ?_, ?_, ?_⟩
    · have := Observed_supervisor_alone
        (StartEncoding env w [inputPath, second] options).trace
        (StartEncoding env w [inputPath, second] options).readers [] (Nat.le_of_eq hstarts)
      rw [hcb] at this
      exact this
    · intro obs hobs
      rw [← hcb]
      apply Observed_synthetic _ _ _ _ hobs
      · intro r hr p hp
        exact (hrd.2 r hr p hp).2
      · intro r hr
        exact absurd hr (List.not_mem_nil r)
      · intro p hp
        rw [hcb] at hp
        rcases List.mem_cons.1 hp with h | h
        · rw [h]; rfl
        · rw [List.mem_singleton.1 h]; rfl
    · intro msg hs
      rw [herr]
      exact e1 msg hs
    · intro hs msg hm
      rw [herr]
      exact e2 hs msg hm
    · intro hs hm
      rw [herr]
      apply e3 hs hm
      rcases hpre with ⟨m, h⟩ | ⟨m, h⟩ | h
      · exact absurd h (hs m)
      · rw [hm] at h
        exact Option.noConfusion h
      · exact h

/-- Witness for C18: in the sample world the first file succeeds and the second is
missing. The supervisor emits nothing for the second file, and the callback can receive the
status snapshot of the first file after its completed snapshot. -/
theorem C18_synthetic_events_witness :
    callbacksOf (encodeFile demoEnv ⟨["/in/a.mov"]⟩ "/in/missing.mov" optsH264Crf).trace = [] ∧
    (StartEncoding demoEnv ⟨["/in/a.mov"]⟩ ["/in/a.mov", "/in/missing.mov"] optsH264Crf).err =
      (encodeFile demoEnv
        (encodeFile demoEnv ⟨["/in/a.mov"]⟩ "/in/a.mov" (Validate optsH264Crf).2).world
        "/in/missing.mov" (Validate optsH264Crf).2).err ∧
    Observed
      (StartEncoding demoEnv ⟨["/in/a.mov"]⟩ ["/in/a.mov", "/in/missing.mov"]
        optsH264Crf).trace
      (StartEncoding demoEnv ⟨["/in/a.mov"]⟩ ["/in/a.mov", "/in/missing.mov"]
        optsH264Crf).readers []
      [startedSnapshot "/in/a.mov", completedSnapshot "/in/a.mov",
       { Filename := "a.mov", Frame := 10, FPS := 30, Time := "", Size := 0,
         Bitrate := ⟨0, 0⟩, Speed := ⟨0, 0⟩, Progress := ⟨0, 0⟩, Status := "processing" }] :=
  ⟨((C18_synthetic_events DemoWorld demoEnv ⟨["/in/a.mov"]⟩ optsH264Crf
      "/in/missing.mov").1 (Or.inl ⟨_, rfl⟩)).2.1,
   ((C18_synthetic_events DemoWorld demoEnv ⟨["/in/a.mov"]⟩ optsH264Crf "/in/a.mov").2.2.2.2.2
      "/in/missing.mov" (by decide) rfl (by decide) (Or.inl ⟨_, rfl⟩)).2.2.2.1,
   by
    have ht : (StartEncoding demoEnv ⟨["/in/a.mov"]⟩ ["/in/a.mov", "/in/missing.mov"]
        optsH264Crf).trace =
        [Event.lookPath "ffmpeg", Event.stat "/in/a.mov", Event.mkdirAll "/in",
         Event.stat "/in/a.mp4", Event.callback (startedSnapshot "/in/a.mov"),
         Event.exec ["-i", "/in/a.mov", "-c:v", "h264", "-crf", "23", "-vf",
           "scale=1280:720", "-c:a", "copy", "/in/a.mp4"],
         Event.stat "/in/a.mp4", Event.callback (completedSnapshot "/in/a.mov"),
         Event.stat "/in/missing.mov"] := by decide
    have hr : (StartEncoding demoEnv ⟨["/in/a.mov"]⟩ ["/in/a.mov", "/in/missing.mov"]
        optsH264Crf).readers =
        [[{ Filename := "a.mov", Frame := 10, FPS := 30, Time := "", Size := 0,
            Bitrate := ⟨0, 0⟩, Speed := ⟨0, 0⟩, Progress := ⟨0, 0⟩,
            Status := "processing" }]] := by decide
    rw [ht, hr]
    refine Observed.step _ _ _ _ _ (fun q hq => Event.noConfusion hq)
      (fun a ha => Event.noConfusion ha) ?_
    refine Observed.step _ _ _ _ _ (fun q hq => Event.noConfusion hq)
      (fun a ha => Event.noConfusion ha) ?_
    refine Observed.step _ _ _ _ _ (fun q hq => Event.noConfusion hq)
      (fun a ha => Event.noConfusion ha) ?_
    refine Observed.step _ _ _ _ _ (fun q hq => Event.noConfusion hq)
      (fun a ha => Event.noConfusion ha) ?_
    refine Observed.emit _ _ _ _ _ ?_
    refine Observed.start _ _ _ _ _ _ ?_
    refine Observed.step _ _ _ _ _ (fun q hq => Event.noConfusion hq)
      (fun a ha => Event.noConfusion ha) ?_
    refine Observed.emit _ _ _ _ _ ?_
    refine Observed.step _ _ _ _ _ (fun q hq => Event.noConfusion hq)
      (fun a ha => Event.noConfusion ha) ?_
    exact Observed.deliver _ [] [] [] [] [] [] (Observed.stop _ _)⟩

theorem StartEncoding_of_no_ffmpeg {World : Type} (env : Env World) (w : World)
    (paths : List String) (options : EncodingOptions) (e : String)
    (hv : (Validate options).1 = none) (hl : env.lookPath w "ffmpeg" = some e) :
    (StartEncoding env w paths options).err = some ("FFmpeg is not installed: " ++ e) ∧
    (StartEncoding env w paths options).world = w ∧
    (StartEncoding env w paths options).trace = [Event.lookPath "ffmpeg"] := by
  unfold StartEncoding
  rcases hvo : Validate options with ⟨verr, validated⟩
  rw [hvo] at hv
  simp only [] at hv
  subst hv
  simp [hl]

/-- C19: `StartEncoding` is fail-fast. When the options do not validate, it returns the
wrapped validation error with no effect at all; when `ffmpeg` is not found, its only effect
is the lookup. When the options validate and `ffmpeg` is found,
and the files before `inputPath` run without error while `inputPath` returns the error
`e`, it returns `e` itself, and its effects are the lookup of `ffmpeg`, the effects of
the files before, each of which ran without error, and the effects of `inputPath`: nothing
is done for the files after it. -/
theorem C19_start_encoding_fail_fast (World : Type) (env : Env World) (w : World)
    (options : EncodingOptions) (paths : List String) :
    (∀ e, (Validate options).1 = some e →
      (StartEncoding env w paths options).err = some ("invalid encoding options: " ++ e) ∧
      (StartEncoding env w paths options).world = w ∧
      (StartEncoding env w paths options).trace = []) ∧
    (∀ e, (Validate options).1 = none → env.lookPath w "ffmpeg" = some e →
      (StartEncoding env w paths options).err = some ("FFmpeg is not installed: " ++ e) ∧
      (StartEncoding env w paths options).world = w ∧
      (StartEncoding env w paths options).trace = [Event.lookPath "ffmpeg"]) ∧
    (∀ (before after : List String) (inputPath e : String),
      paths = before ++ inputPath :: after →
      (Validate options).1 = none → env.lookPath w "ffmpeg" = none →
      (encodeFiles env w (Validate options).2 before).err = none →
      (encodeFile env (encodeFiles env w (Validate options).2 before).world inputPath
        (Validate options).2).err = some e →
      (StartEncoding env w paths options).err = some e ∧
      (StartEncoding env w paths options).world =
        (encodeFile env (encodeFiles env w (Validate options).2 before).world inputPath
          (Validate options).2).world ∧
      (StartEncoding env w paths options).trace =
        Event.lookPath "ffmpeg" ::
          ((encodeFiles env w (Validate options).2 before).trace ++
            (encodeFile env (encodeFiles env w (Validate options).2 before).world inputPath
              (Validate options).2).trace) ∧
      (∀ (a b : List String) (q : String), before = a ++ q :: b →
        (encodeFiles env w (Validate options).2 a).err = none ∧
        (encodeFile env (encodeFiles env w (Validate options).2 a).world q
          (Validate options).2).err = none)) := by
  refine ⟨fun e hv => StartEncoding_of_invalid env w paths options e hv,
    fun e hv hl => StartEncoding_of_no_ffmpeg env w paths options e hv hl, ?_⟩
  intro before after inputPath e hsplit hv hl hbefore hfile
  subst hsplit
  obtain ⟨s1, s2, s3⟩ :=
    StartEncoding_of_valid env w (before ++ inputPath :: after) options hv hl
  obtain ⟨a1, a2, a3⟩ :=
    encodeFiles_append env w (Validate options).2 before (inputPath :: after) hbefore
  obtain ⟨c1, c2, c3⟩ := encodeFiles_cons_error env
    (encodeFiles env w (Validate options).2 before).world (Validate options).2 inputPath
    after e hfile
  refine ⟨by rw [s1, a1, c1], by rw [s2, a2, c2], by rw [s3, a3, c3], ?_⟩
  intro a b q hab
  exact encodeFiles_ok_each env w (Validate options).2 before a b q hbefore hab

/-- Witness for C19: an unsupported format stops the job before any effect, and a missing
second file stops it before the third file is looked at. -/
theorem C19_start_encoding_fail_fast_witness :
    (StartEncoding demoEnv ⟨["/in/a.mov"]⟩ ["/in/a.mov"] optsAvi).trace = [] ∧
    (StartEncoding demoEnv ⟨["/in/a.mov", "/in/c.mov"]⟩
        ["/in/a.mov", "/in/missing.mov", "/in/c.mov"] optsH264Crf).err =
      some ("input file not found (/in/missing.mov): "
        ++ "stat /in/missing.mov: no such file or directory") ∧
    Event.stat "/in/c.mov" ∉
      (StartEncoding demoEnv ⟨["/in/a.mov", "/in/c.mov"]⟩
        ["/in/a.mov", "/in/missing.mov", "/in/c.mov"] optsH264Crf).trace :=
  ⟨((C19_start_encoding_fail_fast DemoWorld demoEnv ⟨["/in/a.mov"]⟩ optsAvi
      ["/in/a.mov"]).1 "unsupported video format: avi" (by decide)).2.2,
   ((C19_start_encoding_fail_fast DemoWorld demoEnv ⟨["/in/a.mov", "/in/c.mov"]⟩
      optsH264Crf ["/in/a.mov", "/in/missing.mov", "/in/c.mov"]).2.2
      ["/in/a.mov"] ["/in/c.mov"] "/in/missing.mov"
      ("input file not found (/in/missing.mov): "
        ++ "stat /in/missing.mov: no such file or directory")
      rfl (by decide) rfl (by decide) (by decide)).1,
   by decide⟩

/-- C20, evaluated on failing runs: in the sample world the first pass of `/in/broken.mov`
and the second pass of `/in/broken2.mov` exit with status 1; `runTwoPassEncoding` returns
the error without any removal, and the two statistics files are still there. For
`/in/a.mov` both passes succeed and the two files are removed. -/
theorem C20_cleanup_skipped_when_a_pass_fails :
    (runTwoPassEncoding demoEnv ⟨["/in/broken.mov"]⟩ "/in/broken.mov" "/out/broken.mp4"
        optsCopyWithBitrate).err =
      some "first pass failed: encoding failed: exit status 1\nError output:\n" ∧
    (runTwoPassEncoding demoEnv ⟨["/in/broken.mov"]⟩ "/in/broken.mov" "/out/broken.mp4"
        optsCopyWithBitrate).trace =
      [Event.exec ["-i", "/in/broken.mov", "-c:v", "h264", "-b:v", "40k", "-pass", "1",
        "-passlogfile", "/tmp/ffmpeg2pass_1700000000000000000", "-an", "-f", "null",
        "/dev/null"]] ∧
    (runTwoPassEncoding demoEnv ⟨["/in/broken.mov"]⟩ "/in/broken.mov" "/out/broken.mp4"
        optsCopyWithBitrate).world.files =
      ["/tmp/ffmpeg2pass_1700000000000000000-0.log",
       "/tmp/ffmpeg2pass_1700000000000000000-0.log.mbtree", "/in/broken.mov"] ∧
    (runTwoPassEncoding demoEnv ⟨["/in/broken2.mov"]⟩ "/in/broken2.mov" "/out/broken2.mp4"
        optsCopyWithBitrate).err =
      some "second pass failed: encoding failed: exit status 1\nError output:\n" ∧
    Event.remove "/tmp/ffmpeg2pass_1700000000000000000-0.log" ∉
      (runTwoPassEncoding demoEnv ⟨["/in/broken2.mov"]⟩ "/in/broken2.mov" "/out/broken2.mp4"
        optsCopyWithBitrate).trace ∧
    "/tmp/ffmpeg2pass_1700000000000000000-0.log" ∈
      (runTwoPassEncoding demoEnv ⟨["/in/broken2.mov"]⟩ "/in/broken2.mov" "/out/broken2.mp4"
        optsCopyWithBitrate).world.files ∧
    (runTwoPassEncoding demoEnv ⟨["/in/a.mov"]⟩ "/in/a.mov" "/out/a.mp4"
        optsCopyWithBitrate).err = none ∧
    (runTwoPassEncoding demoEnv ⟨["/in/a.mov"]⟩ "/in/a.mov" "/out/a.mp4"
        optsCopyWithBitrate).world.files = ["/out/a.mp4", "/in/a.mov"] := by
  decide

/-! ## Claims about atomicity and the quality range of `Validate` -/

/-- C21, refuted as stated: a two-pass request in bitrate mode with the sentinel quality 0
fails validation, and the options returned with the error have quality mode crf and quality
value 23 instead of bitrate and 0. -/
theorem C21_counterexample_defaults_written_before_error :
    (Validate optsBitrateTwoPassUnset).1 =
      some "2-pass encoding is only available with bitrate mode" ∧
    optsBitrateTwoPassUnset.QualityMode = "bitrate" ∧
    optsBitrateTwoPassUnset.QualityValue = 0 ∧
    (Validate optsBitrateTwoPassUnset).2.QualityMode = "crf" ∧
    (Validate optsBitrateTwoPassUnset).2.QualityValue = 23 ∧
    (Validate optsBitrateTwoPassUnset).2 ≠ optsBitrateTwoPassUnset := by
  decide

/-- C21, amended: when `Validate` returns an error, the options are unchanged, except in one
case: the format and codec are allowed, the base codec has a settings entry, the quality
value is the sentinel 0 and `Use2Pass` is set. Then the error is the two-pass error and the
quality mode and value have been overwritten with the defaults of the entry. No other field
ever changes. -/
theorem C21_validate_atomic_except_sentinel_two_pass (o : EncodingOptions)
    (herr : (Validate o).1 ≠ none) :
    ((Validate o).2 = o ∨
      (o.QualityValue = 0 ∧ o.Use2Pass = true ∧
        (Validate o).1 = some "2-pass encoding is only available with bitrate mode" ∧
        ∃ set, codecSettings (baseCodecOf o.VideoCodec) = some set ∧
          (Validate o).2 =
            { o with QualityMode := set.defaultMode,
                     QualityValue := set.qualityRange.default_ })) ∧
    (o.QualityValue ≠ 0 → (Validate o).2 = o) ∧
    (o.Use2Pass = false → (Validate o).2 = o) ∧
    (∃ m q, (Validate o).2 = { o with QualityMode := m, QualityValue := q }) := by
  refine ⟨?_, Validate_snd_of_nonzero o, ?_, Validate_snd_fields o⟩
  · by_cases hq : o.QualityValue = 0
    · cases h : SupportedFormats o.VideoFormat with
      | none => left; rw [Validate_of_no_format o h]
      | some cs =>
        by_cases hc : o.VideoCodec ∈ cs
        · cases hs : codecSettings (baseCodecOf o.VideoCodec) with
          | none => left; rw [Validate_of_no_entry o cs h hc hs]
          | some set =>
            right
            have hz := Validate_of_entry_zero o cs set h hc hs hq
            rw [hz] at herr ⊢
            cases h2 : o.Use2Pass with
            | false => rw [h2] at herr; exact absurd rfl herr
            | true => exact ⟨hq, rfl, rfl, set, rfl, rfl⟩
        · left; rw [Validate_of_no_codec o cs h hc]
    · exact Or.inl (Validate_snd_of_nonzero o hq)
  · intro h2
    by_cases hq : o.QualityValue = 0
    · cases h : SupportedFormats o.VideoFormat with
      | none => rw [Validate_of_no_format o h]
      | some cs =>
        by_cases hc : o.VideoCodec ∈ cs
        · cases hs : codecSettings (baseCodecOf o.VideoCodec) with
          | none => rw [Validate_of_no_entry o cs h hc hs]
          | some set =>
            have hz := Validate_of_entry_zero o cs set h hc hs hq
            rw [hz, h2] at herr
            exact absurd rfl herr
        · rw [Validate_of_no_codec o cs h hc]
    · exact Validate_snd_of_nonzero o hq

/-- Witness for C21: the out-of-range request with quality 2000 fails and is unchanged. -/
theorem C21_validate_atomic_except_sentinel_two_pass_witness :
    (Validate optsH264TwoPass).1 ≠ none ∧ (Validate optsH264TwoPass).2 = optsH264TwoPass :=
  ⟨by decide,
   (C21_validate_atomic_except_sentinel_two_pass optsH264TwoPass (by decide)).2.1
    (by decide)⟩

theorem codecSettings_max {k : String} {set : CodecSetting}
    (h : codecSettings k = some set) :
    ((k = "h264" ∨ k = "hevc") → set.qualityRange.max = 51) ∧
    (k = "vp9" → set.qualityRange.max = 63) := by
  constructor
  · rintro (hk | hk) <;> subst hk <;>
      · have hv := (Option.some.inj h).symm
        subst hv
        decide
  · intro hk
    subst hk
    have hv := (Option.some.inj h).symm
    subst hv
    decide

/-- After a successful `Validate` on a codec with a settings entry, the quality value lies
between 1 and the maximum of the entry, and it is the value given unless that was 0. -/
theorem Validate_ok_range (o : EncodingOptions) (set : CodecSetting)
    (hv : (Validate o).1 = none)
    (hs : codecSettings (baseCodecOf o.VideoCodec) = some set) :
    1 ≤ (Validate o).2.QualityValue ∧
    (Validate o).2.QualityValue ≤ set.qualityRange.max ∧
    (o.QualityValue ≠ 0 → (Validate o).2 = o) ∧
    (o.Use2Pass = true → o.QualityValue ≠ 0 ∧ o.QualityMode = QualityModeBitrate) := by
  obtain ⟨cs, h, hc⟩ := Validate_ok_allowed o hv
  obtain ⟨-, hm, hmin, hpos, hmax⟩ := codecSettings_some hs
  by_cases hq : o.QualityValue = 0
  · have hz := Validate_of_entry_zero o cs set h hc hs hq
    rw [hz] at hv ⊢
    refine ⟨by show 1 ≤ set.qualityRange.default_; omega, hmax, fun hne => absurd hq hne, ?_⟩
    intro h2
    rw [h2] at hv
    exact absurd hv (by simp)
  · have hn := Validate_of_entry_nonzero o cs set h hc hs hq
    rw [hn] at hv ⊢
    by_cases hr : o.QualityValue < set.qualityRange.min ∨
        o.QualityValue > set.qualityRange.max
    · rw [if_pos hr] at hv
      exact absurd hv (by simp)
    · rw [if_neg hr] at hv
      rw [hmin] at hr
      refine ⟨by show 1 ≤ o.QualityValue; omega, by show o.QualityValue ≤ _; omega,
        fun _ => rfl, ?_⟩
      intro h2
      refine ⟨hq, ?_⟩
      by_cases hb : o.QualityMode = QualityModeBitrate
      · exact hb
      · have hcond : (o.Use2Pass && o.QualityMode != QualityModeBitrate) = true := by
          simp [h2, hb]
        rw [if_pos hcond] at hv
        exact absurd hv (by simp)

/-- C22: the range check of `Validate` does not look at the quality mode. For a codec whose
base codec has a settings entry, a successful `Validate` leaves a quality value between 1
and the maximum of the entry, which is 51 for h264 and hevc and 63 for vp9, so the value 0
never reaches the command line; a request with a value above the maximum is rejected
whatever its mode, in particular in bitrate mode; and a two-pass request is accepted only
in bitrate mode with a value between 1 and the maximum. -/
theorem C22_range_check_ignores_mode (o : EncodingOptions) (set : CodecSetting)
    (hs : codecSettings (baseCodecOf o.VideoCodec) = some set) :
    ((Validate o).1 = none →
      1 ≤ (Validate o).2.QualityValue ∧
      (Validate o).2.QualityValue ≤ set.qualityRange.max) ∧
    ((baseCodecOf o.VideoCodec = "h264" ∨ baseCodecOf o.VideoCodec = "hevc") →
      set.qualityRange.max = 51) ∧
    (baseCodecOf o.VideoCodec = "vp9" → set.qualityRange.max = 63) ∧
    (o.QualityValue > set.qualityRange.max → (Validate o).1 ≠ none) ∧
    ((Validate o).1 = none → o.Use2Pass = true →
      o.QualityMode = "bitrate" ∧ 1 ≤ o.QualityValue ∧
      o.QualityValue ≤ set.qualityRange.max ∧ (Validate o).2 = o) := by
  refine ⟨fun hv => ⟨(Validate_ok_range o set hv hs).1, (Validate_ok_range o set hv hs).2.1⟩,
    (codecSettings_max hs).1, (codecSettings_max hs).2, ?_, ?_⟩
  · intro hbig hv
    obtain ⟨-, hle, hsame, -⟩ := Validate_ok_range o set hv hs
    obtain ⟨-, -, hmin, hpos, hmax⟩ := codecSettings_some hs
    have hne : o.QualityValue ≠ 0 := by omega
    rw [hsame hne] at hle
    omega
  · intro hv h2
    obtain ⟨h1, hle, hsame, htwo⟩ := Validate_ok_range o set hv hs
    obtain ⟨hne, hmode⟩ := htwo h2
    rw [hsame hne] at h1 hle
    exact ⟨hmode, h1, hle, hsame hne⟩

/-- Witness for C22: a bitrate request of 2000 kbit/s on h264 is rejected, and the two-pass
request at 40 kbit/s is accepted unchanged. -/
theorem C22_range_check_ignores_mode_witness :
    (Validate optsH264TwoPass).1 ≠ none ∧
    (Validate optsBitrate40TwoPass).2 = optsBitrate40TwoPass :=
  ⟨(C22_range_check_ignores_mode optsH264TwoPass
      { defaultMode := QualityModeCRF, qualityRange := { min := 0, max := 51, default_ := 23 } }
      (by decide)).2.2.2.1 (by decide),
   ((C22_range_check_ignores_mode optsBitrate40TwoPass
      { defaultMode := QualityModeCRF, qualityRange := { min := 0, max := 51, default_ := 23 } }
      (by decide)).2.2.2.2 (by decide) (by decide)).2.2.2⟩

/-! ## Claims about the codec enumeration -/

theorem Contains_iff (s substr : String) :
    strings.Contains s substr = true ↔ ∃ t, t ∈ s.data.tails ∧ substr.data <+: t := by
  unfold strings.Contains
  rw [List.any_eq_true]
  constructor
  · rintro ⟨t, ht, hp⟩
    exact ⟨t, ht, List.isPrefixOf_iff_prefix.1 hp⟩
  · rintro ⟨t, ht, hp⟩
    exact ⟨t, ht, List.isPrefixOf_iff_prefix.2 hp⟩

/-- A text that contains a string contains every beginning of that string. -/
theorem Contains_of_prefix (s a b : String) (hab : a.data <+: b.data)
    (h : strings.Contains s b = true) : strings.Contains s a = true := by
  rw [Contains_iff] at h ⊢
  obtain ⟨t, ht, hp⟩ := h
  exact ⟨t, ht, hab.trans hp⟩

theorem libvpx_of_libvpx_vp9 (encoderList : String)
    (h : strings.Contains encoderList "libvpx-vp9" = true) :
    strings.Contains encoderList "libvpx" = true :=
  Contains_of_prefix encoderList "libvpx" "libvpx-vp9" (by decide) h

/-- C25: `checkVPCodecs` appends the vp8 entry when the encoder list contains `libvpx` and
then the vp9 entry when it contains `libvpx-vp9`, each with format webm and hardware class
cpu. A list that contains `libvpx-vp9` contains `libvpx`, so the vp9 entry is never added
without the vp8 entry before it. -/
theorem C25_vp9_only_after_vp8 (codecs : List codec.CodecInfo) (encoderList : String) :
    codec.checkVPCodecs codecs encoderList =
      codecs
        ++ (if strings.Contains encoderList "libvpx" = true then
              [{ Name := "vp8", DisplayName := "VP8", Hardware := "cpu", Formats := ["webm"] }]
            else [])
        ++ (if strings.Contains encoderList "libvpx-vp9" = true then
              [{ Name := "vp9", DisplayName := "VP9", Hardware := "cpu", Formats := ["webm"] }]
            else []) ∧
    (strings.Contains encoderList "libvpx-vp9" = true →
      strings.Contains encoderList "libvpx" = true ∧
      codec.checkVPCodecs codecs encoderList =
        codecs ++
          [{ Name := "vp8", DisplayName := "VP8", Hardware := "cpu", Formats := ["webm"] },
           { Name := "vp9", DisplayName := "VP9", Hardware := "cpu", Formats := ["webm"] }]) ∧
    (strings.Contains encoderList "libvpx" = false →
      codec.checkVPCodecs codecs encoderList = codecs) := by
  have hshape : codec.checkVPCodecs codecs encoderList =
      codecs
        ++ (if strings.Contains encoderList "libvpx" = true then
              [{ Name := "vp8", DisplayName := "VP8", Hardware := "cpu", Formats := ["webm"] }]
            else [])
        ++ (if strings.Contains encoderList "libvpx-vp9" = true then
              [{ Name := "vp9", DisplayName := "VP9", Hardware := "cpu", Formats := ["webm"] }]
            else []) := by
    unfold codec.checkVPCodecs
    cases strings.Contains encoderList "libvpx" <;>
      cases strings.Contains encoderList "libvpx-vp9" <;> simp
  refine ⟨hshape, ?_, ?_⟩
  · intro h9
    have h8 := libvpx_of_libvpx_vp9 encoderList h9
    refine ⟨h8, ?_⟩
    rw [hshape, if_pos h8, if_pos h9, List.append_assoc]
    rfl
  · intro h8
    have h9 : strings.Contains encoderList "libvpx-vp9" = false := by
      cases hc : strings.Contains encoderList "libvpx-vp9" with
      | false => rfl
      | true =>
        rw [libvpx_of_libvpx_vp9 encoderList hc] at h8
        exact Bool.noConfusion h8
    rw [hshape, h8, h9]
    simp

/-- Witness for C25: an encoder list that names `libvpx-vp9` only. -/
theorem C25_vp9_only_after_vp8_witness :
    codec.checkVPCodecs [] " V....D libvpx-vp9           libvpx VP9 (codec vp9)" =
      [{ Name := "vp8", DisplayName := "VP8", Hardware := "cpu", Formats := ["webm"] },
       { Name := "vp9", DisplayName := "VP9", Hardware := "cpu", Formats := ["webm"] }] :=
  ((C25_vp9_only_after_vp8 [] " V....D libvpx-vp9           libvpx VP9 (codec vp9)").2.1
    (by decide)).2

/-! ## Facts about `filepath.Clean` -/

theorem splitOnSlash_ne_nil (l : List Char) : filepath.splitOnSlash l ≠ [] := by
  cases l with
  | nil => simp [filepath.splitOnSlash]
  | cons c cs =>
    unfold filepath.splitOnSlash
    by_cases hc : c = '/'
    · simp [hc]
    · rw [if_neg hc]
      cases filepath.splitOnSlash cs <;> simp

theorem splitOnSlash_cons_slash (l : List Char) :
    filepath.splitOnSlash ('/' :: l) = [] :: filepath.splitOnSlash l := by
  rw [filepath.splitOnSlash]
  simp

theorem splitOnSlash_cons_other (c : Char) (l : List Char) (hc : c ≠ '/') :
    filepath.splitOnSlash (c :: l) =
      match filepath.splitOnSlash l with
      | [] => [[c]]
      | h :: t => (c :: h) :: t := by
  rw [filepath.splitOnSlash]
  simp [hc]

theorem splitOnSlash_append_slash (a b : List Char) :
    filepath.splitOnSlash (a ++ '/' :: b) =
      filepath.splitOnSlash a ++ filepath.splitOnSlash b := by
  induction a with
  | nil =>
    rw [List.nil_append, splitOnSlash_cons_slash]
    rfl
  | cons c rest ih =>
    rw [List.cons_append]
    by_cases hc : c = '/'
    · subst hc
      rw [splitOnSlash_cons_slash, splitOnSlash_cons_slash, ih]
      rfl
    · rw [splitOnSlash_cons_other c _ hc, splitOnSlash_cons_other c rest hc, ih]
      cases hs : filepath.splitOnSlash rest with
      | nil => exact absurd hs (splitOnSlash_ne_nil rest)
      | cons h t => rfl

theorem splitOnSlash_no_slash (n : List Char) (hn : ∀ c ∈ n, c ≠ '/') :
    filepath.splitOnSlash n = [n] := by
  induction n with
  | nil => rfl
  | cons c rest ih =>
    rw [splitOnSlash_cons_other c rest (hn c (by simp)),
      ih (fun x hx => hn x (by simp [hx]))]

theorem splitOnSlash_slash_free (l : List Char) :
    ∀ e ∈ filepath.splitOnSlash l, ∀ c ∈ e, c ≠ '/' := by
  induction l with
  | nil =>
    intro e he
    simp [filepath.splitOnSlash] at he
    subst he
    simp
  | cons x rest ih =>
    intro e he
    by_cases hx : x = '/'
    · subst hx
      rw [splitOnSlash_cons_slash] at he
      rcases List.mem_cons.1 he with h | h
      · subst h; simp
      · exact ih e h
    · rw [splitOnSlash_cons_other x rest hx] at he
      cases hs : filepath.splitOnSlash rest with
      | nil => exact absurd hs (splitOnSlash_ne_nil rest)
      | cons h t =>
        rw [hs] at he ih
        rcases List.mem_cons.1 he with h1 | h1
        · subst h1
          intro c hc
          rcases List.mem_cons.1 hc with h2 | h2
          · subst h2; exact hx
          · exact ih h (by simp) c h2
        · exact ih e (by simp [h1])

theorem intercalate_cons_cons (sep a b : List Char) (rest : List (List Char)) :
    List.intercalate sep (a :: b :: rest) = a ++ sep ++ List.intercalate sep (b :: rest) := by
  simp [List.intercalate, List.intersperse]

theorem splitOnSlash_intercalate (out : List (List Char)) (hne : out ≠ [])
    (hfree : ∀ e ∈ out, ∀ c ∈ e, c ≠ '/') :
    filepath.splitOnSlash (List.intercalate ['/'] out) = out := by
  induction out with
  | nil => exact absurd rfl hne
  | cons e rest ih =>
    cases rest with
    | nil =>
      have : List.intercalate ['/'] [e] = e := by simp [List.intercalate, List.intersperse]
      rw [this]
      exact splitOnSlash_no_slash e (hfree e (by simp))
    | cons e2 rest2 =>
      rw [intercalate_cons_cons, List.append_assoc, List.singleton_append,
        splitOnSlash_append_slash, splitOnSlash_no_slash e (hfree e (by simp)),
        ih (by simp) (fun x hx => hfree x (by simp [hx]))]
      rfl

theorem cleanStep_cases (r : Bool) (out : List (List Char)) (e : List Char) :
    filepath.cleanStep r out e = out ∨ filepath.cleanStep r out e = out.tail ∨
      filepath.cleanStep r out e = e :: out := by
  unfold filepath.cleanStep
  by_cases h1 : e = [] ∨ e = ['.']
  · rw [if_pos h1]; exact Or.inl rfl
  · rw [if_neg h1]
    by_cases h2 : e = ['.', '.']
    · rw [if_pos h2]
      cases out with
      | nil =>
        cases r
        · right; right; simp [h2]
        · left; simp
      | cons top rest =>
        by_cases h3 : top = ['.', '.']
        · right; right; simp [h3, h2]
        · right; left; simp [h3]
    · rw [if_neg h2]; exact Or.inr (Or.inr rfl)

theorem cleanStep_skip (r : Bool) (out : List (List Char)) (e : List Char)
    (he : e = [] ∨ e = ['.']) : filepath.cleanStep r out e = out := by
  unfold filepath.cleanStep
  rw [if_pos he]

theorem stackOk_tail (r : Bool) (out : List (List Char)) (h : filepath.stackOk r out) :
    filepath.stackOk r out.tail := by
  cases out with
  | nil => exact h
  | cons e rest => exact h.2.2

theorem stackOk_cleanStep (r : Bool) (out : List (List Char)) (e : List Char)
    (hok : filepath.stackOk r out) (hfree : ∀ c ∈ e, c ≠ '/') :
    filepath.stackOk r (filepath.cleanStep r out e) := by
  rcases cleanStep_cases r out e with h | h | h
  · rw [h]; exact hok
  · rw [h]; exact stackOk_tail r out hok
  · rw [h]; exact ⟨h, hfree, hok⟩

theorem stackOk_foldl (r : Bool) (cs : List (List Char)) (acc : List (List Char))
    (hok : filepath.stackOk r acc) (hfree : ∀ e ∈ cs, ∀ c ∈ e, c ≠ '/') :
    filepath.stackOk r (cs.foldl (filepath.cleanStep r) acc) := by
  induction cs generalizing acc with
  | nil => exact hok
  | cons e rest ih =>
    rw [List.foldl_cons]
    exact ih _ (stackOk_cleanStep r acc e hok (hfree e (by simp)))
      (fun x hx => hfree x (by simp [hx]))

theorem stackOk_cleanStack (r : Bool) (l : List Char) :
    filepath.stackOk r (filepath.cleanStack r l) :=
  stackOk_foldl r _ [] trivial (splitOnSlash_slash_free l)

theorem foldl_of_stackOk (r : Bool) (out : List (List Char)) (hok : filepath.stackOk r out) :
    out.reverse.foldl (filepath.cleanStep r) [] = out := by
  induction out with
  | nil => rfl
  | cons e rest ih =>
    rw [List.reverse_cons, List.foldl_append, ih hok.2.2]
    exact hok.1

theorem slash_free_of_stackOk (r : Bool) (out : List (List Char))
    (hok : filepath.stackOk r out) : ∀ e ∈ out, ∀ c ∈ e, c ≠ '/' := by
  induction out with
  | nil => intro e he; simp at he
  | cons x rest ih =>
    intro e he
    rcases List.mem_cons.1 he with h | h
    · subst h; exact hok.2.1
    · exact ih hok.2.2 e h

theorem ne_nil_of_stackOk (r : Bool) (out : List (List Char))
    (hok : filepath.stackOk r out) : ∀ e ∈ out, e ≠ [] := by
  induction out with
  | nil => intro e he; simp at he
  | cons x rest ih =>
    intro e he
    rcases List.mem_cons.1 he with h | h
    · subst h
      intro hnil
      have h1 := hok.1
      rw [cleanStep_skip r rest e (Or.inl hnil)] at h1
      exact absurd h1.symm (List.cons_ne_self e rest)
    · exact ih hok.2.2 e h

theorem intercalate_cons_ne_nil (sep e : List Char) (rest : List (List Char)) :
    ∃ tail, List.intercalate sep (e :: rest) = e ++ tail := by
  cases rest with
  | nil => exact ⟨[], by simp [List.intercalate, List.intersperse]⟩
  | cons b rest2 =>
    exact ⟨sep ++ List.intercalate sep (b :: rest2), by
      rw [intercalate_cons_cons, List.append_assoc]⟩

theorem cleanStack_render (r : Bool) (out : List (List Char))
    (hok : filepath.stackOk r out) :
    filepath.cleanStack r (filepath.render r out.reverse) = out := by
  have hfree : ∀ e ∈ out.reverse, ∀ c ∈ e, c ≠ '/' := fun e he =>
    slash_free_of_stackOk r out hok e (List.mem_reverse.1 he)
  unfold filepath.cleanStack filepath.render
  cases r with
  | true =>
    rw [if_pos rfl, splitOnSlash_cons_slash, List.foldl_cons,
      cleanStep_skip true [] [] (Or.inl rfl)]
    by_cases hne : out = []
    · subst hne
      simp [List.intercalate, filepath.splitOnSlash, filepath.cleanStep]
    · rw [splitOnSlash_intercalate out.reverse (by simpa using hne) hfree]
      exact foldl_of_stackOk true out hok
  | false =>
    rw [if_neg (by simp)]
    by_cases hj : List.intercalate ['/'] out.reverse = []
    · rw [if_pos hj]
      have hout : out = [] := by
        cases hrev : out.reverse with
        | nil => simpa using hrev
        | cons e rest =>
          exfalso
          rw [hrev] at hj
          obtain ⟨tail, ht⟩ := intercalate_cons_ne_nil ['/'] e rest
          rw [ht] at hj
          have he : e = [] := (List.append_eq_nil.1 hj).1
          have hmem : e ∈ out := List.mem_reverse.1 (by rw [hrev]; simp)
          exact ne_nil_of_stackOk false out hok e hmem he
      subst hout
      simp [filepath.splitOnSlash, filepath.cleanStep]
    · rw [if_neg hj]
      have hne : out.reverse ≠ [] := by
        intro h
        rw [h] at hj
        exact hj (by simp [List.intercalate])
      rw [splitOnSlash_intercalate out.reverse hne hfree]
      exact foldl_of_stackOk false out hok

theorem rooted_render (r : Bool) (out : List (List Char)) (rest : List Char)
    (hok : filepath.stackOk r out) :
    ((filepath.render r out.reverse ++ rest).head? == some '/') = r := by
  unfold filepath.render
  cases r with
  | true => simp
  | false =>
    rw [if_neg (by simp)]
    by_cases hj : List.intercalate ['/'] out.reverse = []
    · rw [if_pos hj]
      rfl
    · rw [if_neg hj]
      cases hrev : out.reverse with
      | nil => rw [hrev] at hj; exact absurd (by simp [List.intercalate]) hj
      | cons e tl =>
        have hmem : e ∈ out := List.mem_reverse.1 (by rw [hrev]; simp)
        obtain ⟨tail, ht⟩ := intercalate_cons_ne_nil ['/'] e tl
        rw [ht]
        cases e with
        | nil => exact absurd rfl (ne_nil_of_stackOk false out hok [] hmem)
        | cons c cs =>
          have hc : c ≠ '/' := slash_free_of_stackOk false out hok _ hmem c (by simp)
          simp [hc]

theorem cleanStack_append_slash (r : Bool) (a n : List Char) (hn : ∀ c ∈ n, c ≠ '/') :
    filepath.cleanStack r (a ++ '/' :: n) =
      filepath.cleanStep r (filepath.cleanStack r a) n := by
  unfold filepath.cleanStack
  rw [splitOnSlash_append_slash, splitOnSlash_no_slash n hn, List.foldl_append]
  rfl

theorem cleanStack_trailing_slash (r : Bool) (x : List Char) :
    filepath.cleanStack r (x ++ ['/']) = filepath.cleanStack r x := by
  unfold filepath.cleanStack
  rw [splitOnSlash_append_slash, List.foldl_append]
  exact cleanStep_skip r _ [] (Or.inl rfl)

/-- The characters of `Clean p` in terms of the kept elements. -/
theorem Clean_data (p : String) :
    (filepath.Clean p).data =
      if p.data = [] then ['.']
      else filepath.render (p.data.head? == some '/')
        (filepath.cleanStack (p.data.head? == some '/') p.data).reverse := by
  unfold filepath.Clean
  by_cases hp : p = ""
  · subst hp
    simp
  · have hd : p.data ≠ [] := fun h => hp (String.ext h)
    rw [if_neg hp, if_neg hd]
    unfold filepath.render filepath.cleanStack
    simp only []
    cases hr : (p.data.head? == some '/') with
    | true =>
      simp [String.data_append]
    | false =>
      simp only [Bool.false_eq_true, if_false]
      by_cases hj : List.intercalate ['/']
          (List.foldl (filepath.cleanStep false) [] (filepath.splitOnSlash p.data)).reverse = []
      · have hs : (String.mk (List.intercalate ['/']
            (List.foldl (filepath.cleanStep false) []
              (filepath.splitOnSlash p.data)).reverse)) = "" := by
          rw [hj]
        rw [if_pos hs, if_pos hj]
      · have hs : ¬ (String.mk (List.intercalate ['/']
            (List.foldl (filepath.cleanStep false) []
              (filepath.splitOnSlash p.data)).reverse)) = "" := by
          intro h
          exact hj (congrArg String.data h)
        rw [if_neg hs, if_neg hj]

/-- Joining the cleaned directory part of a path with its last element and cleaning again
gives the same as cleaning the path. -/
theorem Clean_join_dir (d n : List Char) (hd : d = [] ∨ ∃ x, d = x ++ ['/'])
    (hne : n ≠ []) (hn : ∀ c ∈ n, c ≠ '/') :
    filepath.Clean (filepath.Clean (String.mk d) ++ "/" ++ String.mk n) =
      filepath.Clean (String.mk (d ++ n)) := by
  apply String.ext
  have hq : (filepath.Clean (String.mk d) ++ "/" ++ String.mk n).data =
      (filepath.Clean (String.mk d)).data ++ '/' :: n := by
    simp [String.data_append]
  rw [Clean_data, Clean_data, hq]
  rw [if_neg (by simp), if_neg (by
    show d ++ n ≠ []
    intro h
    exact hne (List.append_eq_nil.1 h).2)]
  show filepath.render _ _ = filepath.render (((d ++ n).head? == some '/')) _
  have hhead : ∀ c cs, n = c :: cs → c ≠ '/' := fun c cs h => hn c (by rw [h]; simp)
  rcases hd with hd | ⟨x, hx⟩
  · subst hd
    have hcd : (filepath.Clean (String.mk [])).data = ['.'] := by decide
    rw [hcd, List.nil_append]
    have hr1 : ((['.'] ++ '/' :: n).head? == some '/') = false := rfl
    have hr2 : (n.head? == some '/') = false := by
      cases hn' : n with
      | nil => exact absurd hn' hne
      | cons c cs => simp [hhead c cs hn']
    rw [hr1, hr2, cleanStack_append_slash false ['.'] n hn]
    have h1 : filepath.cleanStack false ['.'] = [] := by decide
    have h2 : filepath.cleanStack false n = filepath.cleanStep false [] n := by
      unfold filepath.cleanStack
      rw [splitOnSlash_no_slash n hn]
      rfl
    rw [h1, h2]
  · subst hx
    have hdne : (String.mk (x ++ ['/'])).data ≠ [] := by
      show x ++ ['/'] ≠ []
      simp
    have hcd := Clean_data (String.mk (x ++ ['/']))
    rw [if_neg hdne] at hcd
    have hdata : (String.mk (x ++ ['/'])).data = x ++ ['/'] := rfl
    rw [hdata, cleanStack_trailing_slash] at hcd
    have hrr : (((x ++ ['/']) ++ n).head? == some '/') =
        ((x ++ ['/']).head? == some '/') := by
      cases x <;> rfl
    have hok := stackOk_cleanStack ((x ++ ['/']).head? == some '/') x
    rw [hcd, rooted_render _ _ _ hok, cleanStack_append_slash _ _ n hn,
      cleanStack_render _ _ hok, hrr]
    rw [show (x ++ ['/']) ++ n = x ++ '/' :: n by simp, cleanStack_append_slash _ x n hn]

theorem Clean_ne_empty (p : String) : filepath.Clean p ≠ "" := by
  intro h
  have hd := Clean_data p
  rw [h] at hd
  by_cases hp : p.data = []
  · rw [if_pos hp] at hd
    exact absurd hd (by decide)
  · rw [if_neg hp] at hd
    unfold filepath.render at hd
    split_ifs at hd with h1 h2
    exact h2 hd.symm

theorem extScan_append (a rest acc : List Char) (ha : ∀ c ∈ a, c ≠ '/')
    (hrest : rest = [] ∨ ∃ t, rest = '/' :: t) :
    filepath.extScan (a ++ rest) acc = filepath.extScan a acc := by
  induction a generalizing acc with
  | nil =>
    rcases hrest with h | ⟨t, h⟩ <;> subst h <;> simp [filepath.extScan]
  | cons c cs ih =>
    have hc : c ≠ '/' := ha c (by simp)
    rw [List.cons_append]
    unfold filepath.extScan
    rw [if_neg hc, if_neg hc]
    by_cases hdot : c = '.'
    · rw [if_pos hdot, if_pos hdot]
    · rw [if_neg hdot, if_neg hdot]
      exact ih (c :: acc) (fun x hx => ha x (by simp [hx]))

/-- A path with an extension splits into a directory part, empty or ending in a slash, and
a last element without slash that is its base name and carries the extension. -/
theorem split_of_ext (p : String) (hext : filepath.Ext p ≠ "") :
    ∃ d n : List Char, p.data = d ++ n ∧ (d = [] ∨ ∃ x, d = x ++ ['/']) ∧ n ≠ [] ∧
      (∀ c ∈ n, c ≠ '/') ∧ filepath.Base p = String.mk n ∧
      filepath.Dir p = filepath.Clean (String.mk d) ∧
      filepath.Ext (String.mk n) = filepath.Ext p := by
  have hrev : ∃ c rest, p.data.reverse = c :: rest ∧ c ≠ '/' := by
    cases hr : p.data.reverse with
    | nil =>
      exfalso
      apply hext
      unfold filepath.Ext
      rw [hr]
      rfl
    | cons c rest =>
      refine ⟨c, rest, rfl, ?_⟩
      intro hc
      apply hext
      unfold filepath.Ext
      rw [hr, hc]
      rfl
  obtain ⟨c, rest, hr, hc⟩ := hrev
  have hsplit : p.data =
      (p.data.reverse.dropWhile (fun c => c != '/')).reverse ++
        (p.data.reverse.takeWhile (fun c => c != '/')).reverse := by
    rw [← List.reverse_append, List.takeWhile_append_dropWhile, List.reverse_reverse]
  have hfree : ∀ x ∈ (p.data.reverse.takeWhile (fun c => c != '/')).reverse, x ≠ '/' := by
    intro x hx
    have := List.mem_takeWhile_imp (List.mem_reverse.1 hx)
    simpa using this
  have hdrop : p.data.reverse.dropWhile (fun c => c != '/') = [] ∨
      ∃ t, p.data.reverse.dropWhile (fun c => c != '/') = '/' :: t := by
    cases hdw : p.data.reverse.dropWhile (fun c => c != '/') with
    | nil => exact Or.inl rfl
    | cons y ys =>
      right
      have hy := List.head_dropWhile_not (fun c => c != '/') p.data.reverse
        (by rw [hdw]; simp)
      simp only [hdw, List.head_cons] at hy
      have : y = '/' := by simpa using hy
      exact ⟨ys, by rw [this]⟩
  have htake_ne : (p.data.reverse.takeWhile (fun c => c != '/')).reverse ≠ [] := by
    rw [hr, List.takeWhile_cons]
    simp [hc]
  have hpne : p ≠ "" := by
    intro h
    rw [h] at hr
    exact absurd hr (by simp)
  refine ⟨_, _, hsplit, ?_, htake_ne, hfree, ?_, rfl, ?_⟩
  · rcases hdrop with h | ⟨t, h⟩
    · left; rw [h]; rfl
    · right; exact ⟨t.reverse, by rw [h]; simp⟩
  · unfold filepath.Base
    rw [if_neg hpne]
    have hstrip : p.data.reverse.dropWhile (fun c => c == '/') = p.data.reverse := by
      rw [hr, List.dropWhile_cons]
      simp [hc]
    simp only [hstrip]
    rw [if_neg htake_ne]
  · unfold filepath.Ext
    congr 1
    show filepath.extScan
        (p.data.reverse.takeWhile (fun c => c != '/')).reverse.reverse [] = _
    rw [List.reverse_reverse]
    conv_rhs => rw [← List.takeWhile_append_dropWhile (fun c => c != '/') p.data.reverse]
    rw [extScan_append _ _ [] (fun x hx => by
      have := List.mem_takeWhile_imp hx
      simpa using this) hdrop]

theorem getOutputPath_same_extension (o : EncodingOptions) (inputPath : String)
    (hclean : filepath.Clean inputPath = inputPath)
    (hext : filepath.Ext inputPath = "." ++ o.VideoFormat)
    (ho : o.OutputPath = "") (hp : o.Prefix = "") (hpo : o.Postfix = "") :
    getOutputPath o inputPath = inputPath := by
  have hne : filepath.Ext inputPath ≠ "" := by
    rw [hext]
    intro h
    have := congrArg String.data h
    rw [String.data_append] at this
    exact absurd this (by simp)
  obtain ⟨d, n, hsplit, hd, hnne, hfree, hbase, hdir, hextn⟩ := split_of_ext inputPath hne
  rw [getOutputPath_derived o inputPath ho, hp, hpo, hbase, hextn, hdir]
  have hname : "" ++ strings.TrimSuffix (String.mk n) (filepath.Ext inputPath) ++ "" ++ "."
      ++ o.VideoFormat = String.mk n := by
    rw [String.empty_append, String.append_empty, String.append_assoc, ← hext, ← hextn]
    exact TrimSuffix_append _ _ (Ext_suffix _)
  rw [hname]
  unfold filepath.Join
  rw [if_pos (Clean_ne_empty _), Clean_join_dir d n hd hnne hfree]
  have hp' : String.mk (d ++ n) = inputPath := String.ext hsplit.symm
  rw [hp', hclean]

/-- C24: for a clean input path whose extension is a dot followed by the video format, with
the output directory, the prefix and the postfix all empty, `getOutputPath` returns the
input path itself; so when the input exists, at the first check and when the output check
runs, `encodeFile` returns an error without starting a subprocess and without a callback,
and when the directory of the input can be created the error is that of the output check,
after exactly the two status queries and the directory creation. -/
theorem C24_same_extension_output_is_input (World : Type) (env : Env World) (w : World)
    (o : EncodingOptions) (inputPath : String)
    (hclean : filepath.Clean inputPath = inputPath)
    (hext : filepath.Ext inputPath = "." ++ o.VideoFormat)
    (ho : o.OutputPath = "") (hp : o.Prefix = "") (hpo : o.Postfix = "") :
    getOutputPath o inputPath = inputPath ∧
    (env.stat w inputPath = StatResult.found →
      env.stat (env.mkdirAll w (filepath.Dir inputPath)).2 inputPath = StatResult.found →
      (encodeFile env w inputPath o).err ≠ none ∧
      (∀ args, Event.exec args ∉ (encodeFile env w inputPath o).trace) ∧
      callbacksOf (encodeFile env w inputPath o).trace = [] ∧
      ((env.mkdirAll w (filepath.Dir inputPath)).1 = none →
        (encodeFile env w inputPath o).err =
          some ("output file already exists: " ++ inputPath) ∧
        (encodeFile env w inputPath o).trace =
          [Event.stat inputPath, Event.mkdirAll (filepath.Dir inputPath),
           Event.stat inputPath])) := by
  have hout := getOutputPath_same_extension o inputPath hclean hext ho hp hpo
  refine ⟨hout, ?_⟩
  intro hfound hstill
  unfold encodeFile
  rw [hfound, hout]
  rcases hm : env.mkdirAll w (filepath.Dir inputPath) with ⟨merr, w1⟩
  rw [hm] at hstill
  simp only [] at hstill
  cases merr with
  | some msg => simp [hm, callbacksOf]
  | none =>
    simp only [hm, hstill]
    simp [callbacksOf]

/-- C24 at the clean path `/a/b/clip.mp4`, which exists, with the format `mp4`. -/
theorem C24_same_extension_output_is_input_witness :
    getOutputPath optsPlainMp4 "/a/b/clip.mp4" = "/a/b/clip.mp4" ∧
    (encodeFile demoEnv ⟨["/a/b/clip.mp4"]⟩ "/a/b/clip.mp4" optsPlainMp4).err =
      some "output file already exists: /a/b/clip.mp4" ∧
    (encodeFile demoEnv ⟨["/a/b/clip.mp4"]⟩ "/a/b/clip.mp4" optsPlainMp4).trace =
      [Event.stat "/a/b/clip.mp4", Event.mkdirAll "/a/b", Event.stat "/a/b/clip.mp4"] :=
  ⟨(C24_same_extension_output_is_input DemoWorld demoEnv ⟨["/a/b/clip.mp4"]⟩ optsPlainMp4
      "/a/b/clip.mp4" (by decide) (by decide) rfl rfl rfl).1,
   ((C24_same_extension_output_is_input DemoWorld demoEnv ⟨["/a/b/clip.mp4"]⟩ optsPlainMp4
      "/a/b/clip.mp4" (by decide) (by decide) rfl rfl rfl).2
        (by decide) (by decide)).2.2.2 rfl⟩


/-! ## Facts about the capability enumeration -/

theorem mem_checkMacCodecs (codecs : List codec.CodecInfo) (encoderList : String)
    (e : codec.CodecInfo) (h : e ∈ codec.checkMacCodecs codecs encoderList) :
    e ∈ codecs ∨
    e = { Name := "hevc_videotoolbox", DisplayName := "HEVC (Apple Silicon/Intel)",
          Hardware := "apple", Formats := ["mp4"] } ∨
    e = { Name := "h264_videotoolbox", DisplayName := "H.264 (Apple Silicon/Intel)",
          Hardware := "apple", Formats := ["mp4"] } := by
  revert h
  unfold codec.checkMacCodecs
  cases strings.Contains encoderList "hevc_videotoolbox" <;>
    cases strings.Contains encoderList "h264_videotoolbox" <;>
    simp <;> tauto

theorem mem_checkWindowsLinuxCodecs (hasNvidiaGPU hasIntelGPU : Bool)
    (codecs : List codec.CodecInfo) (encoderList : String)
    (e : codec.CodecInfo)
    (h : e ∈ codec.checkWindowsLinuxCodecs hasNvidiaGPU hasIntelGPU codecs encoderList) :
    e ∈ codecs ∨
    e = { Name := "hevc_nvenc", DisplayName := "HEVC (NVIDIA GPU)",
          Hardware := "nvidia", Formats := ["mp4"] } ∨
    e = { Name := "h264_nvenc", DisplayName := "H.264 (NVIDIA GPU)",
          Hardware := "nvidia", Formats := ["mp4"] } ∨
    e = { Name := "hevc_qsv", DisplayName := "HEVC (Intel QuickSync)",
          Hardware := "intel", Formats := ["mp4"] } ∨
    e = { Name := "h264_qsv", DisplayName := "H.264 (Intel QuickSync)",
          Hardware := "intel", Formats := ["mp4"] } := by
  revert h
  unfold codec.checkWindowsLinuxCodecs
  cases hasNvidiaGPU <;> cases hasIntelGPU <;>
    cases strings.Contains encoderList "hevc_nvenc" <;>
    cases strings.Contains encoderList "h264_nvenc" <;>
    cases strings.Contains encoderList "hevc_qsv" <;>
    cases strings.Contains encoderList "h264_qsv" <;>
    simp <;> tauto

theorem mem_checkVPCodecs (codecs : List codec.CodecInfo) (encoderList : String)
    (e : codec.CodecInfo) (h : e ∈ codec.checkVPCodecs codecs encoderList) :
    e ∈ codecs ∨
    e = { Name := "vp8", DisplayName := "VP8", Hardware := "cpu", Formats := ["webm"] } ∨
    e = { Name := "vp9", DisplayName := "VP9", Hardware := "cpu", Formats := ["webm"] } := by
  revert h
  unfold codec.checkVPCodecs
  cases strings.Contains encoderList "libvpx" <;>
    cases strings.Contains encoderList "libvpx-vp9" <;>
    simp <;> tauto

/-- Every entry of `GetAvailable` other than `h264_videotoolbox` is, with each of its
formats, in `SupportedFormats`. -/
theorem GetAvailable_allowed_of_ne (goos : String) (encoders : Except String String)
    (hasNvidiaGPU hasIntelGPU : Bool) (e : codec.CodecInfo)
    (he : e ∈ (codec.GetAvailable goos encoders hasNvidiaGPU hasIntelGPU).1)
    (hne : e.Name ≠ "h264_videotoolbox") :
    ∀ f ∈ e.Formats, ∃ l, SupportedFormats f = some l ∧ e.Name ∈ l := by
  have hbase : ∀ x : codec.CodecInfo,
      x ∈ ([] ++ [{ Name := "h264", DisplayName := "H.264 (CPU)", Hardware := "cpu",
                    Formats := ["mp4"] },
                  { Name := "hevc", DisplayName := "HEVC (CPU)", Hardware := "cpu",
                    Formats := ["mp4"] }] : List codec.CodecInfo) →
      x = { Name := "h264", DisplayName := "H.264 (CPU)", Hardware := "cpu",
            Formats := ["mp4"] } ∨
      x = { Name := "hevc", DisplayName := "HEVC (CPU)", Hardware := "cpu",
            Formats := ["mp4"] } := by
    intro x hx
    simpa using hx
  have hcases : (e.Formats = ["mp4"] ∧
        e.Name ∈ ["h264", "h264_nvenc", "h264_qsv", "hevc", "hevc_nvenc", "hevc_qsv",
          "hevc_videotoolbox"]) ∨
      (e.Formats = ["webm"] ∧ e.Name ∈ ["vp8", "vp9"]) := by
    unfold codec.GetAvailable at he
    cases encoders with
    | error err =>
      rcases hbase e he with h | h <;> subst h <;> exact Or.inl ⟨rfl, by decide⟩
    | ok encoderList =>
      simp only [] at he
      rcases mem_checkVPCodecs _ _ e he with h | h | h
      · by_cases hd : goos = "darwin"
        · rw [if_pos hd] at h
          rcases mem_checkMacCodecs _ _ e h with h | h | h
          · rcases hbase e h with h | h <;> subst h <;> exact Or.inl ⟨rfl, by decide⟩
          · subst h; exact Or.inl ⟨rfl, by decide⟩
          · subst h; exact absurd rfl hne
        · rw [if_neg hd] at h
          by_cases hw : goos = "windows" ∨ goos = "linux"
          · rw [if_pos hw] at h
            rcases mem_checkWindowsLinuxCodecs _ _ _ _ e h with h | h | h | h | h
            · rcases hbase e h with h | h <;> subst h <;> exact Or.inl ⟨rfl, by decide⟩
            all_goals subst h; exact Or.inl ⟨rfl, by decide⟩
          · rw [if_neg hw] at h
            rcases hbase e h with h | h <;> subst h <;> exact Or.inl ⟨rfl, by decide⟩
      · subst h; exact Or.inr ⟨rfl, by decide⟩
      · subst h; exact Or.inr ⟨rfl, by decide⟩
  intro f hf
  rcases hcases with ⟨hfm, hn⟩ | ⟨hfm, hn⟩
  · rw [hfm] at hf
    have : f = "mp4" := by simpa using hf
    subst this
    exact ⟨_, rfl, hn⟩
  · rw [hfm] at hf
    have : f = "webm" := by simpa using hf
    subst this
    exact ⟨_, rfl, hn⟩

/-- C23, evaluated on the failing input: on `darwin`, with an encoder list that names
`h264_videotoolbox`, `GetAvailable` returns an entry `h264_videotoolbox` with format `mp4`,
but `SupportedFormats["mp4"]` does not contain that name and `Validate` rejects the pair.
Every other entry that `GetAvailable` can return is, with each of its formats, in
`SupportedFormats`. -/
theorem C23_h264_videotoolbox_advertised_but_rejected :
    ({ Name := "h264_videotoolbox", DisplayName := "H.264 (Apple Silicon/Intel)",
       Hardware := "apple", Formats := ["mp4"] } : codec.CodecInfo) ∈
      (codec.GetAvailable "darwin"
        (Except.ok " V....D h264_videotoolbox    VideoToolbox H.264 Encoder") false false).1 ∧
    SupportedFormats "mp4" =
      some ["h264", "h264_nvenc", "h264_qsv", "hevc", "hevc_nvenc", "hevc_qsv",
        "hevc_videotoolbox"] ∧
    "h264_videotoolbox" ∉
      ["h264", "h264_nvenc", "h264_qsv", "hevc", "hevc_nvenc", "hevc_qsv",
        "hevc_videotoolbox"] ∧
    Validate optsH264VideoToolbox =
      (some "unsupported codec h264_videotoolbox for format mp4", optsH264VideoToolbox) ∧
    (∀ (goos : String) (encoders : Except String String) (hasNvidiaGPU hasIntelGPU : Bool)
      (e : codec.CodecInfo),
      e ∈ (codec.GetAvailable goos encoders hasNvidiaGPU hasIntelGPU).1 →
      e.Name ≠ "h264_videotoolbox" →
      ∀ f ∈ e.Formats, ∃ l, SupportedFormats f = some l ∧ e.Name ∈ l) :=
  ⟨by decide, by decide, by decide, by decide,
   fun goos encoders hasNvidiaGPU hasIntelGPU e he hne =>
     GetAvailable_allowed_of_ne goos encoders hasNvidiaGPU hasIntelGPU e he hne⟩

end Encoder
